import Mathlib

/-!
1D guided-filter destriping (`src/testDemo/guided_filter.cpp`).

A shallow embedding of the numeric core of the repository: the two box
filters, the two guided filters and the two-pass pipeline
`denoise1DGuidedFilter`, together with the part of OpenCV's `cv::Mat`
interface these functions use.

Conventions of the embedding.

* A `CV_64F` single-channel matrix is a pair of dimensions and a total value
  function. The source is read in two arithmetics.
  `Mat`, `rowBoxFilter`, ... carry exact rational values: the arithmetic of the
  algorithm, in which shapes, exceptions, indices and the algebraic identities
  are stated; a statement about values made on them is a statement over exact
  arithmetic.
  `ieee.Mat`, `ieee.rowBoxFilter`, ... are the same source statements on IEEE
  754 binary64 values (`Double`), every `cv::add`, `cv::subtract`,
  `cv::multiply` and `cv::divide` rounding its result to nearest, ties to even:
  the arithmetic the compiled code runs. They are evaluated on concrete inputs
  and show where rounding separates the code from the exact identities.
* A C++ function that can throw `cv::Exception` returns `Except CvError`:
  `.error e` is the thrown exception with its OpenCV error code, `.ok m` the
  returned matrix.
* `int` variables are integers; the radius arithmetic of the source
  (`w + j`, `j - w - 1`, `wid - w`) is assumed not to leave the `int` range.
* The timing and call-count bookkeeping (`PerformanceStats`, `chrono`) has no
  influence on the returned image and is not modelled.
-/

namespace gf

/-! ## The `cv::Mat` operations used by the source -/

/-- The OpenCV error codes the operations below can throw: a failed
`CV_Assert`, operands of unmatched sizes, an empty operand. -/
inductive CvError where
  | StsAssert
  | StsUnmatchedSizes
  | StsBadArg
  deriving DecidableEq, Repr

/-- A continuous single-channel `CV_64F` matrix: `rows`, `cols` and the value
at `(i, j)`; only the values with `0 ≤ i < rows`, `0 ≤ j < cols` are data.
The values are exact rationals and the operations below do not round: this is
the exact-arithmetic reading of the source. `ieee.Mat` carries binary64
values. -/
structure Mat where
  rows : Nat
  cols : Nat
  val : Int → Int → ℚ

/-- `Mat::zeros(r, c, CV_64F)`. -/
def Mat.zeros (r c : Nat) : Mat := ⟨r, c, fun _ _ => 0⟩

/-- `Mat::ones(r, c, CV_64F)`. -/
def Mat.ones (r c : Nat) : Mat := ⟨r, c, fun _ _ => 1⟩

/-- `m.empty()`: no element. -/
def Mat.empty (m : Mat) : Prop := m.rows = 0 ∨ m.cols = 0

instance (m : Mat) : Decidable m.empty := by
  unfold Mat.empty
  exact inferInstance

/-- `m.col(x)`: the sub-matrix constructor asserts `0 <= x && x + 1 <= m.cols`
and throws otherwise; the result is the `rows × 1` column. -/
def Mat.col (m : Mat) (x : Int) : Except CvError Mat :=
  if 0 ≤ x ∧ x < m.cols then .ok ⟨m.rows, 1, fun i _ => m.val i x⟩ else .error .StsAssert

/-- `m.row(y)`: asserts `0 <= y && y + 1 <= m.rows`; the `1 × cols` row. -/
def Mat.row (m : Mat) (y : Int) : Except CvError Mat :=
  if 0 ≤ y ∧ y < m.rows then .ok ⟨1, m.cols, fun _ j => m.val y j⟩ else .error .StsAssert

/-- `src.copyTo(dst.col(x))`, also `dst.col(x) = src` for an evaluated
expression `src`: the column header is taken first (it throws when `x` is out
of range); the values are written in place when `src` has the column's shape,
and a header of another shape is reallocated, which leaves `dst` untouched. -/
def Mat.copyToCol (src dst : Mat) (x : Int) : Except CvError Mat :=
  if 0 ≤ x ∧ x < dst.cols then
    if src.rows = dst.rows ∧ src.cols = 1 then
      .ok ⟨dst.rows, dst.cols, fun i j => if j = x then src.val i 0 else dst.val i j⟩
    else .ok dst
  else .error .StsAssert

/-- `src.copyTo(dst.row(y))`: as `copyToCol`, for a row. -/
def Mat.copyToRow (src dst : Mat) (y : Int) : Except CvError Mat :=
  if 0 ≤ y ∧ y < dst.rows then
    if src.rows = 1 ∧ src.cols = dst.cols then
      .ok ⟨dst.rows, dst.cols, fun i j => if i = y then src.val 0 j else dst.val i j⟩
    else .ok dst
  else .error .StsAssert

/-- OpenCV reads a `1 × 1` matrix, and a `CV_64F` matrix with 4 rows and one
column, as a scalar when the other operand has another size (`checkScalar`). -/
def Mat.isScalarLike (m : Mat) : Prop :=
  (m.rows = 1 ∧ m.cols = 1) ∨ (m.rows = 4 ∧ m.cols = 1)

instance (m : Mat) : Decidable m.isScalarLike := by
  unfold Mat.isScalarLike
  exact inferInstance

/-- The shape rule of `cv::add`, `cv::subtract`, `cv::multiply`, `cv::divide`
(`arithm_op`): element-wise on operands of one size; an operand that is read
as a scalar is broadcast; any other pair of sizes throws. -/
def Mat.arithOp (f : ℚ → ℚ → ℚ) (a b : Mat) : Except CvError Mat :=
  if a.rows = b.rows ∧ a.cols = b.cols then
    .ok ⟨a.rows, a.cols, fun i j => f (a.val i j) (b.val i j)⟩
  else if a.isScalarLike then
    .ok ⟨b.rows, b.cols, fun i j => f (a.val 0 0) (b.val i j)⟩
  else if b.isScalarLike then
    .ok ⟨a.rows, a.cols, fun i j => f (a.val i j) (b.val 0 0)⟩
  else .error .StsUnmatchedSizes

/-- `cv::add(a, b, dst)`; also the evaluation of `expr + b`. -/
def Mat.add (a b : Mat) : Except CvError Mat := Mat.arithOp (fun x y => x + y) a b

/-- `cv::subtract(a, b, dst)`; also the evaluation of `a - expr`. -/
def Mat.subtract (a b : Mat) : Except CvError Mat := Mat.arithOp (fun x y => x - y) a b

/-- `a.mul(b)` once evaluated (`cv::multiply`). -/
def Mat.mul (a b : Mat) : Except CvError Mat := Mat.arithOp (fun x y => x * y) a b

/-- `cv::divide(a, b, dst)` over exact arithmetic. A zero divisor gives 0
here, as in OpenCV up to 3.x; OpenCV 4 gives the IEEE infinity or NaN there,
which is not a rational number and is what `ieee.Mat.divide` returns. The
statements about values below keep every divisor non-zero. -/
def Mat.divide (a b : Mat) : Except CvError Mat := Mat.arithOp (fun x y => x / y) a b

/-- `a + b` on two `Mat` operands: the operator first checks that no operand
is empty (`checkOperandsExist`), then adds. -/
def Mat.opAdd (a b : Mat) : Except CvError Mat :=
  if a.empty ∨ b.empty then .error .StsBadArg else Mat.add a b

/-- `a - b` on two `Mat` operands: the emptiness check, then `cv::subtract`. -/
def Mat.opSub (a b : Mat) : Except CvError Mat :=
  if a.empty ∨ b.empty then .error .StsBadArg else Mat.subtract a b

/-- `a + s` for a `Mat` and a `double`: the emptiness check, then the scalar
is added to every element. -/
def Mat.opAddScalar (a : Mat) (s : ℚ) : Except CvError Mat :=
  if a.empty then .error .StsBadArg else .ok ⟨a.rows, a.cols, fun i j => a.val i j + s⟩

/-- `cvRound(x)` of OpenCV: the nearest integer, a tie going to the even
neighbour. OpenCV implements it by `_mm_cvtsd_si32` or `lrint`, which round in
the current (default: to nearest, ties to even) mode, so `cvRound(0.5) = 0`,
`cvRound(1.5) = 2` and `cvRound(2.5) = 2`. -/
def cvRound (x : ℚ) : Int :=
  if x - ⌊x⌋ < 1 / 2 then ⌊x⌋
  else if 1 / 2 < x - ⌊x⌋ then ⌊x⌋ + 1
  else if ⌊x⌋ % 2 = 0 then ⌊x⌋ else ⌊x⌋ + 1

/-! ## Loops -/

/-- Run `body j` for `k` consecutive values of `j` from `j` on, threading the
state; an iteration that throws ends the loop with the exception. -/
def forLoop {σ : Type} (body : Int → σ → Except CvError σ) :
    Nat → Int → σ → Except CvError σ
  | 0, _, s => .ok s
  | k + 1, j, s => body j s >>= forLoop body k (j + 1)

/-- The loop `for (int j = lo; j < hi; j++) body`. -/
def forRange {σ : Type} (lo hi : Int) (body : Int → σ → Except CvError σ) (s : σ) :
    Except CvError σ :=
  forLoop body (hi - lo).toNat lo s

/-! ## `guided_filter.cpp` -/

/-- The cumulative sum along X of `rowBoxFilter` (source lines 88-92). -/
def rowCumSum (imSrc : Mat) : Except CvError Mat := do
  let hei := imSrc.rows
  let wid := imSrc.cols
  let imCum := Mat.zeros hei wid
  let imCum ← (← imSrc.col 0).copyToCol imCum 0
  forRange 1 wid (fun j imCum => do
    (← Mat.opAdd (← imCum.col (j - 1)) (← imSrc.col j)).copyToCol imCum j) imCum

/-- `Mat rowBoxFilter(const Mat& imSrc, int w)`. -/
def rowBoxFilter (imSrc : Mat) (w : Int) : Except CvError Mat := do
  let hei := imSrc.rows
  let wid := imSrc.cols
  let imDst := Mat.zeros hei wid
  let imCum ← rowCumSum imSrc
  let imDst ← forRange 0 (w + 1) (fun j imDst => do
    (← imCum.col (w + j)).copyToCol imDst j) imDst
  let imDst ← forRange (w + 1) (wid - w) (fun j imDst => do
    (← Mat.opSub (← imCum.col (j + w)) (← imCum.col (j - w - 1))).copyToCol imDst j) imDst
  let imDst ← forRange (wid - w) wid (fun j imDst => do
    (← Mat.opSub (← imCum.col (wid - 1)) (← imCum.col (j - w - 1))).copyToCol imDst j) imDst
  return imDst

/-- The cumulative sum along Y of `columnBoxFilter` (source lines 124-128). -/
def columnCumSum (imSrc : Mat) : Except CvError Mat := do
  let hei := imSrc.rows
  let wid := imSrc.cols
  let imCum := Mat.zeros hei wid
  let imCum ← (← imSrc.row 0).copyToRow imCum 0
  forRange 1 hei (fun i imCum => do
    (← Mat.opAdd (← imCum.row (i - 1)) (← imSrc.row i)).copyToRow imCum i) imCum

/-- `Mat columnBoxFilter(const Mat& imSrc, int h)`. -/
def columnBoxFilter (imSrc : Mat) (h : Int) : Except CvError Mat := do
  let hei := imSrc.rows
  let wid := imSrc.cols
  let imDst := Mat.zeros hei wid
  let imCum ← columnCumSum imSrc
  let imDst ← forRange 0 (h + 1) (fun i imDst => do
    (← imCum.row (h + i)).copyToRow imDst i) imDst
  let imDst ← forRange (h + 1) (hei - h) (fun i imDst => do
    (← Mat.opSub (← imCum.row (i + h)) (← imCum.row (i - h - 1))).copyToRow imDst i) imDst
  let imDst ← forRange (hei - h) hei (fun i imDst => do
    (← Mat.opSub (← imCum.row (hei - 1)) (← imCum.row (i - h - 1))).copyToRow imDst i) imDst
  return imDst

/-- `Mat rowGuidedFilter(const Mat& I, const Mat& p, int r, double eps)`. -/
def rowGuidedFilter (I p : Mat) (r : Int) (eps : ℚ) : Except CvError Mat := do
  let hei := I.rows
  let wid := I.cols
  let ones_mat := Mat.ones hei wid
  let N ← rowBoxFilter ones_mat r
  let mean_I ← Mat.divide (← rowBoxFilter I r) N
  let mean_p ← Mat.divide (← rowBoxFilter p r) N
  let mean_Ip ← Mat.divide (← rowBoxFilter (← I.mul p) r) N
  let cov_Ip ← Mat.subtract mean_Ip (← mean_I.mul mean_p)
  let mean_II ← Mat.divide (← rowBoxFilter (← I.mul I) r) N
  let var_I ← Mat.subtract mean_II (← mean_I.mul mean_I)
  let a ← Mat.divide cov_Ip (← var_I.opAddScalar eps)
  let b ← Mat.subtract mean_p (← a.mul mean_I)
  let mean_a ← Mat.divide (← rowBoxFilter a r) N
  let mean_b ← Mat.divide (← rowBoxFilter b r) N
  let q ← Mat.add (← mean_a.mul I) mean_b
  return q

/-- `Mat columnGuidedFilter(const Mat& I, const Mat& p, int r, double eps)`. -/
def columnGuidedFilter (I p : Mat) (r : Int) (eps : ℚ) : Except CvError Mat := do
  let hei := I.rows
  let wid := I.cols
  let ones_mat := Mat.ones hei wid
  let N ← columnBoxFilter ones_mat r
  let mean_I ← Mat.divide (← columnBoxFilter I r) N
  let mean_p ← Mat.divide (← columnBoxFilter p r) N
  let mean_Ip ← Mat.divide (← columnBoxFilter (← I.mul p) r) N
  let cov_Ip ← Mat.subtract mean_Ip (← mean_I.mul mean_p)
  let mean_II ← Mat.divide (← columnBoxFilter (← I.mul I) r) N
  let var_I ← Mat.subtract mean_II (← mean_I.mul mean_I)
  let a ← Mat.divide cov_Ip (← var_I.opAddScalar eps)
  let b ← Mat.subtract mean_p (← a.mul mean_I)
  let mean_a ← Mat.divide (← columnBoxFilter a r) N
  let mean_b ← Mat.divide (← columnBoxFilter b r) N
  let q ← Mat.add (← mean_a.mul I) mean_b
  return q

/-- The matrices `denoise1DGuidedFilter` computes on its way. -/
structure DenoiseStages where
  smooth : Mat
  highpart : Mat
  strip : Mat
  im_output : Mat

/-- The column radius of `denoise1DGuidedFilter`:
`cvRound(0.5 * (rows * 0.25 - 1))`. -/
def colRadius (rows : Nat) : Int := cvRound (0.5 * ((rows : ℚ) * 0.25 - 1))

/-- The body of `denoise1DGuidedFilter(input, stats, row_radius, row_eps,
col_eps)`, returning every local image. -/
def denoiseStages (input : Mat) (row_radius : Int) (row_eps col_eps : ℚ) :
    Except CvError DenoiseStages := do
  let rows := input.rows
  let cols := input.cols
  let smooth := Mat.zeros rows cols
  let smooth ← forRange 0 rows (fun i smooth => do
    let row_i ← input.row i
    let result ← rowGuidedFilter row_i row_i row_radius row_eps
    result.copyToRow smooth i) smooth
  let highpart ← Mat.opSub input smooth
  let strip := Mat.zeros rows cols
  let r_col := colRadius rows
  let strip ← forRange 0 cols (fun j strip => do
    let smooth_col ← smooth.col j
    let highpart_col ← highpart.col j
    let result ← columnGuidedFilter smooth_col highpart_col r_col col_eps
    result.copyToCol strip j) strip
  let im_output ← Mat.opSub input strip
  return ⟨smooth, highpart, strip, im_output⟩

/-- `Mat denoise1DGuidedFilter(const Mat& input, int row_radius, double
row_eps, double col_eps)` (both overloads return the same image). -/
def denoise1DGuidedFilter (input : Mat) (row_radius : Int) (row_eps col_eps : ℚ) :
    Except CvError Mat :=
  (denoiseStages input row_radius row_eps col_eps).map (fun s => s.im_output)

/-! ## Concrete inputs and outputs -/

/-- A matrix from its rows, for concrete inputs. -/
def Mat.ofRows (r c : Nat) (l : List (List ℚ)) : Mat :=
  ⟨r, c, fun i j => if 0 ≤ i ∧ 0 ≤ j then (l.getD i.toNat []).getD j.toNat 0 else 0⟩

/-- The data of a matrix as a list of rows. -/
def Mat.toRows (m : Mat) : List (List ℚ) :=
  (List.range m.rows).map (fun i => (List.range m.cols).map (fun j => m.val i j))

/-! ## The notions of the specification -/

/-- The naive clamped sliding-window sum of the specification: the sum of
`src t` over `t` from `max(0, j - w)` to `min(n - 1, j + w)`. -/
def windowSum (src : Int → ℚ) (n : Nat) (w : Int) (j : Int) : ℚ :=
  ∑ t in Finset.Icc (max 0 (j - w)) (min ((n : Int) - 1) (j + w)), src t

/-- The image of naive window sums along each row (zero outside the image). -/
def rowBoxSpec (M : Mat) (w : Int) : Mat :=
  ⟨M.rows, M.cols, fun i j =>
    if 0 ≤ j ∧ j < M.cols then windowSum (fun t => M.val i t) M.cols w j else 0⟩

/-- The image of naive window sums along each column. -/
def columnBoxSpec (M : Mat) (h : Int) : Mat :=
  ⟨M.rows, M.cols, fun i j =>
    if 0 ≤ i ∧ i < M.rows then windowSum (fun t => M.val t j) M.rows h i else 0⟩

/-- The clamped window `[max(0, k - r), min(n - 1, k + r)]` centred at `k`. -/
def window (n : Nat) (r k : Int) : Finset Int :=
  Finset.Icc (max 0 (k - r)) (min ((n : Int) - 1) (k + r))

/-- The mean of `f` over the clamped window centred at `k`. -/
def winMean (f : Int → ℚ) (n : Nat) (r k : Int) : ℚ :=
  (∑ t in window n r k, f t) / ((window n r k).card : ℚ)

/-- The covariance of `f` and `g` over the clamped window centred at `k`:
the mean of the products of the deviations from the window means. -/
def winCov (f g : Int → ℚ) (n : Nat) (r k : Int) : ℚ :=
  winMean (fun t => (f t - winMean f n r k) * (g t - winMean g n r k)) n r k

/-- The variance of `f` over the clamped window centred at `k`. -/
def winVar (f : Int → ℚ) (n : Nat) (r k : Int) : ℚ := winCov f f n r k

/-- The slope `a[k] = cov_k(I, p) / (var_k(I) + eps)`. -/
def coefA (I p : Int → ℚ) (n : Nat) (r : Int) (eps : ℚ) (k : Int) : ℚ :=
  winCov I p n r k / (winVar I n r k + eps)

/-- The intercept `b[k] = mean_k(p) - a[k] * mean_k(I)`. -/
def coefB (I p : Int → ℚ) (n : Nat) (r : Int) (eps : ℚ) (k : Int) : ℚ :=
  winMean p n r k - coefA I p n r eps k * winMean I n r k

/-- The guided-filter output of the specification at index `j`:
`mean_a[j] * I[j] + mean_b[j]`. -/
def guidedSpec (I p : Int → ℚ) (n : Nat) (r : Int) (eps : ℚ) (j : Int) : ℚ :=
  winMean (coefA I p n r eps) n r j * I j + winMean (coefB I p n r eps) n r j

/-- The image whose every row is the guided-filter output of the
specification for that row of `I` and `p` (zero outside the image). -/
def rowGuidedSpec (I p : Mat) (r : Int) (eps : ℚ) : Mat :=
  ⟨I.rows, I.cols, fun i j =>
    if 0 ≤ j ∧ j < I.cols then
      guidedSpec (fun t => I.val i t) (fun t => p.val i t) I.cols r eps j
    else 0⟩

/-- The image whose every column is the guided-filter output of the
specification for that column of `I` and `p`. -/
def columnGuidedSpec (I p : Mat) (r : Int) (eps : ℚ) : Mat :=
  ⟨I.rows, I.cols, fun i j =>
    if 0 ≤ i ∧ i < I.rows then
      guidedSpec (fun t => I.val t j) (fun t => p.val t j) I.rows r eps i
    else 0⟩

/-! ## Closed forms used in the proofs -/

/-- The prefix sum `cum[k]` of the specification. -/
def prefixSum (f : Int → ℚ) (k : Int) : ℚ := ∑ t in Finset.Icc 0 k, f t

/-- The element-wise combination of two matrices of one size. -/
def Mat.zipWith (f : ℚ → ℚ → ℚ) (a b : Mat) : Mat :=
  ⟨a.rows, a.cols, fun i j => f (a.val i j) (b.val i j)⟩

/-- The box filter of the source on one line of length `n`, when its
precondition holds: the window sum inside the line, zero outside. -/
def box1D (f : Int → ℚ) (n : Nat) (r : Int) (j : Int) : ℚ :=
  if 0 ≤ j ∧ j < n then windowSum f n r j else 0

/-- The arithmetic of `rowGuidedFilter` / `columnGuidedFilter` on one line of
length `n`, statement by statement. -/
def guided1D (I p : Int → ℚ) (n : Nat) (r : Int) (eps : ℚ) (j : Int) : ℚ :=
  let N := box1D (fun _ => 1) n r
  let mean_I := fun t => box1D I n r t / N t
  let mean_p := fun t => box1D p n r t / N t
  let mean_Ip := fun t => box1D (fun s => I s * p s) n r t / N t
  let cov_Ip := fun t => mean_Ip t - mean_I t * mean_p t
  let mean_II := fun t => box1D (fun s => I s * I s) n r t / N t
  let var_I := fun t => mean_II t - mean_I t * mean_I t
  let a := fun t => cov_Ip t / (var_I t + eps)
  let b := fun t => mean_p t - a t * mean_I t
  let mean_a := fun t => box1D a n r t / N t
  let mean_b := fun t => box1D b n r t / N t
  mean_a j * I j + mean_b j

/-- The header `m.row(y)` for `y` in range. -/
def Mat.rowAt (m : Mat) (y : Int) : Mat := ⟨1, m.cols, fun _ j => m.val y j⟩

/-- The header `m.col(x)` for `x` in range. -/
def Mat.colAt (m : Mat) (x : Int) : Mat := ⟨m.rows, 1, fun i _ => m.val i x⟩

/-- The image `smooth`: row `i` is the self-guided filter output of row `i`. -/
def smoothSpec (input : Mat) (row_radius : Int) (row_eps : ℚ) : Mat :=
  ⟨input.rows, input.cols, fun i j =>
    if 0 ≤ i ∧ i < input.rows then
      (rowGuidedSpec (input.rowAt i) (input.rowAt i) row_radius row_eps).val 0 j
    else 0⟩

/-- The image `strip`: column `j` is the guided filter output for the guide
column `smooth[:, j]` and the input column `highpart[:, j]`. -/
def stripSpec (smooth highpart : Mat) (r_col : Int) (col_eps : ℚ) : Mat :=
  ⟨smooth.rows, smooth.cols, fun i j =>
    if 0 ≤ j ∧ j < smooth.cols then
      (columnGuidedSpec (smooth.colAt j) (highpart.colAt j) r_col col_eps).val i 0
    else 0⟩

/-- The four images of the pipeline when nothing throws. -/
def stagesSpec (input : Mat) (row_radius : Int) (row_eps col_eps : ℚ) : DenoiseStages :=
  let smooth := smoothSpec input row_radius row_eps
  let highpart := Mat.zipWith (fun x y => x - y) input smooth
  let strip := stripSpec smooth highpart (colRadius input.rows) col_eps
  ⟨smooth, highpart, strip, Mat.zipWith (fun x y => x - y) input strip⟩

/-- The conventional rounding to the nearest integer, a tie going away from
zero (the `round` of the specification as claim C7 reads it). -/
def roundHalfAway (x : ℚ) : Int := if 0 ≤ x then ⌊x + 1 / 2⌋ else ⌈x - 1 / 2⌉

/-- The value at `(i, j)` of a returned image (0 when the call threw). -/
def valueAt (x : Except CvError Mat) (i j : Int) : ℚ :=
  match x with
  | .ok m => m.val i j
  | .error _ => 0

/-- `m.t()`: the transposed matrix. -/
def Mat.transpose (m : Mat) : Mat := ⟨m.cols, m.rows, fun i j => m.val j i⟩

/-! ## The binary64 reading of the source

`Double` is an IEEE 754 binary64 value and `Double.add`, `Double.sub`,
`Double.mul`, `Double.div` are the four operations in the default rounding
mode (to nearest, ties to even), with signed zeros, infinities and NaN. The
namespace `ieee` repeats the `cv::Mat` operations and the functions of
`guided_filter.cpp` statement by statement on these values. -/

/-- An IEEE 754 binary64 value (`double`): a signed zero, a finite non-zero
number, a signed infinity or a NaN. In `num q` the rational `q` is one of the
binary64 numbers, that is `Double.round q = num q`; the operations below
return such values only. -/
inductive Double where
  | zero (neg : Bool)
  | num (q : ℚ)
  | inf (neg : Bool)
  | nan
  deriving DecidableEq

/-- The power `2 ^ e` for an integer exponent. -/
def twoPow (e : Int) : ℚ :=
  if 0 ≤ e then ((2 ^ e.toNat : Nat) : ℚ) else 1 / ((2 ^ (-e).toNat : Nat) : ℚ)

/-- The number of halvings that bring `n` below 2, at most `fuel` of them. -/
def log2Fuel : Nat → Nat → Nat
  | 0, _ => 0
  | fuel + 1, n => if n < 2 then 0 else log2Fuel fuel (n / 2) + 1

/-- The exponent `k` with `2 ^ k ≤ n < 2 ^ (k + 1)`, for `n ≥ 1`. -/
def natLog2 (n : Nat) : Nat := log2Fuel n n

/-- The exponent `e` with `2 ^ e ≤ a < 2 ^ (e + 1)`, for `a > 0`. -/
def floorLog2 (a : ℚ) : Int :=
  let e : Int := (natLog2 a.num.natAbs : Int) - (natLog2 a.den : Int)
  if twoPow e ≤ a then e else e - 1

/-- The binary64 value of an exact real result `x`, rounded to nearest with
ties to even: 53 significant bits, the spacing `2 ^ -1074` below `2 ^ -1022`
(subnormals), overflow to infinity from `2 ^ 1024` on. An exact zero is `+0`. -/
def Double.round (x : ℚ) : Double :=
  if x = 0 then .zero false
  else
    let a := |x|
    let e := max (floorLog2 a) (-1022)
    let ulp := twoPow (e - 52)
    let r := (cvRound (a / ulp) : ℚ) * ulp
    if twoPow 1024 ≤ r then .inf (decide (x < 0))
    else if r = 0 then .zero (decide (x < 0))
    else .num (if x < 0 then -r else r)

/-- `-x`. -/
def Double.neg : Double → Double
  | .zero s => .zero (!s)
  | .num q => .num (-q)
  | .inf s => .inf (!s)
  | .nan => .nan

/-- `x + y` in binary64. -/
def Double.add : Double → Double → Double
  | .nan, _ => .nan
  | _, .nan => .nan
  | .inf s, .inf t => if s = t then .inf s else .nan
  | .inf s, _ => .inf s
  | _, .inf t => .inf t
  | .zero s, .zero t => .zero (s && t)
  | .zero _, .num q => .num q
  | .num p, .zero _ => .num p
  | .num p, .num q => Double.round (p + q)

/-- `x - y` in binary64. -/
def Double.sub (x y : Double) : Double := Double.add x (Double.neg y)

/-- `x * y` in binary64. -/
def Double.mul : Double → Double → Double
  | .nan, _ => .nan
  | _, .nan => .nan
  | .inf _, .zero _ => .nan
  | .zero _, .inf _ => .nan
  | .inf s, .inf t => .inf (s != t)
  | .inf s, .num q => .inf (s != decide (q < 0))
  | .num p, .inf t => .inf (decide (p < 0) != t)
  | .zero s, .zero t => .zero (s != t)
  | .zero s, .num q => .zero (s != decide (q < 0))
  | .num p, .zero t => .zero (decide (p < 0) != t)
  | .num p, .num q => Double.round (p * q)

/-- `x / y` in binary64. -/
def Double.div : Double → Double → Double
  | .nan, _ => .nan
  | _, .nan => .nan
  | .inf _, .inf _ => .nan
  | .zero _, .zero _ => .nan
  | .inf s, .zero t => .inf (s != t)
  | .inf s, .num q => .inf (s != decide (q < 0))
  | .zero s, .inf t => .zero (s != t)
  | .zero s, .num q => .zero (s != decide (q < 0))
  | .num p, .inf t => .zero (decide (p < 0) != t)
  | .num p, .zero t => .inf (decide (p < 0) != t)
  | .num p, .num q => Double.round (p / q)

/-- The real number a finite value stands for (0 for an infinity or a NaN). -/
def Double.toRat : Double → ℚ
  | .num q => q
  | _ => 0

namespace ieee

/-- A continuous single-channel `CV_64F` matrix with binary64 values. -/
structure Mat where
  rows : Nat
  cols : Nat
  val : Int → Int → Double

/-- `Mat::zeros(r, c, CV_64F)`. -/
def Mat.zeros (r c : Nat) : Mat := ⟨r, c, fun _ _ => .zero false⟩

/-- `Mat::ones(r, c, CV_64F)`. -/
def Mat.ones (r c : Nat) : Mat := ⟨r, c, fun _ _ => .num 1⟩

/-- `m.empty()`: no element. -/
def Mat.empty (m : Mat) : Prop := m.rows = 0 ∨ m.cols = 0

instance (m : Mat) : Decidable m.empty := by
  unfold Mat.empty
  exact inferInstance

/-- `m.col(x)`: asserts `0 <= x && x + 1 <= m.cols`; the `rows × 1` column. -/
def Mat.col (m : Mat) (x : Int) : Except CvError Mat :=
  if 0 ≤ x ∧ x < m.cols then .ok ⟨m.rows, 1, fun i _ => m.val i x⟩ else .error .StsAssert

/-- `m.row(y)`: asserts `0 <= y && y + 1 <= m.rows`; the `1 × cols` row. -/
def Mat.row (m : Mat) (y : Int) : Except CvError Mat :=
  if 0 ≤ y ∧ y < m.rows then .ok ⟨1, m.cols, fun _ j => m.val y j⟩ else .error .StsAssert

/-- `src.copyTo(dst.col(x))`, also `dst.col(x) = src` for an evaluated
expression `src`. -/
def Mat.copyToCol (src dst : Mat) (x : Int) : Except CvError Mat :=
  if 0 ≤ x ∧ x < dst.cols then
    if src.rows = dst.rows ∧ src.cols = 1 then
      .ok ⟨dst.rows, dst.cols, fun i j => if j = x then src.val i 0 else dst.val i j⟩
    else .ok dst
  else .error .StsAssert

/-- `src.copyTo(dst.row(y))`. -/
def Mat.copyToRow (src dst : Mat) (y : Int) : Except CvError Mat :=
  if 0 ≤ y ∧ y < dst.rows then
    if src.rows = 1 ∧ src.cols = dst.cols then
      .ok ⟨dst.rows, dst.cols, fun i j => if i = y then src.val 0 j else dst.val i j⟩
    else .ok dst
  else .error .StsAssert

/-- A `1 × 1` matrix, and a `CV_64F` matrix with 4 rows and one column, is read
as a scalar when the other operand has another size (`checkScalar`). -/
def Mat.isScalarLike (m : Mat) : Prop :=
  (m.rows = 1 ∧ m.cols = 1) ∨ (m.rows = 4 ∧ m.cols = 1)

instance (m : Mat) : Decidable m.isScalarLike := by
  unfold Mat.isScalarLike
  exact inferInstance

/-- The shape rule of `cv::add`, `cv::subtract`, `cv::multiply`, `cv::divide`
(`arithm_op`), each element computed by the binary64 operation `f`. -/
def Mat.arithOp (f : Double → Double → Double) (a b : Mat) : Except CvError Mat :=
  if a.rows = b.rows ∧ a.cols = b.cols then
    .ok ⟨a.rows, a.cols, fun i j => f (a.val i j) (b.val i j)⟩
  else if a.isScalarLike then
    .ok ⟨b.rows, b.cols, fun i j => f (a.val 0 0) (b.val i j)⟩
  else if b.isScalarLike then
    .ok ⟨a.rows, a.cols, fun i j => f (a.val i j) (b.val 0 0)⟩
  else .error .StsUnmatchedSizes

/-- `cv::add(a, b, dst)`; also the evaluation of `expr + b`. -/
def Mat.add (a b : Mat) : Except CvError Mat := Mat.arithOp Double.add a b

/-- `cv::subtract(a, b, dst)`; also the evaluation of `a - expr`. -/
def Mat.subtract (a b : Mat) : Except CvError Mat := Mat.arithOp Double.sub a b

/-- `a.mul(b)` once evaluated (`cv::multiply`). -/
def Mat.mul (a b : Mat) : Except CvError Mat := Mat.arithOp Double.mul a b

/-- `cv::divide(a, b, dst)` on `CV_64F` in OpenCV 4: the IEEE quotient, so a
zero divisor gives an infinity or a NaN. -/
def Mat.divide (a b : Mat) : Except CvError Mat := Mat.arithOp Double.div a b

/-- `a + b` on two `Mat` operands: the emptiness check, then `cv::add`. -/
def Mat.opAdd (a b : Mat) : Except CvError Mat :=
  if a.empty ∨ b.empty then .error .StsBadArg else Mat.add a b

/-- `a - b` on two `Mat` operands: the emptiness check, then `cv::subtract`. -/
def Mat.opSub (a b : Mat) : Except CvError Mat :=
  if a.empty ∨ b.empty then .error .StsBadArg else Mat.subtract a b

/-- `a + s` for a `Mat` and a `double`: the emptiness check, then the scalar
is added to every element. -/
def Mat.opAddScalar (a : Mat) (s : Double) : Except CvError Mat :=
  if a.empty then .error .StsBadArg
  else .ok ⟨a.rows, a.cols, fun i j => Double.add (a.val i j) s⟩

/-- The cumulative sum along X of `rowBoxFilter` (source lines 88-92). -/
def rowCumSum (imSrc : Mat) : Except CvError Mat := do
  let hei := imSrc.rows
  let wid := imSrc.cols
  let imCum := Mat.zeros hei wid
  let imCum ← (← imSrc.col 0).copyToCol imCum 0
  forRange 1 wid (fun j imCum => do
    (← Mat.opAdd (← imCum.col (j - 1)) (← imSrc.col j)).copyToCol imCum j) imCum

/-- `Mat rowBoxFilter(const Mat& imSrc, int w)`. -/
def rowBoxFilter (imSrc : Mat) (w : Int) : Except CvError Mat := do
  let hei := imSrc.rows
  let wid := imSrc.cols
  let imDst := Mat.zeros hei wid
  let imCum ← rowCumSum imSrc
  let imDst ← forRange 0 (w + 1) (fun j imDst => do
    (← imCum.col (w + j)).copyToCol imDst j) imDst
  let imDst ← forRange (w + 1) (wid - w) (fun j imDst => do
    (← Mat.opSub (← imCum.col (j + w)) (← imCum.col (j - w - 1))).copyToCol imDst j) imDst
  let imDst ← forRange (wid - w) wid (fun j imDst => do
    (← Mat.opSub (← imCum.col (wid - 1)) (← imCum.col (j - w - 1))).copyToCol imDst j) imDst
  return imDst

/-- The cumulative sum along Y of `columnBoxFilter` (source lines 124-128). -/
def columnCumSum (imSrc : Mat) : Except CvError Mat := do
  let hei := imSrc.rows
  let wid := imSrc.cols
  let imCum := Mat.zeros hei wid
  let imCum ← (← imSrc.row 0).copyToRow imCum 0
  forRange 1 hei (fun i imCum => do
    (← Mat.opAdd (← imCum.row (i - 1)) (← imSrc.row i)).copyToRow imCum i) imCum

/-- `Mat columnBoxFilter(const Mat& imSrc, int h)`. -/
def columnBoxFilter (imSrc : Mat) (h : Int) : Except CvError Mat := do
  let hei := imSrc.rows
  let wid := imSrc.cols
  let imDst := Mat.zeros hei wid
  let imCum ← columnCumSum imSrc
  let imDst ← forRange 0 (h + 1) (fun i imDst => do
    (← imCum.row (h + i)).copyToRow imDst i) imDst
  let imDst ← forRange (h + 1) (hei - h) (fun i imDst => do
    (← Mat.opSub (← imCum.row (i + h)) (← imCum.row (i - h - 1))).copyToRow imDst i) imDst
  let imDst ← forRange (hei - h) hei (fun i imDst => do
    (← Mat.opSub (← imCum.row (hei - 1)) (← imCum.row (i - h - 1))).copyToRow imDst i) imDst
  return imDst

/-- `Mat rowGuidedFilter(const Mat& I, const Mat& p, int r, double eps)`. -/
def rowGuidedFilter (I p : Mat) (r : Int) (eps : Double) : Except CvError Mat := do
  let hei := I.rows
  let wid := I.cols
  let ones_mat := Mat.ones hei wid
  let N ← rowBoxFilter ones_mat r
  let mean_I ← Mat.divide (← rowBoxFilter I r) N
  let mean_p ← Mat.divide (← rowBoxFilter p r) N
  let mean_Ip ← Mat.divide (← rowBoxFilter (← I.mul p) r) N
  let cov_Ip ← Mat.subtract mean_Ip (← mean_I.mul mean_p)
  let mean_II ← Mat.divide (← rowBoxFilter (← I.mul I) r) N
  let var_I ← Mat.subtract mean_II (← mean_I.mul mean_I)
  let a ← Mat.divide cov_Ip (← var_I.opAddScalar eps)
  let b ← Mat.subtract mean_p (← a.mul mean_I)
  let mean_a ← Mat.divide (← rowBoxFilter a r) N
  let mean_b ← Mat.divide (← rowBoxFilter b r) N
  let q ← Mat.add (← mean_a.mul I) mean_b
  return q

/-- `Mat columnGuidedFilter(const Mat& I, const Mat& p, int r, double eps)`. -/
def columnGuidedFilter (I p : Mat) (r : Int) (eps : Double) : Except CvError Mat := do
  let hei := I.rows
  let wid := I.cols
  let ones_mat := Mat.ones hei wid
  let N ← columnBoxFilter ones_mat r
  let mean_I ← Mat.divide (← columnBoxFilter I r) N
  let mean_p ← Mat.divide (← columnBoxFilter p r) N
  let mean_Ip ← Mat.divide (← columnBoxFilter (← I.mul p) r) N
  let cov_Ip ← Mat.subtract mean_Ip (← mean_I.mul mean_p)
  let mean_II ← Mat.divide (← columnBoxFilter (← I.mul I) r) N
  let var_I ← Mat.subtract mean_II (← mean_I.mul mean_I)
  let a ← Mat.divide cov_Ip (← var_I.opAddScalar eps)
  let b ← Mat.subtract mean_p (← a.mul mean_I)
  let mean_a ← Mat.divide (← columnBoxFilter a r) N
  let mean_b ← Mat.divide (← columnBoxFilter b r) N
  let q ← Mat.add (← mean_a.mul I) mean_b
  return q

/-- The matrices `denoise1DGuidedFilter` computes on its way. -/
structure DenoiseStages where
  smooth : Mat
  highpart : Mat
  strip : Mat
  im_output : Mat

/-- The body of `denoise1DGuidedFilter(input, stats, row_radius, row_eps,
col_eps)`, returning every local image. -/
def denoiseStages (input : Mat) (row_radius : Int) (row_eps col_eps : Double) :
    Except CvError DenoiseStages := do
  let rows := input.rows
  let cols := input.cols
  let smooth := Mat.zeros rows cols
  let smooth ← forRange 0 rows (fun i smooth => do
    let row_i ← input.row i
    let result ← rowGuidedFilter row_i row_i row_radius row_eps
    result.copyToRow smooth i) smooth
  let highpart ← Mat.opSub input smooth
  let strip := Mat.zeros rows cols
  let r_col := colRadius rows
  let strip ← forRange 0 cols (fun j strip => do
    let smooth_col ← smooth.col j
    let highpart_col ← highpart.col j
    let result ← columnGuidedFilter smooth_col highpart_col r_col col_eps
    result.copyToCol strip j) strip
  let im_output ← Mat.opSub input strip
  return ⟨smooth, highpart, strip, im_output⟩

/-- `Mat denoise1DGuidedFilter(const Mat& input, int row_radius, double
row_eps, double col_eps)` (both overloads return the same image). -/
def denoise1DGuidedFilter (input : Mat) (row_radius : Int) (row_eps col_eps : Double) :
    Except CvError Mat :=
  (denoiseStages input row_radius row_eps col_eps).map (fun s => s.im_output)

/-- A matrix from its rows, for concrete inputs. -/
def Mat.ofRows (r c : Nat) (l : List (List Double)) : Mat :=
  ⟨r, c, fun i j =>
    if 0 ≤ i ∧ 0 ≤ j then (l.getD i.toNat []).getD j.toNat (.zero false) else .zero false⟩

/-- The data of a matrix as a list of rows. -/
def Mat.toRows (m : Mat) : List (List Double) :=
  (List.range m.rows).map (fun i => (List.range m.cols).map (fun j => m.val i j))

end ieee

/-! ## Basic lemmas on exceptions and loops -/

@[simp] theorem ok_bind {α β : Type} (a : α) (f : α → Except CvError β) :
    (Except.ok a >>= f) = f a := id rfl

@[simp] theorem error_bind {α β : Type} (e : CvError) (f : α → Except CvError β) :
    ((Except.error e : Except CvError α) >>= f) = Except.error e := id rfl

@[simp] theorem pure_eq_ok {α : Type} (a : α) : (pure a : Except CvError α) = Except.ok a := id rfl

theorem Mat.eq_iff (a b : Mat) : a = b ↔ a.rows = b.rows ∧ a.cols = b.cols ∧ a.val = b.val := by
  cases a; cases b; simp

/-- A loop whose every iteration succeeds and keeps an invariant succeeds and
establishes the invariant at the exit index. -/
theorem forLoop_inv {σ : Type} (body : Int → σ → Except CvError σ) (P : Int → σ → Prop) :
    ∀ (k : Nat) (lo : Int) (s : σ), P lo s →
      (∀ j s, lo ≤ j → j < lo + k → P j s → ∃ s', body j s = .ok s' ∧ P (j + 1) s') →
      ∃ s', forLoop body k lo s = .ok s' ∧ P (lo + k) s' := by
  intro k
  induction k with
  | zero => intro lo s h0 _; exact ⟨s, rfl, by simpa using h0⟩
  | succ k ih =>
    intro lo s h0 hstep
    obtain ⟨s1, hs1, hP1⟩ := hstep lo s le_rfl (by push_cast; omega) h0
    obtain ⟨s2, hs2, hP2⟩ := ih (lo + 1) s1 hP1 (fun j s hj1 hj2 hP =>
      hstep j s (by omega) (by push_cast; omega) hP)
    refine ⟨s2, ?_, ?_⟩
    · simp [forLoop, hs1, hs2]
    · have : lo + ((k + 1 : Nat) : Int) = lo + 1 + k := by push_cast; ring
      rw [this]; exact hP2

/-- A loop with an iteration in range that throws from every state throws. -/
theorem forLoop_throws {σ : Type} (body : Int → σ → Except CvError σ) (j0 : Int)
    (hbad : ∀ s, ∃ e, body j0 s = .error e) :
    ∀ (k : Nat) (lo : Int) (s : σ), lo ≤ j0 → j0 < lo + k →
      ∃ e, forLoop body k lo s = .error e := by
  intro k
  induction k with
  | zero => intro lo s h1 h2; simp at h2; omega
  | succ k ih =>
    intro lo s h1 h2
    rcases hb : body lo s with e | s1
    · exact ⟨e, by simp [forLoop, hb]⟩
    · by_cases hj : j0 = lo
      · subst hj
        obtain ⟨e, he⟩ := hbad s
        rw [he] at hb; cases hb
      · obtain ⟨e, he⟩ := ih (lo + 1) s1 (by omega) (by push_cast at h2; omega)
        exact ⟨e, by simp [forLoop, hb, he]⟩

/-- A loop whose iteration `j` copies the column `v j` into column `j` of the
destination fills the columns `lo ≤ c < hi` and keeps the others. -/
theorem forRange_copyToCol (body : Int → Mat → Except CvError Mat) (v : Int → Mat)
    (hei wid : Nat) (lo hi : Int) (hlo : 0 ≤ lo) (hle : lo ≤ hi) (hhi : hi ≤ wid)
    (hv : ∀ j, lo ≤ j → j < hi → (v j).rows = hei ∧ (v j).cols = 1)
    (hbody : ∀ j d, lo ≤ j → j < hi → d.rows = hei → d.cols = wid →
      body j d = (v j).copyToCol d j)
    (d : Mat) (hd : d.rows = hei ∧ d.cols = wid) :
    forRange lo hi body d = .ok ⟨hei, wid, fun i c =>
      if lo ≤ c ∧ c < hi then (v c).val i 0 else d.val i c⟩ := by
  obtain ⟨s', hs', hr, hc, hval⟩ := forLoop_inv body
    (fun j m => m.rows = hei ∧ m.cols = wid ∧
      m.val = fun i c => if lo ≤ c ∧ c < j then (v c).val i 0 else d.val i c)
    (hi - lo).toNat lo d
    ⟨hd.1, hd.2, by funext i c; rw [if_neg (by omega)]⟩
    (by
      rintro j m hj1 hj2 ⟨hmr, hmc, hmv⟩
      have hj3 : j < hi := by omega
      rw [hbody j m hj1 hj3 hmr hmc]
      obtain ⟨hvr, hvc⟩ := hv j hj1 hj3
      refine ⟨⟨m.rows, m.cols, fun i c => if c = j then (v j).val i 0 else m.val i c⟩,
        by simp only [Mat.copyToCol]; rw [if_pos (by omega), if_pos ⟨by omega, hvc⟩],
        hmr, hmc, ?_⟩
      funext i c
      simp only [hmv]
      by_cases hc : c = j
      · subst hc; rw [if_pos rfl, if_pos (by omega)]
      · rw [if_neg hc]
        by_cases h2 : lo ≤ c ∧ c < j
        · rw [if_pos h2, if_pos (by omega)]
        · rw [if_neg h2, if_neg (by omega)])
  unfold forRange
  rw [hs']
  congr 1
  rw [Mat.eq_iff]
  refine ⟨hr, hc, ?_⟩
  rw [hval]
  funext i c
  have : lo + ((hi - lo).toNat : Int) = hi := by omega
  rw [this]

/-- The same for a loop over rows. -/
theorem forRange_copyToRow (body : Int → Mat → Except CvError Mat) (v : Int → Mat)
    (hei wid : Nat) (lo hi : Int) (hlo : 0 ≤ lo) (hle : lo ≤ hi) (hhi : hi ≤ hei)
    (hv : ∀ j, lo ≤ j → j < hi → (v j).rows = 1 ∧ (v j).cols = wid)
    (hbody : ∀ j d, lo ≤ j → j < hi → d.rows = hei → d.cols = wid →
      body j d = (v j).copyToRow d j)
    (d : Mat) (hd : d.rows = hei ∧ d.cols = wid) :
    forRange lo hi body d = .ok ⟨hei, wid, fun i c =>
      if lo ≤ i ∧ i < hi then (v i).val 0 c else d.val i c⟩ := by
  obtain ⟨s', hs', hr, hc, hval⟩ := forLoop_inv body
    (fun j m => m.rows = hei ∧ m.cols = wid ∧
      m.val = fun i c => if lo ≤ i ∧ i < j then (v i).val 0 c else d.val i c)
    (hi - lo).toNat lo d
    ⟨hd.1, hd.2, by funext i c; rw [if_neg (by omega)]⟩
    (by
      rintro j m hj1 hj2 ⟨hmr, hmc, hmv⟩
      have hj3 : j < hi := by omega
      rw [hbody j m hj1 hj3 hmr hmc]
      obtain ⟨hvr, hvc⟩ := hv j hj1 hj3
      refine ⟨⟨m.rows, m.cols, fun i c => if i = j then (v j).val 0 c else m.val i c⟩,
        by simp only [Mat.copyToRow]; rw [if_pos (by omega), if_pos ⟨hvr, by omega⟩],
        hmr, hmc, ?_⟩
      funext i c
      simp only [hmv]
      by_cases hc : i = j
      · subst hc; rw [if_pos rfl, if_pos (by omega)]
      · rw [if_neg hc]
        by_cases h2 : lo ≤ i ∧ i < j
        · rw [if_pos h2, if_pos (by omega)]
        · rw [if_neg h2, if_neg (by omega)])
  unfold forRange
  rw [hs']
  congr 1
  rw [Mat.eq_iff]
  refine ⟨hr, hc, ?_⟩
  rw [hval]
  funext i c
  have : lo + ((hi - lo).toNat : Int) = hi := by omega
  rw [this]

/-! ## Prefix sums -/

theorem prefixSum_succ (f : Int → ℚ) (k : Int) (hk : 0 ≤ k + 1) :
    prefixSum f (k + 1) = prefixSum f k + f (k + 1) := by
  unfold prefixSum
  have h : Finset.Icc (0 : Int) (k + 1) = insert (k + 1) (Finset.Icc 0 k) := by
    ext x; simp only [Finset.mem_Icc, Finset.mem_insert]; omega
  rw [h, Finset.sum_insert (by simp), add_comm]

theorem prefixSum_zero (f : Int → ℚ) : prefixSum f 0 = f 0 := by
  simp [prefixSum]

/-- A window sum is a difference of two prefix sums. -/
theorem sum_Icc_eq_prefixSum_sub (f : Int → ℚ) (a b : Int) (ha : 0 ≤ a) (hab : a ≤ b + 1) :
    ∑ t in Finset.Icc a b, f t = prefixSum f b - prefixSum f (a - 1) := by
  unfold prefixSum
  have h : Finset.Icc (0 : Int) b = Finset.Icc 0 (a - 1) ∪ Finset.Icc a b := by
    ext x; simp only [Finset.mem_Icc, Finset.mem_union]; omega
  have hdisj : Disjoint (Finset.Icc (0 : Int) (a - 1)) (Finset.Icc a b) := by
    rw [Finset.disjoint_left]
    intro x hx1 hx2
    simp only [Finset.mem_Icc] at hx1 hx2
    omega
  rw [h, Finset.sum_union hdisj]
  ring

/-! ## The box filters -/

theorem bind_eq_ok {α β : Type} (x : Except CvError α) (f : α → Except CvError β) (b : β) :
    (x >>= f) = .ok b ↔ ∃ a, x = .ok a ∧ f a = .ok b := by
  cases x with
  | error e => simp
  | ok a => simp

theorem forLoop_preserves {σ : Type} (body : Int → σ → Except CvError σ) (Q : σ → Prop)
    (hbody : ∀ j s s', Q s → body j s = .ok s' → Q s') :
    ∀ (k : Nat) (lo : Int) (s s' : σ), Q s → forLoop body k lo s = .ok s' → Q s' := by
  intro k
  induction k with
  | zero => intro lo s s' hQ h; simp [forLoop] at h; subst h; exact hQ
  | succ k ih =>
    intro lo s s' hQ h
    simp only [forLoop] at h
    rw [bind_eq_ok] at h
    obtain ⟨s1, h1, h2⟩ := h
    exact ih (lo + 1) s1 s' (hbody lo s s1 hQ h1) h2

theorem copyToCol_dims (src d d' : Mat) (x : Int) (h : src.copyToCol d x = .ok d') :
    d'.rows = d.rows ∧ d'.cols = d.cols := by
  unfold Mat.copyToCol at h
  split_ifs at h <;> simp at h <;> subst h <;> simp

theorem copyToRow_dims (src d d' : Mat) (x : Int) (h : src.copyToRow d x = .ok d') :
    d'.rows = d.rows ∧ d'.cols = d.cols := by
  unfold Mat.copyToRow at h
  split_ifs at h <;> simp at h <;> subst h <;> simp

theorem col_ok (m : Mat) (x : Int) (h : 0 ≤ x ∧ x < m.cols) :
    m.col x = .ok ⟨m.rows, 1, fun i _ => m.val i x⟩ := if_pos h

theorem row_ok (m : Mat) (y : Int) (h : 0 ≤ y ∧ y < m.rows) :
    m.row y = .ok ⟨1, m.cols, fun _ j => m.val y j⟩ := if_pos h

theorem col_error (m : Mat) (x : Int) (h : ¬ (0 ≤ x ∧ x < m.cols)) :
    m.col x = .error .StsAssert := if_neg h

theorem row_error (m : Mat) (y : Int) (h : ¬ (0 ≤ y ∧ y < m.rows)) :
    m.row y = .error .StsAssert := if_neg h

theorem copyToCol_ok (src d : Mat) (x : Int) (hx : 0 ≤ x ∧ x < d.cols)
    (hs : src.rows = d.rows ∧ src.cols = 1) :
    src.copyToCol d x =
      .ok ⟨d.rows, d.cols, fun i j => if j = x then src.val i 0 else d.val i j⟩ := by
  unfold Mat.copyToCol
  rw [if_pos hx, if_pos hs]

theorem copyToRow_ok (src d : Mat) (y : Int) (hy : 0 ≤ y ∧ y < d.rows)
    (hs : src.rows = 1 ∧ src.cols = d.cols) :
    src.copyToRow d y =
      .ok ⟨d.rows, d.cols, fun i j => if i = y then src.val 0 j else d.val i j⟩ := by
  unfold Mat.copyToRow
  rw [if_pos hy, if_pos hs]

/-- Element-wise arithmetic on two matrices of one size. -/
theorem arithOp_same (f : ℚ → ℚ → ℚ) (a b : Mat) (h : a.rows = b.rows ∧ a.cols = b.cols) :
    Mat.arithOp f a b = .ok ⟨a.rows, a.cols, fun i j => f (a.val i j) (b.val i j)⟩ := if_pos h

theorem opAdd_ok (a b : Mat) (h : a.rows = b.rows ∧ a.cols = b.cols)
    (hr : 1 ≤ a.rows) (hc : 1 ≤ a.cols) :
    a.opAdd b = .ok ⟨a.rows, a.cols, fun i j => a.val i j + b.val i j⟩ := by
  unfold Mat.opAdd Mat.empty
  rw [if_neg (by omega)]
  exact arithOp_same _ a b h

theorem opSub_ok (a b : Mat) (h : a.rows = b.rows ∧ a.cols = b.cols)
    (hr : 1 ≤ a.rows) (hc : 1 ≤ a.cols) :
    a.opSub b = .ok ⟨a.rows, a.cols, fun i j => a.val i j - b.val i j⟩ := by
  unfold Mat.opSub Mat.empty
  rw [if_neg (by omega)]
  exact arithOp_same _ a b h

theorem opAddScalar_ok (a : Mat) (s : ℚ) (hr : 1 ≤ a.rows) (hc : 1 ≤ a.cols) :
    a.opAddScalar s = .ok ⟨a.rows, a.cols, fun i j => a.val i j + s⟩ := by
  unfold Mat.opAddScalar Mat.empty
  rw [if_neg (by omega)]

/-- The cumulative-sum pass of `rowBoxFilter` returns the prefix sums of
every row. -/
theorem rowCumSum_spec (M : Mat) (hrows : 1 ≤ M.rows) (hcols : 1 ≤ M.cols) :
    ∃ cum, rowCumSum M = .ok cum ∧ cum.rows = M.rows ∧ cum.cols = M.cols ∧
      ∀ (i c : Int), 0 ≤ c → c < M.cols → cum.val i c = prefixSum (fun t => M.val i t) c := by
  have h0 : (0 : Int) ≤ 0 ∧ (0 : Int) < M.cols := by omega
  obtain ⟨s', hs', hr, hc, hval⟩ := forLoop_inv
    (fun j imCum => do
      (← Mat.opAdd (← imCum.col (j - 1)) (← M.col j)).copyToCol imCum j)
    (fun j m => m.rows = M.rows ∧ m.cols = M.cols ∧
      ∀ i c, 0 ≤ c → c < j → m.val i c = prefixSum (fun t => M.val i t) c)
    ((M.cols : Int) - 1).toNat 1
    ⟨M.rows, M.cols, fun i j => if j = 0 then M.val i 0 else 0⟩
    ⟨rfl, rfl, by
      intro i c hc0 hc1
      have : c = 0 := by omega
      subst this
      simp [prefixSum_zero]⟩
    (by
      rintro j m hj1 hj2 ⟨hmr, hmc, hmv⟩
      have h1 : 0 ≤ j - 1 ∧ j - 1 < m.cols := by omega
      have h2 : 0 ≤ j ∧ j < M.cols := by omega
      have h3 : 0 ≤ j ∧ j < m.cols := by omega
      have h4 : ¬ (m.rows = 0) := by omega
      have h5 : ¬ (M.rows = 0) := by omega
      refine ⟨⟨m.rows, m.cols, fun i c =>
          if c = j then m.val i (j - 1) + M.val i j else m.val i c⟩, ?_, hmr, hmc, ?_⟩
      · simp only [col_ok m _ h1, col_ok M _ h2, ok_bind]
        rw [opAdd_ok, ok_bind, copyToCol_ok]
        all_goals first | exact h3 | exact ⟨rfl, rfl⟩ | exact ⟨hmr, rfl⟩ | (simp only; omega)
      · intro i c hc0 hc1
        by_cases hcj : c = j
        · subst hcj
          simp only [if_true]
          rw [hmv i (c - 1) (by omega) (by omega)]
          have := prefixSum_succ (fun t => M.val i t) (c - 1) (by omega)
          simp only [sub_add_cancel] at this
          rw [this]
        · simp only [if_neg hcj]
          exact hmv i c hc0 (by omega))
  refine ⟨s', ?_, hr, hc, ?_⟩
  · simp only [rowCumSum, col_ok M _ h0, ok_bind, Mat.zeros]
    rw [copyToCol_ok _ _ _ (by exact h0) (by exact ⟨rfl, rfl⟩)]
    simp only [ok_bind, forRange]
    exact hs'
  · intro i c hc0 hc1
    exact hval i c hc0 (by omega)

theorem rowCumSum_dims (M cum : Mat) (h : rowCumSum M = .ok cum) :
    cum.rows = M.rows ∧ cum.cols = M.cols := by
  unfold rowCumSum at h
  simp only [bind_eq_ok] at h
  obtain ⟨a, -, c0, ha, hloop⟩ := h
  have hc0 := copyToCol_dims _ _ _ _ ha
  simp only [Mat.zeros] at hc0
  unfold forRange at hloop
  exact forLoop_preserves _ (fun m => m.rows = M.rows ∧ m.cols = M.cols)
    (by
      intro j s s' hQ hb
      simp only [bind_eq_ok] at hb
      obtain ⟨a, -, b, -, x, -, hx⟩ := hb
      have := copyToCol_dims _ _ _ _ hx
      exact ⟨this.1.trans hQ.1, this.2.trans hQ.2⟩)
    _ _ _ _ hc0 hloop

/-- On an image with at least one row and a radius with `0 ≤ w`,
`2w + 1 ≤ cols`, `rowBoxFilter` returns the image of naive window sums. -/
theorem rowBoxFilter_eq (M : Mat) (w : Int) (hrows : 1 ≤ M.rows) (hw : 0 ≤ w)
    (hn : 2 * w + 1 ≤ M.cols) : rowBoxFilter M w = .ok (rowBoxSpec M w) := by
  obtain ⟨cum, hcum, hcr, hcc, hcv⟩ := rowCumSum_spec M hrows (by omega)
  have L1 := forRange_copyToCol
    (fun j imDst => do (← cum.col (w + j)).copyToCol imDst j)
    (fun j => ⟨cum.rows, 1, fun i _ => cum.val i (w + j)⟩) M.rows M.cols 0 (w + 1)
    le_rfl (by omega) (by omega) (fun j _ _ => ⟨hcr, rfl⟩)
    (by
      intro j d h1 h2 _ _
      simp only [col_ok cum _ (by omega : 0 ≤ w + j ∧ w + j < cum.cols), ok_bind])
    (Mat.zeros M.rows M.cols) ⟨rfl, rfl⟩
  have L2 := fun d hd => forRange_copyToCol
    (fun j imDst => do
      (← Mat.opSub (← cum.col (j + w)) (← cum.col (j - w - 1))).copyToCol imDst j)
    (fun j => ⟨cum.rows, 1, fun i _ => cum.val i (j + w) - cum.val i (j - w - 1)⟩)
    M.rows M.cols (w + 1) (M.cols - w)
    (by omega) (by omega) (by omega) (fun j _ _ => ⟨hcr, rfl⟩)
    (by
      intro j d h1 h2 _ _
      simp only [col_ok cum _ (by omega : 0 ≤ j + w ∧ j + w < cum.cols),
        col_ok cum _ (by omega : 0 ≤ j - w - 1 ∧ j - w - 1 < cum.cols), ok_bind]
      rw [opSub_ok, ok_bind]
      all_goals first | exact ⟨rfl, rfl⟩ | (simp only; omega))
    d hd
  have L3 := fun d hd => forRange_copyToCol
    (fun j imDst => do
      (← Mat.opSub (← cum.col ((M.cols : Int) - 1)) (← cum.col (j - w - 1))).copyToCol imDst j)
    (fun j => ⟨cum.rows, 1, fun i _ => cum.val i ((M.cols : Int) - 1) - cum.val i (j - w - 1)⟩)
    M.rows M.cols (M.cols - w) M.cols
    (by omega) (by omega) (by omega) (fun j _ _ => ⟨hcr, rfl⟩)
    (by
      intro j d h1 h2 _ _
      simp only [col_ok cum _ (by omega : 0 ≤ (M.cols : Int) - 1 ∧ (M.cols : Int) - 1 < cum.cols),
        col_ok cum _ (by omega : 0 ≤ j - w - 1 ∧ j - w - 1 < cum.cols), ok_bind]
      rw [opSub_ok, ok_bind]
      all_goals first | exact ⟨rfl, rfl⟩ | (simp only; omega))
    d hd
  simp only [rowBoxFilter, hcum, ok_bind, L1]
  rw [L2, ok_bind, L3, ok_bind, pure_eq_ok]
  swap
  · exact ⟨rfl, rfl⟩
  swap
  · exact ⟨rfl, rfl⟩
  congr 1
  unfold rowBoxSpec
  rw [Mat.eq_iff]
  refine ⟨rfl, rfl, ?_⟩
  funext i c
  simp only [Mat.zeros, windowSum]
  by_cases h3 : (M.cols : Int) - w ≤ c ∧ c < M.cols
  · rw [if_pos h3, if_pos (by omega), max_eq_right (by omega), min_eq_left (by omega),
      sum_Icc_eq_prefixSum_sub _ _ _ (by omega) (by omega),
      hcv i _ (by omega) (by omega), hcv i _ (by omega) (by omega)]
  · rw [if_neg h3]
    by_cases h2 : w + 1 ≤ c ∧ c < (M.cols : Int) - w
    · rw [if_pos h2, if_pos (by omega), max_eq_right (by omega), min_eq_right (by omega),
        sum_Icc_eq_prefixSum_sub _ _ _ (by omega) (by omega),
        hcv i _ (by omega) (by omega), hcv i _ (by omega) (by omega)]
    · rw [if_neg h2]
      by_cases h1 : 0 ≤ c ∧ c < w + 1
      · rw [if_pos h1, if_pos (by omega), max_eq_left (by omega), min_eq_right (by omega),
          hcv i _ (by omega) (by omega), add_comm w c]
        rfl
      · rw [if_neg h1, if_neg (by omega)]

theorem forRange_empty {σ : Type} (lo hi : Int) (body : Int → σ → Except CvError σ) (s : σ)
    (h : hi ≤ lo) : forRange lo hi body s = .ok s := by
  unfold forRange
  rw [Int.toNat_of_nonpos (by omega)]
  rfl

theorem forRange_throws {σ : Type} (lo hi : Int) (body : Int → σ → Except CvError σ) (s : σ)
    (j0 : Int) (h1 : lo ≤ j0) (h2 : j0 < hi) (hbad : ∀ s, ∃ e, body j0 s = .error e) :
    ∃ e, forRange lo hi body s = .error e :=
  forLoop_throws body j0 hbad _ lo s h1 (by omega)

/-- With a negative radius, or a window wider than the row, `rowBoxFilter`
throws: a column index of the cumulative sum is out of range. -/
theorem rowBoxFilter_throws (M : Mat) (w : Int) (h : w < 0 ∨ (M.cols : Int) < 2 * w + 1) :
    ∃ e, rowBoxFilter M w = .error e := by
  unfold rowBoxFilter
  rcases hcum : rowCumSum M with e | cum
  · exact ⟨e, rfl⟩
  · obtain ⟨-, hcc⟩ := rowCumSum_dims M cum hcum
    simp only [ok_bind]
    by_cases hw : w < 0
    · rw [forRange_empty _ _ _ _ (by omega), ok_bind]
      obtain ⟨e, he⟩ := forRange_throws (w + 1) (M.cols - w)
        (fun j imDst => do
          (← Mat.opSub (← cum.col (j + w)) (← cum.col (j - w - 1))).copyToCol imDst j)
        (Mat.zeros M.rows M.cols) (w + 1) le_rfl (by omega)
        (fun s => ⟨.StsAssert, by
          simp only [col_error cum (w + 1 + w) (by omega), error_bind]⟩)
      exact ⟨e, by rw [he]; rfl⟩
    · obtain ⟨e, he⟩ := forRange_throws 0 (w + 1)
        (fun j imDst => do (← cum.col (w + j)).copyToCol imDst j)
        (Mat.zeros M.rows M.cols) w (by omega) (by omega)
        (fun s => ⟨.StsAssert, by
          simp only [col_error cum (w + w) (by omega), error_bind]⟩)
      exact ⟨e, by rw [he]; rfl⟩

/-! ### The column direction -/

/-- The cumulative-sum pass of `columnBoxFilter` returns the prefix sums of
every column. -/
theorem columnCumSum_spec (M : Mat) (hrows : 1 ≤ M.rows) (hcols : 1 ≤ M.cols) :
    ∃ cum, columnCumSum M = .ok cum ∧ cum.rows = M.rows ∧ cum.cols = M.cols ∧
      ∀ (r j : Int), 0 ≤ r → r < M.rows → cum.val r j = prefixSum (fun t => M.val t j) r := by
  have h0 : (0 : Int) ≤ 0 ∧ (0 : Int) < M.rows := by omega
  obtain ⟨s', hs', hr, hc, hval⟩ := forLoop_inv
    (fun i imCum => do
      (← Mat.opAdd (← imCum.row (i - 1)) (← M.row i)).copyToRow imCum i)
    (fun i m => m.rows = M.rows ∧ m.cols = M.cols ∧
      ∀ (r j : Int), 0 ≤ r → r < i → m.val r j = prefixSum (fun t => M.val t j) r)
    ((M.rows : Int) - 1).toNat 1
    ⟨M.rows, M.cols, fun i j => if i = 0 then M.val 0 j else 0⟩
    ⟨rfl, rfl, by
      intro r j hc0 hc1
      have : r = 0 := by omega
      subst this
      simp [prefixSum_zero]⟩
    (by
      rintro i m hj1 hj2 ⟨hmr, hmc, hmv⟩
      have h1 : 0 ≤ i - 1 ∧ i - 1 < m.rows := by omega
      have h2 : 0 ≤ i ∧ i < M.rows := by omega
      have h3 : 0 ≤ i ∧ i < m.rows := by omega
      refine ⟨⟨m.rows, m.cols, fun r j =>
          if r = i then m.val (i - 1) j + M.val i j else m.val r j⟩, ?_, hmr, hmc, ?_⟩
      · simp only [row_ok m _ h1, row_ok M _ h2, ok_bind]
        rw [opAdd_ok, ok_bind, copyToRow_ok]
        all_goals first | exact h3 | exact ⟨rfl, rfl⟩ | exact ⟨rfl, hmc⟩ | (simp only; omega)
      · intro r j hc0 hc1
        by_cases hcj : r = i
        · subst hcj
          simp only [if_true]
          rw [hmv (r - 1) j (by omega) (by omega)]
          have := prefixSum_succ (fun t => M.val t j) (r - 1) (by omega)
          simp only [sub_add_cancel] at this
          rw [this]
        · simp only [if_neg hcj]
          exact hmv r j hc0 (by omega))
  refine ⟨s', ?_, hr, hc, ?_⟩
  · simp only [columnCumSum, row_ok M _ h0, ok_bind, Mat.zeros]
    rw [copyToRow_ok _ _ _ (by exact h0) (by exact ⟨rfl, rfl⟩)]
    simp only [ok_bind, forRange]
    exact hs'
  · intro r j hc0 hc1
    exact hval r j hc0 (by omega)

theorem columnCumSum_dims (M cum : Mat) (h : columnCumSum M = .ok cum) :
    cum.rows = M.rows ∧ cum.cols = M.cols := by
  unfold columnCumSum at h
  simp only [bind_eq_ok] at h
  obtain ⟨a, -, c0, ha, hloop⟩ := h
  have hc0 := copyToRow_dims _ _ _ _ ha
  simp only [Mat.zeros] at hc0
  unfold forRange at hloop
  exact forLoop_preserves _ (fun m => m.rows = M.rows ∧ m.cols = M.cols)
    (by
      intro j s s' hQ hb
      simp only [bind_eq_ok] at hb
      obtain ⟨a, -, b, -, x, -, hx⟩ := hb
      have := copyToRow_dims _ _ _ _ hx
      exact ⟨this.1.trans hQ.1, this.2.trans hQ.2⟩)
    _ _ _ _ hc0 hloop

/-- On an image with at least one column and a radius with `0 ≤ h`,
`2h + 1 ≤ rows`, `columnBoxFilter` returns the image of naive window sums. -/
theorem columnBoxFilter_eq (M : Mat) (h : Int) (hcols : 1 ≤ M.cols) (hh : 0 ≤ h)
    (hn : 2 * h + 1 ≤ M.rows) : columnBoxFilter M h = .ok (columnBoxSpec M h) := by
  obtain ⟨cum, hcum, hcr, hcc, hcv⟩ := columnCumSum_spec M (by omega) hcols
  have L1 := forRange_copyToRow
    (fun i imDst => do (← cum.row (h + i)).copyToRow imDst i)
    (fun i => ⟨1, cum.cols, fun _ j => cum.val (h + i) j⟩) M.rows M.cols 0 (h + 1)
    le_rfl (by omega) (by omega) (fun j _ _ => ⟨rfl, hcc⟩)
    (by
      intro j d h1 h2 _ _
      simp only [row_ok cum _ (by omega : 0 ≤ h + j ∧ h + j < cum.rows), ok_bind])
    (Mat.zeros M.rows M.cols) ⟨rfl, rfl⟩
  have L2 := fun d hd => forRange_copyToRow
    (fun i imDst => do
      (← Mat.opSub (← cum.row (i + h)) (← cum.row (i - h - 1))).copyToRow imDst i)
    (fun i => ⟨1, cum.cols, fun _ j => cum.val (i + h) j - cum.val (i - h - 1) j⟩)
    M.rows M.cols (h + 1) (M.rows - h)
    (by omega) (by omega) (by omega) (fun j _ _ => ⟨rfl, hcc⟩)
    (by
      intro j d h1 h2 _ _
      simp only [row_ok cum _ (by omega : 0 ≤ j + h ∧ j + h < cum.rows),
        row_ok cum _ (by omega : 0 ≤ j - h - 1 ∧ j - h - 1 < cum.rows), ok_bind]
      rw [opSub_ok, ok_bind]
      all_goals first | exact ⟨rfl, rfl⟩ | (simp only; omega))
    d hd
  have L3 := fun d hd => forRange_copyToRow
    (fun i imDst => do
      (← Mat.opSub (← cum.row ((M.rows : Int) - 1)) (← cum.row (i - h - 1))).copyToRow imDst i)
    (fun i => ⟨1, cum.cols, fun _ j => cum.val ((M.rows : Int) - 1) j - cum.val (i - h - 1) j⟩)
    M.rows M.cols (M.rows - h) M.rows
    (by omega) (by omega) (by omega) (fun j _ _ => ⟨rfl, hcc⟩)
    (by
      intro j d h1 h2 _ _
      simp only [row_ok cum _ (by omega : 0 ≤ (M.rows : Int) - 1 ∧ (M.rows : Int) - 1 < cum.rows),
        row_ok cum _ (by omega : 0 ≤ j - h - 1 ∧ j - h - 1 < cum.rows), ok_bind]
      rw [opSub_ok, ok_bind]
      all_goals first | exact ⟨rfl, rfl⟩ | (simp only; omega))
    d hd
  simp only [columnBoxFilter, hcum, ok_bind, L1]
  rw [L2, ok_bind, L3, ok_bind, pure_eq_ok]
  swap
  · exact ⟨rfl, rfl⟩
  swap
  · exact ⟨rfl, rfl⟩
  congr 1
  unfold columnBoxSpec
  rw [Mat.eq_iff]
  refine ⟨rfl, rfl, ?_⟩
  funext r j
  simp only [Mat.zeros, windowSum]
  by_cases h3 : (M.rows : Int) - h ≤ r ∧ r < M.rows
  · rw [if_pos h3, if_pos (by omega), max_eq_right (by omega), min_eq_left (by omega),
      sum_Icc_eq_prefixSum_sub _ _ _ (by omega) (by omega),
      hcv _ j (by omega) (by omega), hcv _ j (by omega) (by omega)]
  · rw [if_neg h3]
    by_cases h2 : h + 1 ≤ r ∧ r < (M.rows : Int) - h
    · rw [if_pos h2, if_pos (by omega), max_eq_right (by omega), min_eq_right (by omega),
        sum_Icc_eq_prefixSum_sub _ _ _ (by omega) (by omega),
        hcv _ j (by omega) (by omega), hcv _ j (by omega) (by omega)]
    · rw [if_neg h2]
      by_cases h1 : 0 ≤ r ∧ r < h + 1
      · rw [if_pos h1, if_pos (by omega), max_eq_left (by omega), min_eq_right (by omega),
          hcv _ j (by omega) (by omega), add_comm h r]
        rfl
      · rw [if_neg h1, if_neg (by omega)]

/-- With a negative radius, or a window taller than the column,
`columnBoxFilter` throws. -/
theorem columnBoxFilter_throws (M : Mat) (h : Int) (hbad : h < 0 ∨ (M.rows : Int) < 2 * h + 1) :
    ∃ e, columnBoxFilter M h = .error e := by
  unfold columnBoxFilter
  rcases hcum : columnCumSum M with e | cum
  · exact ⟨e, rfl⟩
  · obtain ⟨hcr, -⟩ := columnCumSum_dims M cum hcum
    simp only [ok_bind]
    by_cases hw : h < 0
    · rw [forRange_empty _ _ _ _ (by omega), ok_bind]
      obtain ⟨e, he⟩ := forRange_throws (h + 1) (M.rows - h)
        (fun i imDst => do
          (← Mat.opSub (← cum.row (i + h)) (← cum.row (i - h - 1))).copyToRow imDst i)
        (Mat.zeros M.rows M.cols) (h + 1) le_rfl (by omega)
        (fun s => ⟨.StsAssert, by
          simp only [row_error cum (h + 1 + h) (by omega), error_bind]⟩)
      exact ⟨e, by rw [he]; rfl⟩
    · obtain ⟨e, he⟩ := forRange_throws 0 (h + 1)
        (fun i imDst => do (← cum.row (h + i)).copyToRow imDst i)
        (Mat.zeros M.rows M.cols) h (by omega) (by omega)
        (fun s => ⟨.StsAssert, by
          simp only [row_error cum (h + h) (by omega), error_bind]⟩)
      exact ⟨e, by rw [he]; rfl⟩

/-! ## The guided filters -/

theorem windowSum_eq (f : Int → ℚ) (n : Nat) (r j : Int) :
    windowSum f n r j = ∑ t in window n r j, f t := rfl

theorem mem_window (n : Nat) (r k t : Int) (h : t ∈ window n r k) : 0 ≤ t ∧ t < n := by
  unfold window at h
  rw [Finset.mem_Icc] at h
  omega

theorem windowSum_congr (f g : Int → ℚ) (n : Nat) (r j : Int)
    (h : ∀ t : Int, 0 ≤ t → t < n → f t = g t) : windowSum f n r j = windowSum g n r j := by
  rw [windowSum_eq, windowSum_eq]
  exact Finset.sum_congr rfl (fun t ht => h t (mem_window n r j t ht).1 (mem_window n r j t ht).2)

theorem windowSum_ones (n : Nat) (r j : Int) :
    windowSum (fun _ => 1) n r j = ((window n r j).card : ℚ) := by
  rw [windowSum_eq]; simp

/-- The quotient the code forms, box sum over window count, is the window mean. -/
theorem windowSum_div (f : Int → ℚ) (n : Nat) (r j : Int) :
    windowSum f n r j / windowSum (fun _ => 1) n r j = winMean f n r j := by
  rw [windowSum_ones]; rfl

/-- The code's covariance `mean(fg) - mean(f) mean(g)` is the window
covariance. -/
theorem winMean_mul_sub (f g : Int → ℚ) (n : Nat) (r k : Int) :
    winMean (fun t => f t * g t) n r k - winMean f n r k * winMean g n r k
      = winCov f g n r k := by
  have key : ∀ a b : ℚ, ∑ t in window n r k, (f t - a) * (g t - b)
      = ∑ t in window n r k, f t * g t - b * ∑ t in window n r k, f t
        - a * ∑ t in window n r k, g t + ((window n r k).card : ℚ) * (a * b) := by
    intro a b
    have h : ∀ t, (f t - a) * (g t - b) = f t * g t - b * f t - a * g t + a * b :=
      fun t => by ring
    simp only [h, Finset.sum_add_distrib, Finset.sum_sub_distrib, Finset.mul_sum,
      Finset.sum_const, nsmul_eq_mul]
  unfold winCov winMean
  rw [key]
  by_cases hc : ((window n r k).card : ℚ) = 0
  · simp [hc]
  · field_simp
    ring

theorem winMean_congr (f g : Int → ℚ) (n : Nat) (r j : Int)
    (h : ∀ t : Int, 0 ≤ t → t < n → f t = g t) : winMean f n r j = winMean g n r j := by
  unfold winMean
  rw [Finset.sum_congr rfl (fun t ht => h t (mem_window n r j t ht).1 (mem_window n r j t ht).2)]

@[simp] theorem zipWith_rows (f : ℚ → ℚ → ℚ) (a b : Mat) : (Mat.zipWith f a b).rows = a.rows :=
  rfl

@[simp] theorem zipWith_cols (f : ℚ → ℚ → ℚ) (a b : Mat) : (Mat.zipWith f a b).cols = a.cols :=
  rfl

@[simp] theorem rowBoxSpec_rows (M : Mat) (w : Int) : (rowBoxSpec M w).rows = M.rows := rfl

@[simp] theorem rowBoxSpec_cols (M : Mat) (w : Int) : (rowBoxSpec M w).cols = M.cols := rfl

@[simp] theorem columnBoxSpec_rows (M : Mat) (w : Int) : (columnBoxSpec M w).rows = M.rows := rfl

@[simp] theorem columnBoxSpec_cols (M : Mat) (w : Int) : (columnBoxSpec M w).cols = M.cols := rfl

@[simp] theorem ones_rows (r c : Nat) : (Mat.ones r c).rows = r := rfl

@[simp] theorem ones_cols (r c : Nat) : (Mat.ones r c).cols = c := rfl

theorem arithOp_zip (f : ℚ → ℚ → ℚ) (a b : Mat) (h1 : a.rows = b.rows) (h2 : a.cols = b.cols) :
    Mat.arithOp f a b = .ok (Mat.zipWith f a b) := if_pos ⟨h1, h2⟩

theorem box1D_div (f : Int → ℚ) (n : Nat) (r t : Int) (ht : 0 ≤ t ∧ t < n) :
    box1D f n r t / box1D (fun _ => 1) n r t = winMean f n r t := by
  unfold box1D
  rw [if_pos ht, if_pos ht]
  exact windowSum_div f n r t

theorem box1D_congr (f g : Int → ℚ) (n : Nat) (r j : Int)
    (h : ∀ t : Int, 0 ≤ t → t < n → f t = g t) : box1D f n r j = box1D g n r j := by
  unfold box1D
  rw [windowSum_congr f g n r j h]

/-- Inside the line, the arithmetic of the source computes the guided-filter
output of the specification. -/
theorem guided1D_eq_guidedSpec (I p : Int → ℚ) (n : Nat) (r : Int) (eps : ℚ) (j : Int)
    (hj : 0 ≤ j ∧ j < n) : guided1D I p n r eps j = guidedSpec I p n r eps j := by
  have hA : ∀ t : Int, 0 ≤ t → t < n →
      (box1D (fun s => I s * p s) n r t / box1D (fun _ => 1) n r t
          - box1D I n r t / box1D (fun _ => 1) n r t * (box1D p n r t / box1D (fun _ => 1) n r t))
        / (box1D (fun s => I s * I s) n r t / box1D (fun _ => 1) n r t
          - box1D I n r t / box1D (fun _ => 1) n r t * (box1D I n r t / box1D (fun _ => 1) n r t)
          + eps) = coefA I p n r eps t := by
    intro t h1 h2
    simp only [box1D_div _ n r t ⟨h1, h2⟩, winMean_mul_sub]
    rfl
  have hB : ∀ t : Int, 0 ≤ t → t < n →
      box1D p n r t / box1D (fun _ => 1) n r t
        - (box1D (fun s => I s * p s) n r t / box1D (fun _ => 1) n r t
          - box1D I n r t / box1D (fun _ => 1) n r t * (box1D p n r t / box1D (fun _ => 1) n r t))
        / (box1D (fun s => I s * I s) n r t / box1D (fun _ => 1) n r t
          - box1D I n r t / box1D (fun _ => 1) n r t * (box1D I n r t / box1D (fun _ => 1) n r t)
          + eps) * (box1D I n r t / box1D (fun _ => 1) n r t) = coefB I p n r eps t := by
    intro t h1 h2
    rw [hA t h1 h2, box1D_div _ n r t ⟨h1, h2⟩, box1D_div _ n r t ⟨h1, h2⟩]
    rfl
  unfold guided1D guidedSpec
  simp only []
  rw [box1D_congr _ _ n r j hA, box1D_congr _ _ n r j hB, box1D_div _ n r j hj,
    box1D_div _ n r j hj]

theorem guided1D_outside (I p : Int → ℚ) (n : Nat) (r : Int) (eps : ℚ) (j : Int)
    (hj : ¬ (0 ≤ j ∧ j < n)) : guided1D I p n r eps j = 0 := by
  unfold guided1D
  simp only [box1D, if_neg hj]
  simp

/-- On a guide and an input of one shape, with at least one row and a radius
with `0 ≤ r`, `2r + 1 ≤ cols`, `rowGuidedFilter` returns the image of
guided-filter outputs of the specification, row by row. -/
theorem rowGuidedFilter_eq (I p : Mat) (r : Int) (eps : ℚ)
    (hp : p.rows = I.rows ∧ p.cols = I.cols) (hrows : 1 ≤ I.rows) (hr : 0 ≤ r)
    (hn : 2 * r + 1 ≤ I.cols) :
    rowGuidedFilter I p r eps = .ok (rowGuidedSpec I p r eps) := by
  have hcols : 1 ≤ I.cols := by omega
  obtain ⟨hp1, hp2⟩ := hp
  simp only [rowGuidedFilter, Mat.mul, Mat.divide, Mat.subtract, Mat.add]
  simp only [rowBoxFilter_eq, arithOp_zip, opAddScalar_ok, ok_bind, pure_eq_ok, zipWith_rows,
    zipWith_cols, rowBoxSpec_rows, rowBoxSpec_cols, ones_rows, ones_cols, hp1, hp2, hrows, hcols,
    hr, hn]
  congr 1
  rw [Mat.eq_iff]
  refine ⟨rfl, rfl, ?_⟩
  funext i j
  have h1 : ∀ i j, (rowGuidedSpec I p r eps).val i j
      = guided1D (fun t => I.val i t) (fun t => p.val i t) I.cols r eps j := by
    intro i j
    unfold rowGuidedSpec
    by_cases hj : 0 ≤ j ∧ j < I.cols
    · simp only [if_pos hj]; exact (guided1D_eq_guidedSpec _ _ _ _ _ _ hj).symm
    · simp only [if_neg hj]; exact (guided1D_outside _ _ _ _ _ _ hj).symm
  rw [h1]
  obtain ⟨pr, pc, pv⟩ := p
  simp only at hp1 hp2
  subst hp1 hp2
  rfl

/-- The same for `columnGuidedFilter`, column by column. -/
theorem columnGuidedFilter_eq (I p : Mat) (r : Int) (eps : ℚ)
    (hp : p.rows = I.rows ∧ p.cols = I.cols) (hcols : 1 ≤ I.cols) (hr : 0 ≤ r)
    (hn : 2 * r + 1 ≤ I.rows) :
    columnGuidedFilter I p r eps = .ok (columnGuidedSpec I p r eps) := by
  have hrows : 1 ≤ I.rows := by omega
  obtain ⟨hp1, hp2⟩ := hp
  simp only [columnGuidedFilter, Mat.mul, Mat.divide, Mat.subtract, Mat.add]
  simp only [columnBoxFilter_eq, arithOp_zip, opAddScalar_ok, ok_bind, pure_eq_ok, zipWith_rows,
    zipWith_cols, columnBoxSpec_rows, columnBoxSpec_cols, ones_rows, ones_cols, hp1, hp2, hrows,
    hcols, hr, hn]
  congr 1
  rw [Mat.eq_iff]
  refine ⟨rfl, rfl, ?_⟩
  funext i j
  have h1 : ∀ i j, (columnGuidedSpec I p r eps).val i j
      = guided1D (fun t => I.val t j) (fun t => p.val t j) I.rows r eps i := by
    intro i j
    unfold columnGuidedSpec
    by_cases hi : 0 ≤ i ∧ i < I.rows
    · simp only [if_pos hi]; exact (guided1D_eq_guidedSpec _ _ _ _ _ _ hi).symm
    · simp only [if_neg hi]; exact (guided1D_outside _ _ _ _ _ _ hi).symm
  rw [h1]
  obtain ⟨pr, pc, pv⟩ := p
  simp only at hp1 hp2
  subst hp1 hp2
  rfl

/-! ## The pipeline -/

theorem cvRound_bounds (x : ℚ) : x - 1 / 2 ≤ cvRound x ∧ (cvRound x : ℚ) ≤ x + 1 / 2 := by
  have h1 := Int.floor_le x
  have h2 := Int.lt_floor_add_one x
  unfold cvRound
  split_ifs with ha hb hc
  · constructor <;> linarith
  · push_cast; constructor <;> linarith
  · constructor <;> linarith
  · push_cast; constructor <;> linarith

/-- The column radius derived from the height is a valid box-filter radius. -/
theorem colRadius_valid (rows : Nat) (h : 1 ≤ rows) :
    0 ≤ colRadius rows ∧ 2 * colRadius rows + 1 ≤ rows := by
  obtain ⟨h1, h2⟩ := cvRound_bounds (0.5 * ((rows : ℚ) * 0.25 - 1))
  have hr : (1 : ℚ) ≤ rows := by exact_mod_cast h
  have h3 : ((rows : Int) : ℚ) - 8 ≤ ((8 * colRadius rows : Int) : ℚ) := by
    unfold colRadius; push_cast; norm_num at h1 ⊢; linarith
  have h4 : ((8 * colRadius rows : Int) : ℚ) ≤ ((rows : Int) : ℚ) := by
    unfold colRadius; push_cast; norm_num at h2 ⊢; linarith
  have h3' : (rows : Int) - 8 ≤ 8 * colRadius rows := by exact_mod_cast h3
  have h4' : 8 * colRadius rows ≤ (rows : Int) := by exact_mod_cast h4
  omega

/-- On a non-empty image and a row radius with `0 ≤ row_radius`,
`2 row_radius + 1 ≤ cols`, the pipeline throws nowhere and computes the four
images `stagesSpec`. -/
theorem denoiseStages_eq (input : Mat) (row_radius : Int) (row_eps col_eps : ℚ)
    (hrows : 1 ≤ input.rows) (hr : 0 ≤ row_radius) (hn : 2 * row_radius + 1 ≤ input.cols) :
    denoiseStages input row_radius row_eps col_eps
      = .ok (stagesSpec input row_radius row_eps col_eps) := by
  have hcols : 1 ≤ input.cols := by omega
  obtain ⟨hc1, hc2⟩ := colRadius_valid input.rows hrows
  have L1 := forRange_copyToRow
    (fun i smooth => do
      let row_i ← input.row i
      let result ← rowGuidedFilter row_i row_i row_radius row_eps
      result.copyToRow smooth i)
    (fun i => rowGuidedSpec (input.rowAt i) (input.rowAt i) row_radius row_eps)
    input.rows input.cols 0 input.rows le_rfl (by omega) le_rfl (fun i _ _ => ⟨rfl, rfl⟩)
    (by
      intro i d h1 h2 _ _
      have e1 : input.row i = .ok (input.rowAt i) := row_ok input i ⟨h1, h2⟩
      have e2 := rowGuidedFilter_eq (input.rowAt i) (input.rowAt i) row_radius row_eps
        ⟨rfl, rfl⟩ le_rfl hr hn
      simp only [e1, e2, ok_bind])
    (Mat.zeros input.rows input.cols) ⟨rfl, rfl⟩
  have L2 := fun (S H : Mat) (hS : S.rows = input.rows ∧ S.cols = input.cols)
      (hH : H.rows = input.rows ∧ H.cols = input.cols) => forRange_copyToCol
    (fun j strip => do
      let smooth_col ← S.col j
      let highpart_col ← H.col j
      let result ← columnGuidedFilter smooth_col highpart_col (colRadius input.rows) col_eps
      result.copyToCol strip j)
    (fun j => columnGuidedSpec (S.colAt j) (H.colAt j) (colRadius input.rows) col_eps)
    input.rows input.cols 0 input.cols le_rfl (by omega) le_rfl (fun j _ _ => ⟨hS.1, rfl⟩)
    (by
      intro j d h1 h2 _ _
      have e1 : S.col j = .ok (S.colAt j) := col_ok S j ⟨h1, by omega⟩
      have e2 : H.col j = .ok (H.colAt j) := col_ok H j ⟨h1, by omega⟩
      have e3 := columnGuidedFilter_eq (S.colAt j) (H.colAt j) (colRadius input.rows) col_eps
        ⟨hH.1.trans hS.1.symm, rfl⟩ le_rfl hc1
        (by show 2 * colRadius input.rows + 1 ≤ (S.rows : Int); rw [hS.1]; exact hc2)
      simp only [e1, e2, e3, ok_bind])
    (Mat.zeros input.rows input.cols) ⟨rfl, rfl⟩
  simp only [denoiseStages, L1, ok_bind]
  rw [opSub_ok, ok_bind, L2, ok_bind, opSub_ok, ok_bind, pure_eq_ok]
  · rfl
  all_goals first | exact ⟨rfl, rfl⟩ | exact hrows | exact hcols

/-! ## Window counts -/

theorem self_mem_window (n : Nat) (r k : Int) (hr : 0 ≤ r) (hk : 0 ≤ k ∧ k < n) :
    k ∈ window n r k := by
  unfold window
  rw [Finset.mem_Icc]
  omega

theorem window_card (n : Nat) (r k : Int) (hr : 0 ≤ r) (hk : 0 ≤ k ∧ k < n) :
    ((window n r k).card : ℚ)
      = ((min ((n : Int) - 1) (k + r) - max 0 (k - r) + 1 : Int) : ℚ) := by
  have h : (0 : Int) ≤ min ((n : Int) - 1) (k + r) + 1 - max 0 (k - r) := by omega
  have h2 : (((min ((n : Int) - 1) (k + r) + 1 - max 0 (k - r)).toNat : Int))
      = min ((n : Int) - 1) (k + r) - max 0 (k - r) + 1 := by
    rw [Int.toNat_of_nonneg h]; ring
  unfold window
  rw [Int.card_Icc, ← Int.cast_natCast, h2]

theorem window_card_pos (n : Nat) (r k : Int) (hr : 0 ≤ r) (hk : 0 ≤ k ∧ k < n) :
    (0 : ℚ) < ((window n r k).card : ℚ) := by
  have := Finset.card_pos.mpr ⟨k, self_mem_window n r k hr hk⟩
  exact_mod_cast this

/-! ## The binary64 operations -/

/-- The binary64 operations on known values: the literal `0.1`; the sum
`0.1 + 0.2`; a tie rounded to the even neighbour; division by zero; the
invalid operations; the overflow threshold; the smallest subnormal. -/
theorem double_known_values :
    Double.round 0.1 = .num (3602879701896397 / 36028797018963968) ∧
    Double.add (Double.round 0.1) (Double.round 0.2) = Double.round 0.30000000000000004 ∧
    Double.round 0.30000000000000004 ≠ Double.round 0.3 ∧
    Double.add (.num 10000000000000000) (.num 1) = .num 10000000000000000 ∧
    Double.add (.num 10000000000000002) (.num 1) = .num 10000000000000004 ∧
    Double.sub (.num 1) (.num 1) = .zero false ∧
    Double.div (.num 1) (.zero false) = .inf false ∧
    Double.div (.num (-1)) (.zero false) = .inf true ∧
    Double.div (.zero false) (.zero false) = .nan ∧
    Double.sub (.inf false) (.inf false) = .nan ∧
    Double.mul (.inf true) (.zero false) = .nan ∧
    Double.div (.num 1) (.inf true) = .zero true ∧
    Double.round (2 ^ 1024 - 2 ^ 970) = .inf false ∧
    Double.round (2 ^ 1024 - 2 ^ 970 - 1) = .num (2 ^ 1024 - 2 ^ 971) ∧
    Double.round (1 / 2 ^ 1074) = .num (1 / 2 ^ 1074) ∧
    Double.round (1 / 2 ^ 1075) = .zero false ∧
    Double.round (3 / 2 ^ 1075) = .num (2 / 2 ^ 1074) := by
  decide!

/-! ## Values of the box filters -/

/-- Claim C1, as stated, fails in the binary64 arithmetic of the source. On
the row `[1e16, 1, 1, 1]` with radius 1 every prefix sum is `1e16` (`1e16 + 1`
is a tie and rounds to the even `1e16`), so `rowBoxFilter` returns
`[1e16, 1e16, 0, 0]`: at index 2 it returns 0, where the window holds
`1, 1, 1` and its sum is 3, in binary64 as over exact arithmetic.
`columnBoxFilter` does the same on the column. -/
theorem boxFilter_double_differs_from_window_sum :
    (ieee.rowBoxFilter
        (ieee.Mat.ofRows 1 4 [[.num 10000000000000000, .num 1, .num 1, .num 1]]) 1).toOption.map
        ieee.Mat.toRows
      = some [[.num 10000000000000000, .num 10000000000000000, .zero false, .zero false]] ∧
    (ieee.columnBoxFilter
        (ieee.Mat.ofRows 4 1 [[.num 10000000000000000], [.num 1], [.num 1], [.num 1]])
        1).toOption.map ieee.Mat.toRows
      = some [[.num 10000000000000000], [.num 10000000000000000], [.zero false], [.zero false]] ∧
    Double.round 10000000000000000 = .num 10000000000000000 ∧
    Double.add (Double.add (.num 1) (.num 1)) (.num 1) = .num 3 ∧
    windowSum (fun t => if t = 0 then 10000000000000000 else 1) 4 1 2 = 3 := by
  decide!

/-- Claim C1 (amended). Over exact arithmetic, for an image with at least one
row and a radius `w` with `0 ≤ w` and `2w + 1 ≤ cols`, `rowBoxFilter` returns
an image of the same shape whose value at every pixel `(i, j)` is the naive
clamped window sum of row `i` over `max(0, j - w) .. min(cols - 1, j + w)`;
`columnBoxFilter` does the same along every column when `2w + 1 ≤ rows`; and
the row `[0,0,0,0,5,0,0,0,0]` with radius 1 gives `[0,0,0,5,5,5,0,0,0]`, over
exact arithmetic and in binary64. -/
theorem boxFilter_eq_naive_window_sum (M : Mat) (w : Int) (hrows : 1 ≤ M.rows)
    (hcols : 1 ≤ M.cols) (hw : 0 ≤ w) :
    ((2 * w + 1 ≤ M.cols) →
      ∃ D, rowBoxFilter M w = .ok D ∧ D.rows = M.rows ∧ D.cols = M.cols ∧
        ∀ i j : Int, 0 ≤ i → i < M.rows → 0 ≤ j → j < M.cols →
          D.val i j = ∑ t in Finset.Icc (max 0 (j - w)) (min ((M.cols : Int) - 1) (j + w)),
            M.val i t) ∧
    ((2 * w + 1 ≤ M.rows) →
      ∃ D, columnBoxFilter M w = .ok D ∧ D.rows = M.rows ∧ D.cols = M.cols ∧
        ∀ i j : Int, 0 ≤ i → i < M.rows → 0 ≤ j → j < M.cols →
          D.val i j = ∑ t in Finset.Icc (max 0 (i - w)) (min ((M.rows : Int) - 1) (i + w)),
            M.val t j) ∧
    (rowBoxFilter (Mat.ofRows 1 9 [[0, 0, 0, 0, 5, 0, 0, 0, 0]]) 1).toOption.map Mat.toRows
      = some [[0, 0, 0, 5, 5, 5, 0, 0, 0]] ∧
    (ieee.rowBoxFilter (ieee.Mat.ofRows 1 9
        [[.zero false, .zero false, .zero false, .zero false, .num 5, .zero false, .zero false,
          .zero false, .zero false]]) 1).toOption.map ieee.Mat.toRows
      = some [[.zero false, .zero false, .zero false, .num 5, .num 5, .num 5, .zero false,
          .zero false, .zero false]] := by
  refine ⟨fun hn => ⟨_, rowBoxFilter_eq M w hrows hw hn, rfl, rfl, ?_⟩,
    fun hn => ⟨_, columnBoxFilter_eq M w hcols hw hn, rfl, rfl, ?_⟩, by decide!, by decide!⟩
  · intro i j _ _ h1 h2
    simp only [rowBoxSpec, if_pos (And.intro h1 h2), windowSum]
  · intro i j h1 h2 _ _
    simp only [columnBoxSpec, if_pos (And.intro h1 h2), windowSum]

/-- Witness for C1: a 2 x 5 image and radius 1 (valid for the rows, not for
the columns). -/
theorem boxFilter_eq_naive_window_sum_witness :
    ∃ D, rowBoxFilter (Mat.ofRows 2 5 [[1, 2, 3, 4, 5], [0, 1, 0, 1, 0]]) 1 = .ok D ∧
      D.rows = 2 ∧ D.cols = 5 ∧
      ∀ i j : Int, 0 ≤ i → i < (2 : Nat) → 0 ≤ j → j < (5 : Nat) →
        D.val i j = ∑ t in Finset.Icc (max 0 (j - 1)) (min (((5 : Nat) : Int) - 1) (j + 1)),
          (Mat.ofRows 2 5 [[1, 2, 3, 4, 5], [0, 1, 0, 1, 0]]).val i t :=
  (boxFilter_eq_naive_window_sum (Mat.ofRows 2 5 [[1, 2, 3, 4, 5], [0, 1, 0, 1, 0]]) 1
    (by decide) (by decide) (by decide)).1 (by decide)

/-- Claim C5. On a non-empty image, `rowBoxFilter` throws (returns no image)
whenever `w < 0` or `2w + 1 > cols`, and returns an image of the input's shape
whenever `0 ≤ w` and `2w + 1 ≤ cols`; `columnBoxFilter` likewise with the
number of rows. -/
theorem boxFilter_throws_iff_radius_invalid (M : Mat) (w : Int) (hrows : 1 ≤ M.rows)
    (hcols : 1 ≤ M.cols) :
    ((w < 0 ∨ (M.cols : Int) < 2 * w + 1) → ∃ e, rowBoxFilter M w = .error e) ∧
    ((0 ≤ w ∧ 2 * w + 1 ≤ M.cols) →
      ∃ D, rowBoxFilter M w = .ok D ∧ D.rows = M.rows ∧ D.cols = M.cols) ∧
    ((w < 0 ∨ (M.rows : Int) < 2 * w + 1) → ∃ e, columnBoxFilter M w = .error e) ∧
    ((0 ≤ w ∧ 2 * w + 1 ≤ M.rows) →
      ∃ D, columnBoxFilter M w = .ok D ∧ D.rows = M.rows ∧ D.cols = M.cols) :=
  ⟨fun h => rowBoxFilter_throws M w h,
    fun h => ⟨_, rowBoxFilter_eq M w hrows h.1 h.2, rfl, rfl⟩,
    fun h => columnBoxFilter_throws M w h,
    fun h => ⟨_, columnBoxFilter_eq M w hcols h.1 h.2, rfl, rfl⟩⟩

/-- Witness for C5: a 1 x 3 row with radius 2, a window of 5 on 3 columns. -/
theorem boxFilter_throws_iff_radius_invalid_witness :
    ∃ e, rowBoxFilter (Mat.ofRows 1 3 [[1, 2, 3]]) 2 = .error e :=
  (boxFilter_throws_iff_radius_invalid (Mat.ofRows 1 3 [[1, 2, 3]]) 2
    (by decide) (by decide)).1 (Or.inr (by decide))

/-- Claim C6. For `n ≥ 1` columns and a radius with `0 ≤ w`, `2w + 1 ≤ n`,
the window count `N = rowBoxFilter(ones, w)` is
`N[j] = min(n - 1, j + w) - max(0, j - w) + 1` at every index; the leftmost
value is `w + 1`, the interior values are `2w + 1`, and `N[j] ≥ w + 1 > 0`
everywhere. -/
theorem windowCount_closed_form (hei n : Nat) (w : Int) (hhei : 1 ≤ hei) (hw : 0 ≤ w)
    (hn : 2 * w + 1 ≤ n) :
    ∃ N, rowBoxFilter (Mat.ones hei n) w = .ok N ∧
      (∀ i j : Int, 0 ≤ i → i < hei → 0 ≤ j → j < n →
        N.val i j = ((min ((n : Int) - 1) (j + w) - max 0 (j - w) + 1 : Int) : ℚ) ∧
        (w : ℚ) + 1 ≤ N.val i j ∧ 0 < N.val i j) ∧
      (∀ i : Int, 0 ≤ i → i < hei → N.val i 0 = (w : ℚ) + 1) ∧
      (∀ i j : Int, 0 ≤ i → i < hei → w ≤ j → j ≤ (n : Int) - 1 - w →
        N.val i j = 2 * (w : ℚ) + 1) := by
  have hval : ∀ i j : Int, 0 ≤ j → j < n → (rowBoxSpec (Mat.ones hei n) w).val i j
      = ((min ((n : Int) - 1) (j + w) - max 0 (j - w) + 1 : Int) : ℚ) := by
    intro i j h1 h2
    simp only [rowBoxSpec, Mat.ones, if_pos (And.intro h1 h2)]
    rw [windowSum_ones, window_card n w j hw ⟨h1, h2⟩]
  refine ⟨_, rowBoxFilter_eq (Mat.ones hei n) w hhei hw hn, ?_, ?_, ?_⟩
  · intro i j _ _ h1 h2
    rw [hval i j h1 h2]
    have h3 : w + 1 ≤ min ((n : Int) - 1) (j + w) - max 0 (j - w) + 1 := by omega
    have h4 : ((w + 1 : Int) : ℚ) ≤ ((min ((n : Int) - 1) (j + w) - max 0 (j - w) + 1 : Int) : ℚ) :=
      Int.cast_le.mpr h3
    have h5 : (0 : ℚ) ≤ (w : ℚ) := Int.cast_nonneg.mpr hw
    push_cast at h4 ⊢
    refine ⟨rfl, h4, by linarith⟩
  · intro i _ _
    rw [hval i 0 le_rfl (by omega)]
    have : min ((n : Int) - 1) (0 + w) - max 0 (0 - w) + 1 = w + 1 := by omega
    rw [this]; push_cast; ring
  · intro i j _ _ h1 h2
    rw [hval i j (by omega) (by omega)]
    have : min ((n : Int) - 1) (j + w) - max 0 (j - w) + 1 = 2 * w + 1 := by omega
    rw [this]; push_cast; ring

/-- Witness for C6: a row of 9 ones with radius 4. -/
theorem windowCount_closed_form_witness :
    ∃ N, rowBoxFilter (Mat.ones 1 9) 4 = .ok N ∧
      (∀ i j : Int, 0 ≤ i → i < (1 : Nat) → 0 ≤ j → j < (9 : Nat) →
        N.val i j = ((min (((9 : Nat) : Int) - 1) (j + 4) - max 0 (j - 4) + 1 : Int) : ℚ) ∧
        ((4 : Int) : ℚ) + 1 ≤ N.val i j ∧ 0 < N.val i j) ∧
      (∀ i : Int, 0 ≤ i → i < (1 : Nat) → N.val i 0 = ((4 : Int) : ℚ) + 1) ∧
      (∀ i j : Int, 0 ≤ i → i < (1 : Nat) → 4 ≤ j → j ≤ ((9 : Nat) : Int) - 1 - 4 →
        N.val i j = 2 * ((4 : Int) : ℚ) + 1) :=
  windowCount_closed_form 1 9 4 (by decide) (by decide) (by decide)

/-! ## Values of the guided filter -/

/-- Claim C2, as stated, fails in the binary64 arithmetic of the source. For
the guide and input `[1e8, 1e8 + 1, ..., 1e8 + 6]`, radius 1 and `eps = 0.16`,
`mean_II - mean_I * mean_I` cancels to 0 or 2 where the window variance is
`1/4` or `2/3`, and `rowGuidedFilter` returns `100000000.85802469` at index 1,
more than `1/10` below the value `mean_a[1] * I[1] + mean_b[1]` of the window
statistics. -/
theorem rowGuidedFilter_double_differs_from_linear_model :
    (ieee.rowGuidedFilter
        (ieee.Mat.mk 1 7 (fun _ j => .num (100000000 + j)))
        (ieee.Mat.mk 1 7 (fun _ j => .num (100000000 + j))) 1 (Double.round 0.16)).toOption.map
        ieee.Mat.toRows
      = some [[Double.round 100000000.28703704, Double.round 100000000.85802469,
          Double.round 100000002.00000001, Double.round 100000003.00000001,
          Double.round 100000003.99999999, Double.round 100000004.98765431,
          Double.round 100000005.94444443]] ∧
    (∀ j ∈ List.range 7, Double.round (100000000 + j) = .num (100000000 + j)) ∧
    1 / 10 < guidedSpec (fun t => 100000000 + t) (fun t => 100000000 + t) 7 1
        (Double.round 0.16).toRat 1 - (Double.round 100000000.85802469).toRat := by
  decide!

/-- Claim C2 (amended). Over exact arithmetic, for a guide `I` and an input
`p` of one shape with at least one row, a radius with `0 ≤ r`, `2r + 1 ≤ cols`
and `eps > 0`, `rowGuidedFilter` returns an image `q` of that shape with `q[j] = mean_a[j] * I[j] + mean_b[j]`
in every row, where `a[k] = cov_k(I, p) / (var_k(I) + eps)`,
`b[k] = mean_k(p) - a[k] * mean_k(I)` are formed from the statistics of the
clamped window centred at `k`, and `mean_a[j]`, `mean_b[j]` are the means of
`a` and `b` over the clamped window centred at `j`. -/
theorem rowGuidedFilter_local_linear_model (I p : Mat) (r : Int) (eps : ℚ)
    (hp : p.rows = I.rows ∧ p.cols = I.cols) (hrows : 1 ≤ I.rows) (hr : 0 ≤ r)
    (hn : 2 * r + 1 ≤ I.cols) (heps : 0 < eps) :
    ∃ q, rowGuidedFilter I p r eps = .ok q ∧ q.rows = I.rows ∧ q.cols = I.cols ∧
      ∀ i j : Int, 0 ≤ i → i < I.rows → 0 ≤ j → j < I.cols →
        q.val i j
          = winMean (fun k => winCov (fun t => I.val i t) (fun t => p.val i t) I.cols r k
                / (winVar (fun t => I.val i t) I.cols r k + eps)) I.cols r j * I.val i j
            + winMean (fun k => winMean (fun t => p.val i t) I.cols r k
                - winCov (fun t => I.val i t) (fun t => p.val i t) I.cols r k
                  / (winVar (fun t => I.val i t) I.cols r k + eps)
                  * winMean (fun t => I.val i t) I.cols r k) I.cols r j := by
  have _ := heps
  refine ⟨_, rowGuidedFilter_eq I p r eps hp hrows hr hn, rfl, rfl, ?_⟩
  intro i j _ _ h1 h2
  simp only [rowGuidedSpec, if_pos (And.intro h1 h2)]
  rfl

/-- Witness for C2: a 1 x 3 guide and input, radius 1, `eps = 1`. -/
theorem rowGuidedFilter_local_linear_model_witness :
    ∃ q, rowGuidedFilter (Mat.ofRows 1 3 [[1, 2, 4]]) (Mat.ofRows 1 3 [[0, 1, 0]]) 1 1 = .ok q ∧
      q.rows = (Mat.ofRows 1 3 [[1, 2, 4]]).rows ∧ q.cols = (Mat.ofRows 1 3 [[1, 2, 4]]).cols :=
  let ⟨q, h1, h2, h3, _⟩ := rowGuidedFilter_local_linear_model
    (Mat.ofRows 1 3 [[1, 2, 4]]) (Mat.ofRows 1 3 [[0, 1, 0]]) 1 1
    ⟨rfl, rfl⟩ (by decide) (by decide) (by decide) (by norm_num)
  ⟨q, h1, h2, h3⟩

theorem map_ok {α β : Type} (f : α → β) (a : α) :
    (Except.ok a : Except CvError α).map f = .ok (f a) := rfl

/-- Claim C3. On a non-empty image with a valid row radius and positive
`row_eps`, `col_eps`, `denoise1DGuidedFilter` returns `input - strip`, where
row `i` of `smooth` is `rowGuidedFilter(input.row(i), input.row(i),
row_radius, row_eps)`, `highpart = input - smooth`, and column `j` of `strip`
is `columnGuidedFilter(smooth.col(j), highpart.col(j), r_col, col_eps)`: the
guide of the column pass is the smoothed column, its input the high-pass
residual, and the stripe estimate is subtracted from the original input. -/
theorem denoise_eq_input_sub_strip (input : Mat) (row_radius : Int) (row_eps col_eps : ℚ)
    (hrows : 1 ≤ input.rows) (hr : 0 ≤ row_radius) (hn : 2 * row_radius + 1 ≤ input.cols)
    (hre : 0 < row_eps) (hce : 0 < col_eps) :
    ∃ st : DenoiseStages,
      denoiseStages input row_radius row_eps col_eps = .ok st ∧
      denoise1DGuidedFilter input row_radius row_eps col_eps = .ok st.im_output ∧
      (st.im_output.rows = input.rows ∧ st.im_output.cols = input.cols) ∧
      (∀ i : Int, 0 ≤ i → i < input.rows →
        ∃ row_i result, input.row i = .ok row_i ∧
          rowGuidedFilter row_i row_i row_radius row_eps = .ok result ∧
          ∀ j : Int, 0 ≤ j → j < input.cols → st.smooth.val i j = result.val 0 j) ∧
      (∀ i j : Int, 0 ≤ i → i < input.rows → 0 ≤ j → j < input.cols →
        st.highpart.val i j = input.val i j - st.smooth.val i j) ∧
      (∀ j : Int, 0 ≤ j → j < input.cols →
        ∃ smooth_col highpart_col result,
          st.smooth.col j = .ok smooth_col ∧ st.highpart.col j = .ok highpart_col ∧
          columnGuidedFilter smooth_col highpart_col (colRadius input.rows) col_eps = .ok result ∧
          ∀ i : Int, 0 ≤ i → i < input.rows → st.strip.val i j = result.val i 0) ∧
      (∀ i j : Int, 0 ≤ i → i < input.rows → 0 ≤ j → j < input.cols →
        st.im_output.val i j = input.val i j - st.strip.val i j) := by
  have _ := hre
  have _ := hce
  have hst := denoiseStages_eq input row_radius row_eps col_eps hrows hr hn
  obtain ⟨hc1, hc2⟩ := colRadius_valid input.rows hrows
  refine ⟨_, hst, ?_, ⟨rfl, rfl⟩, ?_, ?_, ?_, ?_⟩
  · unfold denoise1DGuidedFilter
    rw [hst, map_ok]
  · intro i h1 h2
    refine ⟨_, _, row_ok input i ⟨h1, h2⟩,
      rowGuidedFilter_eq (input.rowAt i) (input.rowAt i) row_radius row_eps ⟨rfl, rfl⟩ le_rfl hr hn,
      ?_⟩
    intro j _ _
    simp only [stagesSpec, smoothSpec, if_pos (And.intro h1 h2)]
  · intro i j _ _ _ _
    rfl
  · intro j h1 h2
    refine ⟨_, _, _, col_ok _ j ⟨h1, h2⟩, col_ok _ j ⟨h1, h2⟩,
      columnGuidedFilter_eq
        ((stagesSpec input row_radius row_eps col_eps).smooth.colAt j)
        ((stagesSpec input row_radius row_eps col_eps).highpart.colAt j)
        (colRadius input.rows) col_eps ⟨rfl, rfl⟩ le_rfl hc1 hc2, ?_⟩
    intro i _ _
    have h3 : 0 ≤ j ∧ j < ((smoothSpec input row_radius row_eps).cols : Int) := ⟨h1, h2⟩
    simp only [stagesSpec, stripSpec, if_pos h3]
  · intro i j _ _ _ _
    rfl

/-- Witness for C3: a 2 x 3 image, row radius 1, the default `eps` values. -/
theorem denoise_eq_input_sub_strip_witness :
    ∃ st : DenoiseStages,
      denoiseStages (Mat.ofRows 2 3 [[0, 1, 0], [1, 1, 0]]) 1 0.16 0.04 = .ok st ∧
      denoise1DGuidedFilter (Mat.ofRows 2 3 [[0, 1, 0], [1, 1, 0]]) 1 0.16 0.04
        = .ok st.im_output :=
  let ⟨st, h1, h2, _⟩ := denoise_eq_input_sub_strip (Mat.ofRows 2 3 [[0, 1, 0], [1, 1, 0]])
    1 0.16 0.04 (by decide) (by decide) (by decide) (by norm_num) (by norm_num)
  ⟨st, h1, h2⟩

/-! ## Constant lines -/

theorem winMean_const (d : ℚ) (n : Nat) (r k : Int) (hr : 0 ≤ r) (hk : 0 ≤ k ∧ k < n) :
    winMean (fun _ => d) n r k = d := by
  unfold winMean
  have h := window_card_pos n r k hr hk
  rw [Finset.sum_const, nsmul_eq_mul]
  field_simp

theorem winMean_zero (n : Nat) (r k : Int) : winMean (fun _ => 0) n r k = 0 := by
  unfold winMean
  simp

/-- An input that is constant on the line passes through the guided filter
unchanged, for any guide. -/
theorem guidedSpec_const_input (I p : Int → ℚ) (n : Nat) (r : Int) (eps : ℚ) (j : Int) (d : ℚ)
    (hp : ∀ t : Int, 0 ≤ t → t < n → p t = d) (hr : 0 ≤ r) (hj : 0 ≤ j ∧ j < n) :
    guidedSpec I p n r eps j = d := by
  have hmp : ∀ k : Int, 0 ≤ k → k < n → winMean p n r k = d := by
    intro k h1 h2
    rw [winMean_congr p (fun _ => d) n r k hp, winMean_const d n r k hr ⟨h1, h2⟩]
  have hcov : ∀ k : Int, 0 ≤ k → k < n → winCov I p n r k = 0 := by
    intro k h1 h2
    unfold winCov
    rw [winMean_congr _ (fun _ => 0) n r k, winMean_zero]
    intro t ht1 ht2
    rw [hp t ht1 ht2, hmp k h1 h2, sub_self, mul_zero]
  have hA : ∀ k : Int, 0 ≤ k → k < n → coefA I p n r eps k = 0 := by
    intro k h1 h2
    unfold coefA
    rw [hcov k h1 h2, zero_div]
  have hB : ∀ k : Int, 0 ≤ k → k < n → coefB I p n r eps k = d := by
    intro k h1 h2
    unfold coefB
    rw [hA k h1 h2, hmp k h1 h2, zero_mul, sub_zero]
  unfold guidedSpec
  rw [winMean_congr _ (fun _ => 0) n r j hA, winMean_congr _ (fun _ => d) n r j hB,
    winMean_zero, winMean_const d n r j hr hj, zero_mul, zero_add]

/-- Claim C4, as stated, fails in the binary64 arithmetic of the source. On
the `2 x 3` image filled with `0.1`, with row radius 1 and the default
`row_eps = 0.16`, `col_eps = 0.04`, `denoise1DGuidedFilter` returns
`0.10000000000000002` in columns 1 and 2, and `highpart` and `strip` are
`-1.3877787807814457e-17` there, not 0. With `row_eps = 2^-59 > 0` the sum
`var_I + eps` is exactly 0 and every output value is a NaN. -/
theorem denoise_double_changes_constant_image :
    (ieee.denoiseStages (ieee.Mat.mk 2 3 (fun _ _ => Double.round 0.1)) 1 (Double.round 0.16)
        (Double.round 0.04)).toOption.map
        (fun st => (st.im_output.toRows, st.highpart.toRows, st.strip.toRows))
      = some
        ([[Double.round 0.1, Double.round 0.10000000000000002, Double.round 0.10000000000000002],
          [Double.round 0.1, Double.round 0.10000000000000002, Double.round 0.10000000000000002]],
         [[.zero false, Double.round (-1.3877787807814457e-17),
            Double.round (-1.3877787807814457e-17)],
          [.zero false, Double.round (-1.3877787807814457e-17),
            Double.round (-1.3877787807814457e-17)]],
         [[.zero false, Double.round (-1.3877787807814457e-17),
            Double.round (-1.3877787807814457e-17)],
          [.zero false, Double.round (-1.3877787807814457e-17),
            Double.round (-1.3877787807814457e-17)]]) ∧
    Double.round 0.10000000000000002 ≠ Double.round 0.1 ∧
    Double.round (-1.3877787807814457e-17) ≠ .zero false ∧
    (ieee.denoise1DGuidedFilter (ieee.Mat.mk 2 3 (fun _ _ => Double.round 0.1)) 1
        (.num (1 / 2 ^ 59)) (Double.round 0.04)).toOption.map ieee.Mat.toRows
      = some [[.nan, .nan, .nan], [.nan, .nan, .nan]] ∧
    Double.round (1 / 2 ^ 59) = .num (1 / 2 ^ 59) := by
  decide!

/-- Claim C4 (amended). Over exact arithmetic, on an image filled with a
constant `c`, with at least one row, a row radius with `0 ≤ row_radius`,
`2 row_radius + 1 ≤ cols` and positive `row_eps`, `col_eps`,
`denoise1DGuidedFilter` returns the constant image, and the intermediate
images `highpart` and `strip` are zero at every pixel; in binary64 this is so
for the `2 x 3` image filled with `1/2`, row radius 1 and the default
`row_eps`, `col_eps`. -/
theorem denoise_constant_image (input : Mat) (c : ℚ) (row_radius : Int) (row_eps col_eps : ℚ)
    (hconst : ∀ i j : Int, 0 ≤ i → i < input.rows → 0 ≤ j → j < input.cols → input.val i j = c)
    (hrows : 1 ≤ input.rows) (hr : 0 ≤ row_radius) (hn : 2 * row_radius + 1 ≤ input.cols)
    (hre : 0 < row_eps) (hce : 0 < col_eps) :
    (∃ st : DenoiseStages,
      denoiseStages input row_radius row_eps col_eps = .ok st ∧
      denoise1DGuidedFilter input row_radius row_eps col_eps = .ok st.im_output ∧
      st.im_output.rows = input.rows ∧ st.im_output.cols = input.cols ∧
      ∀ i j : Int, 0 ≤ i → i < input.rows → 0 ≤ j → j < input.cols →
        st.im_output.val i j = c ∧ st.highpart.val i j = 0 ∧ st.strip.val i j = 0) ∧
    (ieee.denoiseStages (ieee.Mat.mk 2 3 (fun _ _ => .num (1 / 2))) 1 (Double.round 0.16)
        (Double.round 0.04)).toOption.map
        (fun st => (st.im_output.toRows, st.highpart.toRows, st.strip.toRows))
      = some
        ([[.num (1 / 2), .num (1 / 2), .num (1 / 2)], [.num (1 / 2), .num (1 / 2), .num (1 / 2)]],
         [[.zero false, .zero false, .zero false], [.zero false, .zero false, .zero false]],
         [[.zero false, .zero false, .zero false], [.zero false, .zero false, .zero false]]) := by
  refine ⟨?_, by decide!⟩
  have _ := hre
  have _ := hce
  have hst := denoiseStages_eq input row_radius row_eps col_eps hrows hr hn
  obtain ⟨hc1, hc2⟩ := colRadius_valid input.rows hrows
  have hsmooth : ∀ i j : Int, 0 ≤ i → i < input.rows → 0 ≤ j → j < input.cols →
      (smoothSpec input row_radius row_eps).val i j = c := by
    intro i j h1 h2 h3 h4
    simp only [smoothSpec, if_pos (And.intro h1 h2), rowGuidedSpec, Mat.rowAt,
      if_pos (And.intro h3 h4)]
    exact guidedSpec_const_input _ _ _ _ _ _ c (fun t ht1 ht2 => hconst i t h1 h2 ht1 ht2) hr
      ⟨h3, h4⟩
  have hhigh : ∀ i j : Int, 0 ≤ i → i < input.rows → 0 ≤ j → j < input.cols →
      (Mat.zipWith (fun x y => x - y) input (smoothSpec input row_radius row_eps)).val i j
        = 0 := by
    intro i j h1 h2 h3 h4
    simp only [Mat.zipWith]
    rw [hsmooth i j h1 h2 h3 h4, hconst i j h1 h2 h3 h4, sub_self]
  have hstrip : ∀ i j : Int, 0 ≤ i → i < input.rows → 0 ≤ j → j < input.cols →
      (stagesSpec input row_radius row_eps col_eps).strip.val i j = 0 := by
    intro i j h1 h2 h3 h4
    have h5 : 0 ≤ j ∧ j < ((smoothSpec input row_radius row_eps).cols : Int) := ⟨h3, h4⟩
    have h6 : 0 ≤ i ∧ i < (((smoothSpec input row_radius row_eps).colAt j).rows : Int) :=
      ⟨h1, h2⟩
    simp only [stagesSpec, stripSpec, if_pos h5, columnGuidedSpec, if_pos h6]
    exact guidedSpec_const_input _ _ _ _ _ _ 0
      (fun t ht1 ht2 => hhigh t j ht1 ht2 h3 h4) hc1 ⟨h1, h2⟩
  refine ⟨_, hst, ?_, rfl, rfl, ?_⟩
  · unfold denoise1DGuidedFilter
    rw [hst, map_ok]
  · intro i j h1 h2 h3 h4
    refine ⟨?_, hhigh i j h1 h2 h3 h4, hstrip i j h1 h2 h3 h4⟩
    show input.val i j - (stagesSpec input row_radius row_eps col_eps).strip.val i j = c
    rw [hstrip i j h1 h2 h3 h4, hconst i j h1 h2 h3 h4, sub_zero]

/-- Witness for C4: the 2 x 3 image filled with 1/2, row radius 1. -/
theorem denoise_constant_image_witness :
    ∃ st : DenoiseStages,
      denoiseStages ⟨2, 3, fun _ _ => 1 / 2⟩ 1 0.16 0.04 = .ok st ∧
      denoise1DGuidedFilter ⟨2, 3, fun _ _ => 1 / 2⟩ 1 0.16 0.04 = .ok st.im_output ∧
      st.im_output.rows = 2 ∧ st.im_output.cols = 3 ∧
      ∀ i j : Int, 0 ≤ i → i < (2 : Nat) → 0 ≤ j → j < (3 : Nat) →
        st.im_output.val i j = 1 / 2 ∧ st.highpart.val i j = 0 ∧ st.strip.val i j = 0 :=
  (denoise_constant_image ⟨2, 3, fun _ _ => 1 / 2⟩ (1 / 2) 1 0.16 0.04
    (fun _ _ _ _ _ _ => rfl) (by decide) (by decide) (by decide) (by norm_num) (by norm_num)).1

/-! ## The column radius -/

theorem cvRound_of_lt (x : ℚ) (z : Int) (h1 : (z : ℚ) - 1 / 2 < x) (h2 : x < z + 1 / 2) :
    cvRound x = z := by
  have hfl := Int.floor_le x
  have hfu := Int.lt_floor_add_one x
  have a1 : ((⌊x⌋ : Int) : ℚ) < ((z + 1 : Int) : ℚ) := by push_cast; linarith
  have a2 : ((z : Int) : ℚ) < ((⌊x⌋ + 2 : Int) : ℚ) := by push_cast; linarith
  have b1 : ⌊x⌋ < z + 1 := Int.cast_lt.mp a1
  have b2 : z < ⌊x⌋ + 2 := Int.cast_lt.mp a2
  unfold cvRound
  generalize ⌊x⌋ = f at *
  have hf : f = z - 1 ∨ f = z := by omega
  rcases hf with hf | hf <;> subst hf <;> split_ifs with c1 c2 c3 <;>
    first | rfl | omega | (exfalso; push_cast at *; linarith)

theorem cvRound_tie (z : Int) :
    cvRound ((z : ℚ) + 1 / 2) = if z % 2 = 0 then z else z + 1 := by
  have hf : ⌊(z : ℚ) + 1 / 2⌋ = z := by
    rw [Int.floor_eq_iff]; constructor <;> linarith
  unfold cvRound
  rw [hf]
  have e : (z : ℚ) + 1 / 2 - z = 1 / 2 := by ring
  rw [e, if_neg (lt_irrefl _), if_neg (lt_irrefl _)]

theorem roundHalfAway_of_lt (x : ℚ) (z : Int) (h1 : (z : ℚ) - 1 / 2 < x)
    (h2 : x < z + 1 / 2) : roundHalfAway x = z := by
  unfold roundHalfAway
  split_ifs
  · rw [Int.floor_eq_iff]; constructor <;> linarith
  · rw [Int.ceil_eq_iff]; constructor <;> linarith

theorem roundHalfAway_tie (z : Int) (hz : 0 ≤ z) :
    roundHalfAway ((z : ℚ) + 1 / 2) = z + 1 := by
  have h0 : (0 : ℚ) ≤ (z : ℚ) := Int.cast_nonneg.mpr hz
  unfold roundHalfAway
  rw [if_pos (by linarith), Int.floor_eq_iff]
  push_cast
  constructor <;> linarith

/-- The column radius in closed form: `rows / 8`, lowered by one when
`rows` is 8 modulo 16 (the tie `k - 1/2` with `k` odd goes to the even `k - 1`);
half-away rounding gives `rows / 8` for every height. -/
theorem colRadius_closed_form (rows : Nat) (h : 1 ≤ rows) :
    colRadius rows = (if rows % 16 = 8 then (rows : Int) / 8 - 1 else (rows : Int) / 8) ∧
    roundHalfAway (0.5 * ((rows : ℚ) * 0.25 - 1)) = (rows : Int) / 8 := by
  have hx : (0.5 : ℚ) * ((rows : ℚ) * 0.25 - 1) = (rows : ℚ) / 8 - 1 / 2 := by norm_num; ring
  have hdm : (rows : Int) = 8 * ((rows : Int) / 8) + (rows : Int) % 8 :=
    (Int.ediv_add_emod (rows : Int) 8).symm
  have hq : (rows : ℚ) = 8 * (((rows : Int) / 8 : Int) : ℚ) + (((rows : Int) % 8 : Int) : ℚ) := by
    have h1 := congrArg (Int.cast : Int → ℚ) hdm
    rw [Int.cast_add, Int.cast_mul, Int.cast_natCast] at h1
    exact_mod_cast h1
  have hm : 0 ≤ (rows : Int) % 8 ∧ (rows : Int) % 8 < 8 := by omega
  unfold colRadius
  rw [hx]
  generalize hz : (rows : Int) / 8 = z at *
  generalize hmm : (rows : Int) % 8 = m at *
  by_cases hm0 : m = 0
  · subst hm0
    have hq1 : 1 ≤ z := by omega
    have e : (rows : ℚ) / 8 - 1 / 2 = ((z - 1 : Int) : ℚ) + 1 / 2 := by
      rw [hq]; push_cast; ring
    rw [e, cvRound_tie, roundHalfAway_tie _ (by omega)]
    refine ⟨?_, by ring⟩
    by_cases h16 : rows % 16 = 8
    · rw [if_pos h16, if_pos (by omega)]
    · rw [if_neg h16, if_neg (by omega)]; ring
  · have hmq : (1 : ℚ) ≤ (m : ℚ) ∧ (m : ℚ) ≤ 7 := by
      constructor
      · have : (1 : Int) ≤ m := by omega
        exact_mod_cast this
      · have : m ≤ (7 : Int) := by omega
        exact_mod_cast this
    have b1 : (z : ℚ) - 1 / 2 < (rows : ℚ) / 8 - 1 / 2 := by
      rw [hq]; linarith [hmq.1]
    have b2 : (rows : ℚ) / 8 - 1 / 2 < (z : ℚ) + 1 / 2 := by
      rw [hq]; linarith [hmq.2]
    rw [cvRound_of_lt _ _ b1 b2, roundHalfAway_of_lt _ _ b1 b2, if_neg (by omega)]
    exact ⟨rfl, rfl⟩

/-- Claim C7, as stated, fails at `rows = 8`: the exact value is `1/2`, which
`cvRound` takes to the even integer 0, while rounding with ties away from
zero gives 1. -/
theorem colRadius_tie_not_away_from_zero :
    colRadius 8 = 0 ∧ roundHalfAway (0.5 * (((8 : Nat) : ℚ) * 0.25 - 1)) = 1 ∧
      colRadius 8 ≠ roundHalfAway (0.5 * (((8 : Nat) : ℚ) * 0.25 - 1)) := by
  decide!

/-- Claim C7 (amended). For every height `rows ≥ 1` the column radius passed
to `columnGuidedFilter` is `cvRound` of the exact value `rows/8 - 1/2`, the
nearest integer with a tie going to the even neighbour: it is the integer
quotient `rows / 8`, which is also what rounding with ties away from zero
gives, except for `rows ≡ 8 (mod 16)`, where it is one less. -/
theorem colRadius_rounds_half_to_even (rows : Nat) (h : 1 ≤ rows) :
    colRadius rows = cvRound ((rows : ℚ) / 8 - 1 / 2) ∧
    colRadius rows = (if rows % 16 = 8 then (rows : Int) / 8 - 1 else (rows : Int) / 8) ∧
    colRadius rows = (if rows % 16 = 8 then roundHalfAway (0.5 * ((rows : ℚ) * 0.25 - 1)) - 1
      else roundHalfAway (0.5 * ((rows : ℚ) * 0.25 - 1))) := by
  obtain ⟨h1, h2⟩ := colRadius_closed_form rows h
  refine ⟨?_, h1, ?_⟩
  · unfold colRadius
    congr 1
    norm_num
    ring
  · rw [h2]; exact h1

/-- Witness for C7 (amended): the height 288 of the source's example
resolution, radius 36. -/
theorem colRadius_rounds_half_to_even_witness :
    colRadius 288 = cvRound (((288 : Nat) : ℚ) / 8 - 1 / 2) ∧
    colRadius 288 = (if 288 % 16 = 8 then ((288 : Nat) : Int) / 8 - 1 else ((288 : Nat) : Int) / 8) ∧
    colRadius 288 =
      (if 288 % 16 = 8 then roundHalfAway (0.5 * (((288 : Nat) : ℚ) * 0.25 - 1)) - 1
        else roundHalfAway (0.5 * (((288 : Nat) : ℚ) * 0.25 - 1))) :=
  colRadius_rounds_half_to_even 288 (by decide)

/-! ## The limit of large `eps` -/

/-- As `eps` grows, the guided-filter output tends to the window mean of the
window means of the input. -/
theorem guidedSpec_tendsto (I p : Int → ℚ) (n : Nat) (r j : Int) :
    Filter.Tendsto (fun eps : ℚ => guidedSpec I p n r eps j) Filter.atTop
      (nhds (winMean (fun k => winMean p n r k) n r j)) := by
  have hA : ∀ k : Int, Filter.Tendsto
      (fun eps : ℚ => winCov I p n r k / (winVar I n r k + eps)) Filter.atTop (nhds 0) :=
    fun k => Filter.Tendsto.div_atTop tendsto_const_nhds
      (Filter.tendsto_atTop_add_const_left _ _ Filter.tendsto_id)
  have hsA := tendsto_finset_sum (window n r j) (fun k _ => hA k)
  have hB : ∀ k : Int, Filter.Tendsto
      (fun eps : ℚ => winMean p n r k - winCov I p n r k / (winVar I n r k + eps)
        * winMean I n r k) Filter.atTop (nhds (winMean p n r k - 0 * winMean I n r k)) :=
    fun k => tendsto_const_nhds.sub ((hA k).mul_const _)
  have hsB := tendsto_finset_sum (window n r j) (fun k _ => hB k)
  have h := ((hsA.div_const ((window n r j).card : ℚ)).mul_const (I j)).add
    (hsB.div_const ((window n r j).card : ℚ))
  have e : (∑ k in window n r j, (0 : ℚ)) / ((window n r j).card : ℚ) * I j
      + (∑ k in window n r j, (winMean p n r k - 0 * winMean I n r k))
        / ((window n r j).card : ℚ) = winMean (fun k => winMean p n r k) n r j := by
    unfold winMean
    simp
  rw [e] at h
  exact h

theorem valueAt_rowGuidedFilter (I p : Mat) (r : Int) (eps : ℚ)
    (hp : p.rows = I.rows ∧ p.cols = I.cols) (hrows : 1 ≤ I.rows) (hr : 0 ≤ r)
    (hn : 2 * r + 1 ≤ I.cols) (i j : Int) (hj : 0 ≤ j ∧ j < I.cols) :
    valueAt (rowGuidedFilter I p r eps) i j
      = guidedSpec (fun t => I.val i t) (fun t => p.val i t) I.cols r eps j := by
  rw [rowGuidedFilter_eq I p r eps hp hrows hr hn]
  simp only [valueAt, rowGuidedSpec, if_pos hj]

theorem valueAt_columnGuidedFilter (I p : Mat) (r : Int) (eps : ℚ)
    (hp : p.rows = I.rows ∧ p.cols = I.cols) (hcols : 1 ≤ I.cols) (hr : 0 ≤ r)
    (hn : 2 * r + 1 ≤ I.rows) (i j : Int) (hi : 0 ≤ i ∧ i < I.rows) :
    valueAt (columnGuidedFilter I p r eps) i j
      = guidedSpec (fun t => I.val t j) (fun t => p.val t j) I.rows r eps i := by
  rw [columnGuidedFilter_eq I p r eps hp hcols hr hn]
  simp only [valueAt, columnGuidedSpec, if_pos hi]

/-- Claim C8, as stated, fails for the guide `[0, 0, 0]`, the input
`[0, 0, 3]` and radius 1 at index 0: the output is `1/2` for every `eps`,
while `boxFilter(p, r)[0] / N[0]` is 0. -/
theorem guidedFilter_limit_not_plain_average :
    valueAt (rowBoxFilter (Mat.ofRows 1 3 [[0, 0, 3]]) 1) 0 0
        / valueAt (rowBoxFilter (Mat.ones 1 3) 1) 0 0 = 0 ∧
    ¬ Filter.Tendsto
      (fun eps : ℚ => valueAt
        (rowGuidedFilter (Mat.ofRows 1 3 [[0, 0, 0]]) (Mat.ofRows 1 3 [[0, 0, 3]]) 1 eps) 0 0)
      Filter.atTop
      (nhds (valueAt (rowBoxFilter (Mat.ofRows 1 3 [[0, 0, 3]]) 1) 0 0
        / valueAt (rowBoxFilter (Mat.ones 1 3) 1) 0 0)) := by
  have h0 : valueAt (rowBoxFilter (Mat.ofRows 1 3 [[0, 0, 3]]) 1) 0 0
      / valueAt (rowBoxFilter (Mat.ones 1 3) 1) 0 0 = 0 := by decide!
  refine ⟨h0, ?_⟩
  rw [h0]
  intro hlim
  have hfun : (fun eps : ℚ => valueAt
      (rowGuidedFilter (Mat.ofRows 1 3 [[0, 0, 0]]) (Mat.ofRows 1 3 [[0, 0, 3]]) 1 eps) 0 0)
      = fun eps : ℚ => guidedSpec (fun t => (Mat.ofRows 1 3 [[0, 0, 0]]).val 0 t)
          (fun t => (Mat.ofRows 1 3 [[0, 0, 3]]).val 0 t) 3 1 eps 0 := by
    funext eps
    exact valueAt_rowGuidedFilter (Mat.ofRows 1 3 [[0, 0, 0]]) (Mat.ofRows 1 3 [[0, 0, 3]]) 1 eps
      ⟨rfl, rfl⟩ (by decide) (by decide) (by decide) 0 0 (by decide)
  rw [hfun] at hlim
  have hne : winMean (fun k => winMean (fun t => (Mat.ofRows 1 3 [[0, 0, 3]]).val 0 t) 3 1 k)
      3 1 0 ≠ 0 := by decide!
  exact hne (tendsto_nhds_unique (guidedSpec_tendsto _ _ 3 1 0) hlim)

/-- Claim C8 (amended). For a guide and an input of one non-empty shape and a
valid radius, the value of `rowGuidedFilter(I, p, r, eps)` at every pixel
converges, as `eps` tends to infinity, to the mean over the clamped window
centred at `j` of the local means `boxFilter(p, r) / N` of the input: the
local average applied twice; likewise for `columnGuidedFilter`. -/
theorem guidedFilter_limit_double_average (I p : Mat) (r : Int)
    (hp : p.rows = I.rows ∧ p.cols = I.cols) (hrows : 1 ≤ I.rows) (hcols : 1 ≤ I.cols)
    (hr : 0 ≤ r) (i j : Int) (hi : 0 ≤ i ∧ i < I.rows) (hj : 0 ≤ j ∧ j < I.cols) :
    ((2 * r + 1 ≤ I.cols) →
      Filter.Tendsto (fun eps : ℚ => valueAt (rowGuidedFilter I p r eps) i j) Filter.atTop
        (nhds (winMean (fun k => winMean (fun t => p.val i t) I.cols r k) I.cols r j))) ∧
    ((2 * r + 1 ≤ I.rows) →
      Filter.Tendsto (fun eps : ℚ => valueAt (columnGuidedFilter I p r eps) i j) Filter.atTop
        (nhds (winMean (fun k => winMean (fun t => p.val t j) I.rows r k) I.rows r i))) := by
  constructor
  · intro hn
    have hfun : (fun eps : ℚ => valueAt (rowGuidedFilter I p r eps) i j)
        = fun eps : ℚ => guidedSpec (fun t => I.val i t) (fun t => p.val i t) I.cols r eps j :=
      funext fun eps => valueAt_rowGuidedFilter I p r eps hp hrows hr hn i j hj
    rw [hfun]
    exact guidedSpec_tendsto _ _ _ _ _
  · intro hn
    have hfun : (fun eps : ℚ => valueAt (columnGuidedFilter I p r eps) i j)
        = fun eps : ℚ => guidedSpec (fun t => I.val t j) (fun t => p.val t j) I.rows r eps i :=
      funext fun eps => valueAt_columnGuidedFilter I p r eps hp hcols hr hn i j hi
    rw [hfun]
    exact guidedSpec_tendsto _ _ _ _ _

/-- Witness for C8 (amended): the guide `[0, 0, 0]`, the input `[0, 0, 3]`,
radius 1, index 0. -/
theorem guidedFilter_limit_double_average_witness :
    Filter.Tendsto
      (fun eps : ℚ => valueAt
        (rowGuidedFilter (Mat.ofRows 1 3 [[0, 0, 0]]) (Mat.ofRows 1 3 [[0, 0, 3]]) 1 eps) 0 0)
      Filter.atTop
      (nhds (winMean (fun k => winMean (fun t => (Mat.ofRows 1 3 [[0, 0, 3]]).val 0 t)
        (Mat.ofRows 1 3 [[0, 0, 0]]).cols 1 k) (Mat.ofRows 1 3 [[0, 0, 0]]).cols 1 0)) :=
  (guidedFilter_limit_double_average (Mat.ofRows 1 3 [[0, 0, 0]]) (Mat.ofRows 1 3 [[0, 0, 3]]) 1
    ⟨rfl, rfl⟩ (by decide) (by decide) (by decide) 0 0 (by decide) (by decide)).1 (by decide)

/-! ## The value range of the output -/

/-- Claim C9 fails on the code. The 9 x 9 image that is 0 everywhere except for
the value 1 at pixel `(0, 0)` has all its values in `[0, 1]`; with the default
parameters (`row_radius = 4`, `row_eps = 0.16`, `col_eps = 0.04`)
`denoise1DGuidedFilter` returns an image whose value at pixel `(1, 0)` is
negative, about `-0.0511`. -/
theorem denoise_output_leaves_unit_range :
    (∀ i j : Int, 0 ≤ (Mat.mk 9 9 (fun i j => if i = 0 ∧ j = 0 then 1 else 0)).val i j ∧
      (Mat.mk 9 9 (fun i j => if i = 0 ∧ j = 0 then 1 else 0)).val i j ≤ 1) ∧
    ∃ out, denoise1DGuidedFilter ⟨9, 9, fun i j => if i = 0 ∧ j = 0 then 1 else 0⟩ 4 0.16 0.04
        = .ok out ∧
      out.val 1 0 = -368516073529382876557237455944474479955962
        / 7211803483183316394203743138915835602808487 ∧
      out.val 1 0 < 0 := by
  constructor
  · intro i j
    show (0 : ℚ) ≤ (if i = 0 ∧ j = 0 then 1 else 0) ∧ (if i = 0 ∧ j = 0 then (1 : ℚ) else 0) ≤ 1
    split_ifs <;> norm_num
  · have hst := denoiseStages_eq ⟨9, 9, fun i j => if i = 0 ∧ j = 0 then 1 else 0⟩ 4 0.16 0.04
      (by decide) (by decide) (by decide)
    have hout : denoise1DGuidedFilter ⟨9, 9, fun i j => if i = 0 ∧ j = 0 then 1 else 0⟩ 4 0.16 0.04
        = .ok (stagesSpec ⟨9, 9, fun i j => if i = 0 ∧ j = 0 then 1 else 0⟩ 4 0.16
          0.04).im_output := by
      unfold denoise1DGuidedFilter
      rw [hst, map_ok]
    have hv : valueAt
        (denoise1DGuidedFilter ⟨9, 9, fun i j => if i = 0 ∧ j = 0 then 1 else 0⟩ 4 0.16 0.04) 1 0
        = -368516073529382876557237455944474479955962
          / 7211803483183316394203743138915835602808487 := by decide!
    rw [hout] at hv
    refine ⟨_, hout, hv, ?_⟩
    rw [show (stagesSpec ⟨9, 9, fun i j => if i = 0 ∧ j = 0 then 1 else 0⟩ 4 0.16
      0.04).im_output.val 1 0 = _ from hv]
    norm_num

/-! ## The regularisation parameter is not validated -/

/-- Claim C10, as stated, fails: with `eps = 0` the guide `[1, 2, 4]`, the
input `[0, 1, 0]` and radius 1 give an image from `rowGuidedFilter`, and their
transposes give an image from `columnGuidedFilter`; nothing is thrown. -/
theorem guidedFilter_accepts_zero_eps :
    (∃ q, rowGuidedFilter (Mat.ofRows 1 3 [[1, 2, 4]]) (Mat.ofRows 1 3 [[0, 1, 0]]) 1 0
      = .ok q) ∧
    (∃ q, columnGuidedFilter (Mat.ofRows 3 1 [[1], [2], [4]]) (Mat.ofRows 3 1 [[0], [1], [0]]) 1 0
      = .ok q) :=
  ⟨⟨_, rowGuidedFilter_eq (Mat.ofRows 1 3 [[1, 2, 4]]) (Mat.ofRows 1 3 [[0, 1, 0]]) 1 0
      ⟨rfl, rfl⟩ (by decide) (by decide) (by decide)⟩,
    ⟨_, columnGuidedFilter_eq (Mat.ofRows 3 1 [[1], [2], [4]]) (Mat.ofRows 3 1 [[0], [1], [0]])
      1 0 ⟨rfl, rfl⟩ (by decide) (by decide) (by decide)⟩⟩

/-- Claim C10 (amended). `rowGuidedFilter` and `columnGuidedFilter` do not
check `eps`: for a guide and an input of one non-empty shape and a valid
radius they return an image of that shape for every `eps`, positive or not. -/
theorem guidedFilter_returns_for_every_eps (I p : Mat) (r : Int) (eps : ℚ)
    (hp : p.rows = I.rows ∧ p.cols = I.cols) (hrows : 1 ≤ I.rows) (hcols : 1 ≤ I.cols)
    (hr : 0 ≤ r) :
    ((2 * r + 1 ≤ I.cols) →
      ∃ q, rowGuidedFilter I p r eps = .ok q ∧ q.rows = I.rows ∧ q.cols = I.cols) ∧
    ((2 * r + 1 ≤ I.rows) →
      ∃ q, columnGuidedFilter I p r eps = .ok q ∧ q.rows = I.rows ∧ q.cols = I.cols) :=
  ⟨fun hn => ⟨_, rowGuidedFilter_eq I p r eps hp hrows hr hn, rfl, rfl⟩,
    fun hn => ⟨_, columnGuidedFilter_eq I p r eps hp hcols hr hn, rfl, rfl⟩⟩

/-- Witness for C10 (amended): `eps = -2` on a 1 x 3 guide and input. -/
theorem guidedFilter_returns_for_every_eps_witness :
    ∃ q, rowGuidedFilter (Mat.ofRows 1 3 [[1, 2, 4]]) (Mat.ofRows 1 3 [[0, 1, 0]]) 1 (-2) = .ok q ∧
      q.rows = (Mat.ofRows 1 3 [[1, 2, 4]]).rows ∧ q.cols = (Mat.ofRows 1 3 [[1, 2, 4]]).cols :=
  (guidedFilter_returns_for_every_eps (Mat.ofRows 1 3 [[1, 2, 4]]) (Mat.ofRows 1 3 [[0, 1, 0]])
    1 (-2) ⟨rfl, rfl⟩ (by decide) (by decide) (by decide)).1 (by decide)

/-! ## Shapes of results and shape mismatches -/

theorem forRange_copyToCol_dims (body : Int → Mat → Except CvError Mat) (r c : Nat)
    (lo hi : Int) (d d' : Mat) (hd : d.rows = r ∧ d.cols = c)
    (hl : forRange lo hi body d = .ok d')
    (hb : ∀ j s s', body j s = .ok s' → ∃ x : Mat, x.copyToCol s j = .ok s') :
    d'.rows = r ∧ d'.cols = c := by
  unfold forRange at hl
  refine forLoop_preserves body (fun m => m.rows = r ∧ m.cols = c) ?_ _ _ _ _ hd hl
  intro j s s' hs hbs
  obtain ⟨x, hx⟩ := hb j s s' hbs
  have := copyToCol_dims _ _ _ _ hx
  exact ⟨this.1.trans hs.1, this.2.trans hs.2⟩

theorem forRange_copyToRow_dims (body : Int → Mat → Except CvError Mat) (r c : Nat)
    (lo hi : Int) (d d' : Mat) (hd : d.rows = r ∧ d.cols = c)
    (hl : forRange lo hi body d = .ok d')
    (hb : ∀ j s s', body j s = .ok s' → ∃ x : Mat, x.copyToRow s j = .ok s') :
    d'.rows = r ∧ d'.cols = c := by
  unfold forRange at hl
  refine forLoop_preserves body (fun m => m.rows = r ∧ m.cols = c) ?_ _ _ _ _ hd hl
  intro j s s' hs hbs
  obtain ⟨x, hx⟩ := hb j s s' hbs
  have := copyToRow_dims _ _ _ _ hx
  exact ⟨this.1.trans hs.1, this.2.trans hs.2⟩

/-- An image returned by `rowBoxFilter` has the shape of the input. -/
theorem rowBoxFilter_dims (M D : Mat) (w : Int) (h : rowBoxFilter M w = .ok D) :
    D.rows = M.rows ∧ D.cols = M.cols := by
  unfold rowBoxFilter at h
  simp only [bind_eq_ok, pure_eq_ok] at h
  obtain ⟨cum, -, d1, h1, d2, h2, d3, h3, h4⟩ := h
  have e1 : d1.rows = M.rows ∧ d1.cols = M.cols := by
    refine forRange_copyToCol_dims _ M.rows M.cols _ _ (Mat.zeros M.rows M.cols) _ ⟨rfl, rfl⟩ h1 ?_
    intro j s s' hb
    simp only [bind_eq_ok] at hb
    obtain ⟨a, -, ha⟩ := hb
    exact ⟨a, ha⟩
  have e2 : d2.rows = M.rows ∧ d2.cols = M.cols := by
    refine forRange_copyToCol_dims _ M.rows M.cols _ _ _ _ e1 h2 ?_
    intro j s s' hb
    simp only [bind_eq_ok] at hb
    obtain ⟨a, -, b, -, x, -, hx⟩ := hb
    exact ⟨x, hx⟩
  have e3 : d3.rows = M.rows ∧ d3.cols = M.cols := by
    refine forRange_copyToCol_dims _ M.rows M.cols _ _ _ _ e2 h3 ?_
    intro j s s' hb
    simp only [bind_eq_ok] at hb
    obtain ⟨a, -, b, -, x, -, hx⟩ := hb
    exact ⟨x, hx⟩
  cases h4
  exact e3

/-- An image returned by `columnBoxFilter` has the shape of the input. -/
theorem columnBoxFilter_dims (M D : Mat) (w : Int) (h : columnBoxFilter M w = .ok D) :
    D.rows = M.rows ∧ D.cols = M.cols := by
  unfold columnBoxFilter at h
  simp only [bind_eq_ok, pure_eq_ok] at h
  obtain ⟨cum, -, d1, h1, d2, h2, d3, h3, h4⟩ := h
  have e1 : d1.rows = M.rows ∧ d1.cols = M.cols := by
    refine forRange_copyToRow_dims _ M.rows M.cols _ _ (Mat.zeros M.rows M.cols) _ ⟨rfl, rfl⟩ h1 ?_
    intro j s s' hb
    simp only [bind_eq_ok] at hb
    obtain ⟨a, -, ha⟩ := hb
    exact ⟨a, ha⟩
  have e2 : d2.rows = M.rows ∧ d2.cols = M.cols := by
    refine forRange_copyToRow_dims _ M.rows M.cols _ _ _ _ e1 h2 ?_
    intro j s s' hb
    simp only [bind_eq_ok] at hb
    obtain ⟨a, -, b, -, x, -, hx⟩ := hb
    exact ⟨x, hx⟩
  have e3 : d3.rows = M.rows ∧ d3.cols = M.cols := by
    refine forRange_copyToRow_dims _ M.rows M.cols _ _ _ _ e2 h3 ?_
    intro j s s' hb
    simp only [bind_eq_ok] at hb
    obtain ⟨a, -, b, -, x, -, hx⟩ := hb
    exact ⟨x, hx⟩
  cases h4
  exact e3

theorem arithOp_error (f : ℚ → ℚ → ℚ) (a b : Mat)
    (h : ¬ (a.rows = b.rows ∧ a.cols = b.cols)) (ha : ¬ a.isScalarLike)
    (hb : ¬ b.isScalarLike) : Mat.arithOp f a b = .error .StsUnmatchedSizes := by
  unfold Mat.arithOp
  rw [if_neg h, if_neg ha, if_neg hb]

theorem isScalarLike_congr (a b : Mat) (h1 : a.rows = b.rows) (h2 : a.cols = b.cols) :
    a.isScalarLike ↔ b.isScalarLike := by
  unfold Mat.isScalarLike
  rw [h1, h2]

/-- With an invalid radius the guided filters throw at the window count. -/
theorem rowGuidedFilter_throws (I p : Mat) (r : Int) (eps : ℚ)
    (h : r < 0 ∨ (I.cols : Int) < 2 * r + 1) : ∃ e, rowGuidedFilter I p r eps = .error e := by
  obtain ⟨e, he⟩ := rowBoxFilter_throws (Mat.ones I.rows I.cols) r h
  exact ⟨e, by simp only [rowGuidedFilter, he, error_bind]⟩

theorem columnGuidedFilter_throws (I p : Mat) (r : Int) (eps : ℚ)
    (h : r < 0 ∨ (I.rows : Int) < 2 * r + 1) : ∃ e, columnGuidedFilter I p r eps = .error e := by
  obtain ⟨e, he⟩ := columnBoxFilter_throws (Mat.ones I.rows I.cols) r h
  exact ⟨e, by simp only [columnGuidedFilter, he, error_bind]⟩

/-- A guide and an input of different sizes, none of them read as a scalar,
make `rowGuidedFilter` throw: at the latest when the box sum of `p` is divided
by the window count of `I`. -/
theorem rowGuidedFilter_mismatch (I p : Mat) (r : Int) (eps : ℚ)
    (hd : ¬ (p.rows = I.rows ∧ p.cols = I.cols)) (hI : ¬ I.isScalarLike)
    (hp : ¬ p.isScalarLike) : ∃ e, rowGuidedFilter I p r eps = .error e := by
  simp only [rowGuidedFilter, Mat.divide]
  rcases h1 : rowBoxFilter (Mat.ones I.rows I.cols) r with e | N
  · exact ⟨e, by simp only [error_bind]⟩
  obtain ⟨hN1, hN2⟩ := rowBoxFilter_dims _ _ _ h1
  simp only [ok_bind]
  rcases h2 : rowBoxFilter I r with e | bI
  · exact ⟨e, by simp only [error_bind]⟩
  obtain ⟨hI1, hI2⟩ := rowBoxFilter_dims _ _ _ h2
  simp only [ok_bind]
  rw [arithOp_zip _ bI N (hI1.trans hN1.symm) (hI2.trans hN2.symm), ok_bind]
  rcases h3 : rowBoxFilter p r with e | bp
  · exact ⟨e, by simp only [error_bind]⟩
  obtain ⟨hp1, hp2⟩ := rowBoxFilter_dims _ _ _ h3
  simp only [ok_bind]
  rw [arithOp_error _ bp N (by rw [hp1, hp2, hN1, hN2]; exact hd)
    (fun hs => hp ((isScalarLike_congr bp p hp1 hp2).mp hs))
    (fun hs => hI ((isScalarLike_congr N I hN1 hN2).mp hs))]
  exact ⟨.StsUnmatchedSizes, by simp only [error_bind]⟩

theorem columnGuidedFilter_mismatch (I p : Mat) (r : Int) (eps : ℚ)
    (hd : ¬ (p.rows = I.rows ∧ p.cols = I.cols)) (hI : ¬ I.isScalarLike)
    (hp : ¬ p.isScalarLike) : ∃ e, columnGuidedFilter I p r eps = .error e := by
  simp only [columnGuidedFilter, Mat.divide]
  rcases h1 : columnBoxFilter (Mat.ones I.rows I.cols) r with e | N
  · exact ⟨e, by simp only [error_bind]⟩
  obtain ⟨hN1, hN2⟩ := columnBoxFilter_dims _ _ _ h1
  simp only [ok_bind]
  rcases h2 : columnBoxFilter I r with e | bI
  · exact ⟨e, by simp only [error_bind]⟩
  obtain ⟨hI1, hI2⟩ := columnBoxFilter_dims _ _ _ h2
  simp only [ok_bind]
  rw [arithOp_zip _ bI N (hI1.trans hN1.symm) (hI2.trans hN2.symm), ok_bind]
  rcases h3 : columnBoxFilter p r with e | bp
  · exact ⟨e, by simp only [error_bind]⟩
  obtain ⟨hp1, hp2⟩ := columnBoxFilter_dims _ _ _ h3
  simp only [ok_bind]
  rw [arithOp_error _ bp N (by rw [hp1, hp2, hN1, hN2]; exact hd)
    (fun hs => hp ((isScalarLike_congr bp p hp1 hp2).mp hs))
    (fun hs => hI ((isScalarLike_congr N I hN1 hN2).mp hs))]
  exact ⟨.StsUnmatchedSizes, by simp only [error_bind]⟩

theorem map_error {α β : Type} (f : α → β) (e : CvError) :
    (Except.error e : Except CvError α).map f = .error e := rfl

theorem opSub_empty (a b : Mat) (h : a.rows = 0 ∨ a.cols = 0) :
    a.opSub b = .error .StsBadArg := by
  unfold Mat.opSub Mat.empty
  rw [if_pos (Or.inl h)]

/-- Claim C11, as stated, fails: a `1 x 1` input is read by OpenCV's
element-wise arithmetic as a scalar, so with the `1 x 3` guide `[1, 2, 4]`,
radius 0 and `eps = 1` `rowGuidedFilter` returns the image `[5, 5, 5]` for the
input `[5]`, and `columnGuidedFilter` does the same on the transposed guide. -/
theorem guidedFilter_accepts_scalar_like_input :
    (∃ q, rowGuidedFilter (Mat.ofRows 1 3 [[1, 2, 4]]) (Mat.ofRows 1 1 [[5]]) 0 1 = .ok q ∧
      q.toRows = [[5, 5, 5]]) ∧
    (∃ q, columnGuidedFilter (Mat.ofRows 3 1 [[1], [2], [4]]) (Mat.ofRows 1 1 [[5]]) 0 1 = .ok q ∧
      q.toRows = [[5], [5], [5]]) := by
  have h1 : (rowGuidedFilter (Mat.ofRows 1 3 [[1, 2, 4]]) (Mat.ofRows 1 1 [[5]]) 0
      1).toOption.map Mat.toRows = some [[5, 5, 5]] := by decide!
  have h2 : (columnGuidedFilter (Mat.ofRows 3 1 [[1], [2], [4]]) (Mat.ofRows 1 1 [[5]]) 0
      1).toOption.map Mat.toRows = some [[5], [5], [5]] := by decide!
  constructor
  · rcases h : rowGuidedFilter (Mat.ofRows 1 3 [[1, 2, 4]]) (Mat.ofRows 1 1 [[5]]) 0 1
      with e | q
    · rw [h] at h1; cases h1
    · rw [h] at h1
      exact ⟨q, rfl, Option.some.inj h1⟩
  · rcases h : columnGuidedFilter (Mat.ofRows 3 1 [[1], [2], [4]]) (Mat.ofRows 1 1 [[5]]) 0 1
      with e | q
    · rw [h] at h2; cases h2
    · rw [h] at h2
      exact ⟨q, rfl, Option.some.inj h2⟩

/-- Claim C11 (amended). For a guide `I` and an input `p` whose dimensions
differ and none of which has a shape that OpenCV reads as a scalar (`1 x 1`,
or 4 rows and 1 column), `rowGuidedFilter(I, p, r, eps)` and
`columnGuidedFilter(I, p, r, eps)` throw and return no image, for every radius
and every `eps`. -/
theorem guidedFilter_throws_on_shape_mismatch (I p : Mat) (r : Int) (eps : ℚ)
    (hd : p.rows ≠ I.rows ∨ p.cols ≠ I.cols) (hI : ¬ I.isScalarLike)
    (hp : ¬ p.isScalarLike) :
    (∃ e, rowGuidedFilter I p r eps = .error e) ∧
    (∃ e, columnGuidedFilter I p r eps = .error e) :=
  ⟨rowGuidedFilter_mismatch I p r eps (fun h => hd.elim (fun h1 => h1 h.1) (fun h2 => h2 h.2))
      hI hp,
    columnGuidedFilter_mismatch I p r eps
      (fun h => hd.elim (fun h1 => h1 h.1) (fun h2 => h2 h.2)) hI hp⟩

/-- Witness for C11 (amended): a `2 x 3` guide and a `2 x 2` input. -/
theorem guidedFilter_throws_on_shape_mismatch_witness :
    (∃ e, rowGuidedFilter (Mat.ofRows 2 3 [[1, 2, 4], [0, 1, 0]])
      (Mat.ofRows 2 2 [[1, 2], [3, 4]]) 0 1 = .error e) ∧
    (∃ e, columnGuidedFilter (Mat.ofRows 2 3 [[1, 2, 4], [0, 1, 0]])
      (Mat.ofRows 2 2 [[1, 2], [3, 4]]) 0 1 = .error e) :=
  guidedFilter_throws_on_shape_mismatch (Mat.ofRows 2 3 [[1, 2, 4], [0, 1, 0]])
    (Mat.ofRows 2 2 [[1, 2], [3, 4]]) 0 1 (Or.inr (by decide)) (by decide) (by decide)

/-! ## Empty images -/

/-- Claim C12. For every image with zero rows or zero columns (the `0 x 0`
image included) and every choice of parameters, `denoise1DGuidedFilter` throws
and returns no image. -/
theorem denoise_rejects_empty_image (input : Mat) (row_radius : Int) (row_eps col_eps : ℚ)
    (h : input.rows = 0 ∨ input.cols = 0) :
    ∃ e, denoise1DGuidedFilter input row_radius row_eps col_eps = .error e := by
  unfold denoise1DGuidedFilter
  simp only [denoiseStages]
  rcases hl : forRange 0 (input.rows : Int) (fun i smooth => do
      let row_i ← input.row i
      let result ← rowGuidedFilter row_i row_i row_radius row_eps
      result.copyToRow smooth i) (Mat.zeros input.rows input.cols) with e | smooth
  · exact ⟨e, by simp only [error_bind, map_error]⟩
  · exact ⟨.StsBadArg, by simp only [ok_bind, opSub_empty input smooth h, error_bind, map_error]⟩

/-- Witness for C12: the `0 x 0` image with the default parameters. -/
theorem denoise_rejects_empty_image_witness :
    ∃ e, denoise1DGuidedFilter ⟨0, 0, fun _ _ => 0⟩ 4 0.16 0.04 = .error e :=
  denoise_rejects_empty_image ⟨0, 0, fun _ _ => 0⟩ 4 0.16 0.04 (Or.inl rfl)

/-! ## The local variance -/

theorem winMean_nonneg (f : Int → ℚ) (n : Nat) (r k : Int) (h : ∀ t : Int, 0 ≤ f t) :
    0 ≤ winMean f n r k := by
  unfold winMean
  exact div_nonneg (Finset.sum_nonneg (fun t _ => h t)) (Nat.cast_nonneg _)

/-- The window variance is a mean of squares. -/
theorem winVar_nonneg (f : Int → ℚ) (n : Nat) (r k : Int) : 0 ≤ winVar f n r k := by
  unfold winVar winCov
  exact winMean_nonneg _ n r k (fun t => mul_self_nonneg _)

/-- Claim C13. For a non-empty guide `I` and a radius with `0 ≤ r`,
`2r + 1 ≤ cols`, the local variance `var_I = mean_II - mean_I * mean_I` that
`rowGuidedFilter` forms from `rowBoxFilter(I.mul(I), r)`, `rowBoxFilter(I, r)`
and the window count `N` is `≥ 0` at every pixel, so `var_I + eps > 0` for
every `eps > 0` and the division by it is never a division by zero; the same
holds for `columnGuidedFilter` when `2r + 1 ≤ rows`. -/
theorem guidedFilter_variance_nonneg (I : Mat) (r : Int) (hrows : 1 ≤ I.rows)
    (hcols : 1 ≤ I.cols) (hr : 0 ≤ r) :
    ((2 * r + 1 ≤ I.cols) →
      ∃ II N bI bII, I.mul I = .ok II ∧ rowBoxFilter (Mat.ones I.rows I.cols) r = .ok N ∧
        rowBoxFilter I r = .ok bI ∧ rowBoxFilter II r = .ok bII ∧
        ∀ i j : Int, 0 ≤ i → i < I.rows → 0 ≤ j → j < I.cols →
          0 ≤ bII.val i j / N.val i j - bI.val i j / N.val i j * (bI.val i j / N.val i j) ∧
          ∀ eps : ℚ, 0 < eps →
            0 < bII.val i j / N.val i j - bI.val i j / N.val i j * (bI.val i j / N.val i j)
              + eps) ∧
    ((2 * r + 1 ≤ I.rows) →
      ∃ II N bI bII, I.mul I = .ok II ∧ columnBoxFilter (Mat.ones I.rows I.cols) r = .ok N ∧
        columnBoxFilter I r = .ok bI ∧ columnBoxFilter II r = .ok bII ∧
        ∀ i j : Int, 0 ≤ i → i < I.rows → 0 ≤ j → j < I.cols →
          0 ≤ bII.val i j / N.val i j - bI.val i j / N.val i j * (bI.val i j / N.val i j) ∧
          ∀ eps : ℚ, 0 < eps →
            0 < bII.val i j / N.val i j - bI.val i j / N.val i j * (bI.val i j / N.val i j)
              + eps) := by
  constructor
  · intro hn
    refine ⟨_, _, _, _, arithOp_zip _ I I rfl rfl,
      rowBoxFilter_eq (Mat.ones I.rows I.cols) r hrows hr hn, rowBoxFilter_eq I r hrows hr hn,
      rowBoxFilter_eq (Mat.zipWith (fun x y => x * y) I I) r hrows hr hn, ?_⟩
    intro i j _ _ h1 h2
    have key : (rowBoxSpec (Mat.zipWith (fun x y => x * y) I I) r).val i j
          / (rowBoxSpec (Mat.ones I.rows I.cols) r).val i j
        - (rowBoxSpec I r).val i j / (rowBoxSpec (Mat.ones I.rows I.cols) r).val i j
          * ((rowBoxSpec I r).val i j / (rowBoxSpec (Mat.ones I.rows I.cols) r).val i j)
        = winVar (fun t => I.val i t) I.cols r j := by
      show box1D (fun t => I.val i t * I.val i t) I.cols r j / box1D (fun _ => 1) I.cols r j
        - box1D (fun t => I.val i t) I.cols r j / box1D (fun _ => 1) I.cols r j
          * (box1D (fun t => I.val i t) I.cols r j / box1D (fun _ => 1) I.cols r j) = _
      rw [box1D_div _ I.cols r j ⟨h1, h2⟩, box1D_div _ I.cols r j ⟨h1, h2⟩]
      exact winMean_mul_sub (fun t => I.val i t) (fun t => I.val i t) I.cols r j
    rw [key]
    have hv := winVar_nonneg (fun t => I.val i t) I.cols r j
    exact ⟨hv, fun eps he => by linarith⟩
  · intro hn
    refine ⟨_, _, _, _, arithOp_zip _ I I rfl rfl,
      columnBoxFilter_eq (Mat.ones I.rows I.cols) r hcols hr hn,
      columnBoxFilter_eq I r hcols hr hn,
      columnBoxFilter_eq (Mat.zipWith (fun x y => x * y) I I) r hcols hr hn, ?_⟩
    intro i j h1 h2 _ _
    have key : (columnBoxSpec (Mat.zipWith (fun x y => x * y) I I) r).val i j
          / (columnBoxSpec (Mat.ones I.rows I.cols) r).val i j
        - (columnBoxSpec I r).val i j / (columnBoxSpec (Mat.ones I.rows I.cols) r).val i j
          * ((columnBoxSpec I r).val i j / (columnBoxSpec (Mat.ones I.rows I.cols) r).val i j)
        = winVar (fun t => I.val t j) I.rows r i := by
      show box1D (fun t => I.val t j * I.val t j) I.rows r i / box1D (fun _ => 1) I.rows r i
        - box1D (fun t => I.val t j) I.rows r i / box1D (fun _ => 1) I.rows r i
          * (box1D (fun t => I.val t j) I.rows r i / box1D (fun _ => 1) I.rows r i) = _
      rw [box1D_div _ I.rows r i ⟨h1, h2⟩, box1D_div _ I.rows r i ⟨h1, h2⟩]
      exact winMean_mul_sub (fun t => I.val t j) (fun t => I.val t j) I.rows r i
    rw [key]
    have hv := winVar_nonneg (fun t => I.val t j) I.rows r i
    exact ⟨hv, fun eps he => by linarith⟩

/-- Witness for C13: a locally constant `1 x 3` guide with radius 1. -/
theorem guidedFilter_variance_nonneg_witness :
    ∃ II N bI bII, (Mat.ofRows 1 3 [[2, 2, 2]]).mul (Mat.ofRows 1 3 [[2, 2, 2]]) = .ok II ∧
      rowBoxFilter (Mat.ones (Mat.ofRows 1 3 [[2, 2, 2]]).rows (Mat.ofRows 1 3 [[2, 2, 2]]).cols) 1
        = .ok N ∧
      rowBoxFilter (Mat.ofRows 1 3 [[2, 2, 2]]) 1 = .ok bI ∧ rowBoxFilter II 1 = .ok bII :=
  let ⟨II, N, bI, bII, h1, h2, h3, h4, _⟩ :=
    (guidedFilter_variance_nonneg (Mat.ofRows 1 3 [[2, 2, 2]]) 1 (by decide) (by decide)
      (by decide)).1 (by decide)
  ⟨II, N, bI, bII, h1, h2, h3, h4⟩

/-! ## Axis symmetry of the box filters -/

/-- Claim C14. For an image `M` with at least one column and a radius valid for
its number of rows, `columnBoxFilter(M, r)` is the transpose of
`rowBoxFilter(transpose(M), r)`; and for every radius one of the two calls
throws exactly when the other does. -/
theorem columnBoxFilter_eq_transpose_rowBoxFilter (M : Mat) (r : Int) (hcols : 1 ≤ M.cols) :
    ((0 ≤ r ∧ 2 * r + 1 ≤ M.rows) →
      ∃ D, rowBoxFilter M.transpose r = .ok D ∧ columnBoxFilter M r = .ok D.transpose) ∧
    ((∃ e, columnBoxFilter M r = .error e) ↔ (∃ e, rowBoxFilter M.transpose r = .error e)) := by
  have hT : ∀ hv : 0 ≤ r ∧ 2 * r + 1 ≤ (M.rows : Int),
      rowBoxFilter M.transpose r = .ok (rowBoxSpec M.transpose r) :=
    fun hv => rowBoxFilter_eq M.transpose r hcols hv.1 hv.2
  have hC : ∀ hv : 0 ≤ r ∧ 2 * r + 1 ≤ (M.rows : Int),
      columnBoxFilter M r = .ok (columnBoxSpec M r) :=
    fun hv => columnBoxFilter_eq M r hcols hv.1 hv.2
  refine ⟨fun hv => ⟨_, hT hv, hC hv⟩, ?_, ?_⟩
  · rintro ⟨e, he⟩
    by_cases hv : 0 ≤ r ∧ 2 * r + 1 ≤ (M.rows : Int)
    · rw [hC hv] at he; cases he
    · exact rowBoxFilter_throws M.transpose r (by
        show r < 0 ∨ (M.rows : Int) < 2 * r + 1
        omega)
  · rintro ⟨e, he⟩
    by_cases hv : 0 ≤ r ∧ 2 * r + 1 ≤ (M.rows : Int)
    · rw [hT hv] at he; cases he
    · exact columnBoxFilter_throws M r (by omega)

/-- Witness for C14: a `3 x 2` image with radius 1. -/
theorem columnBoxFilter_eq_transpose_rowBoxFilter_witness :
    ∃ D, rowBoxFilter (Mat.ofRows 3 2 [[1, 2], [3, 4], [5, 6]]).transpose 1 = .ok D ∧
      columnBoxFilter (Mat.ofRows 3 2 [[1, 2], [3, 4], [5, 6]]) 1 = .ok D.transpose :=
  (columnBoxFilter_eq_transpose_rowBoxFilter (Mat.ofRows 3 2 [[1, 2], [3, 4], [5, 6]]) 1
    (by decide)).1 ⟨by decide, by decide⟩

/-! ## Independence of the lines -/

theorem winCov_congr (f f' g g' : Int → ℚ) (n : Nat) (r k : Int)
    (hf : ∀ t : Int, 0 ≤ t → t < n → f t = f' t) (hg : ∀ t : Int, 0 ≤ t → t < n → g t = g' t) :
    winCov f g n r k = winCov f' g' n r k := by
  unfold winCov
  rw [winMean_congr f f' n r k hf, winMean_congr g g' n r k hg]
  exact winMean_congr _ _ n r k (fun t h1 h2 => by rw [hf t h1 h2, hg t h1 h2])

theorem coefA_congr (I I' p p' : Int → ℚ) (n : Nat) (r : Int) (eps : ℚ) (k : Int)
    (hI : ∀ t : Int, 0 ≤ t → t < n → I t = I' t) (hp : ∀ t : Int, 0 ≤ t → t < n → p t = p' t) :
    coefA I p n r eps k = coefA I' p' n r eps k := by
  unfold coefA winVar
  rw [winCov_congr I I' p p' n r k hI hp, winCov_congr I I' I I' n r k hI hI]

theorem coefB_congr (I I' p p' : Int → ℚ) (n : Nat) (r : Int) (eps : ℚ) (k : Int)
    (hI : ∀ t : Int, 0 ≤ t → t < n → I t = I' t) (hp : ∀ t : Int, 0 ≤ t → t < n → p t = p' t) :
    coefB I p n r eps k = coefB I' p' n r eps k := by
  unfold coefB
  rw [coefA_congr I I' p p' n r eps k hI hp, winMean_congr p p' n r k hp,
    winMean_congr I I' n r k hI]

/-- The guided-filter output on a line depends only on the values of the
guide and of the input on that line. -/
theorem guidedSpec_congr (I I' p p' : Int → ℚ) (n : Nat) (r : Int) (eps : ℚ) (j : Int)
    (hI : ∀ t : Int, 0 ≤ t → t < n → I t = I' t) (hp : ∀ t : Int, 0 ≤ t → t < n → p t = p' t)
    (hj : 0 ≤ j ∧ j < n) : guidedSpec I p n r eps j = guidedSpec I' p' n r eps j := by
  unfold guidedSpec
  rw [winMean_congr (coefA I p n r eps) (coefA I' p' n r eps) n r j
      (fun t _ _ => coefA_congr I I' p p' n r eps t hI hp),
    winMean_congr (coefB I p n r eps) (coefB I' p' n r eps) n r j
      (fun t _ _ => coefB_congr I I' p p' n r eps t hI hp), hI j hj.1 hj.2]

theorem smoothSpec_val (input : Mat) (row_radius : Int) (row_eps : ℚ) (i j : Int)
    (hi : 0 ≤ i ∧ i < input.rows) (hj : 0 ≤ j ∧ j < input.cols) :
    (smoothSpec input row_radius row_eps).val i j
      = guidedSpec (fun t => input.val i t) (fun t => input.val i t) input.cols row_radius
          row_eps j := by
  simp only [smoothSpec, if_pos hi, rowGuidedSpec, Mat.rowAt, if_pos hj]

theorem stripSpec_val (S H : Mat) (r_col : Int) (col_eps : ℚ) (i j : Int)
    (hi : 0 ≤ i ∧ i < S.rows) (hj : 0 ≤ j ∧ j < S.cols) :
    (stripSpec S H r_col col_eps).val i j
      = guidedSpec (fun t => S.val t j) (fun t => H.val t j) S.rows r_col col_eps i := by
  have hi' : 0 ≤ i ∧ i < ((S.colAt j).rows : Int) := hi
  simp only [stripSpec, if_pos hj, columnGuidedSpec, if_pos hi']
  rfl

theorem denoise_eq_of_stages (input : Mat) (row_radius : Int) (row_eps col_eps : ℚ)
    (st : DenoiseStages) (h : denoiseStages input row_radius row_eps col_eps = .ok st) :
    denoise1DGuidedFilter input row_radius row_eps col_eps = .ok st.im_output := by
  unfold denoise1DGuidedFilter
  rw [h, map_ok]

/-- Claim C15. On a non-empty image with valid parameters, row `i` of
`rowGuidedFilter` applied to the whole image (guide = input = image) equals
`rowGuidedFilter` applied to row `i` alone, and this is row `i` of `smooth`;
`smooth[i, :]` is the same for any other image of the same shape with the same
row `i`. Likewise column `j` of `columnGuidedFilter(smooth, highpart, r_col,
col_eps)` equals the call on column `j` alone, which is column `j` of `strip`. -/
theorem passes_process_lines_independently (input : Mat) (row_radius : Int)
    (row_eps col_eps : ℚ) (hrows : 1 ≤ input.rows) (hr : 0 ≤ row_radius)
    (hn : 2 * row_radius + 1 ≤ input.cols) (hre : 0 < row_eps) (hce : 0 < col_eps) :
    ∃ st whole wholeStrip,
      denoiseStages input row_radius row_eps col_eps = .ok st ∧
      rowGuidedFilter input input row_radius row_eps = .ok whole ∧
      columnGuidedFilter st.smooth st.highpart (colRadius input.rows) col_eps = .ok wholeStrip ∧
      (∀ i : Int, 0 ≤ i → i < input.rows →
        ∃ row_i single, input.row i = .ok row_i ∧
          rowGuidedFilter row_i row_i row_radius row_eps = .ok single ∧
          ∀ j : Int, 0 ≤ j → j < input.cols →
            whole.val i j = single.val 0 j ∧ st.smooth.val i j = single.val 0 j) ∧
      (∀ j : Int, 0 ≤ j → j < input.cols →
        ∃ smooth_col highpart_col single, st.smooth.col j = .ok smooth_col ∧
          st.highpart.col j = .ok highpart_col ∧
          columnGuidedFilter smooth_col highpart_col (colRadius input.rows) col_eps = .ok single ∧
          ∀ i : Int, 0 ≤ i → i < input.rows →
            wholeStrip.val i j = single.val i 0 ∧ st.strip.val i j = single.val i 0) ∧
      (∀ (other : Mat) (i : Int), other.rows = input.rows → other.cols = input.cols →
        0 ≤ i → i < input.rows →
        (∀ j : Int, 0 ≤ j → j < input.cols → other.val i j = input.val i j) →
        ∃ st', denoiseStages other row_radius row_eps col_eps = .ok st' ∧
          ∀ j : Int, 0 ≤ j → j < input.cols → st'.smooth.val i j = st.smooth.val i j) := by
  have _ := hre
  have _ := hce
  have hcols : 1 ≤ input.cols := by omega
  obtain ⟨hc1, hc2⟩ := colRadius_valid input.rows hrows
  refine ⟨_, _, _, denoiseStages_eq input row_radius row_eps col_eps hrows hr hn,
    rowGuidedFilter_eq input input row_radius row_eps ⟨rfl, rfl⟩ hrows hr hn,
    columnGuidedFilter_eq (stagesSpec input row_radius row_eps col_eps).smooth
      (stagesSpec input row_radius row_eps col_eps).highpart (colRadius input.rows) col_eps
      ⟨rfl, rfl⟩ hcols hc1 hc2, ?_, ?_, ?_⟩
  · intro i h1 h2
    refine ⟨_, _, row_ok input i ⟨h1, h2⟩,
      rowGuidedFilter_eq (input.rowAt i) (input.rowAt i) row_radius row_eps ⟨rfl, rfl⟩ le_rfl hr hn,
      ?_⟩
    intro j h3 h4
    constructor
    · simp only [rowGuidedSpec, if_pos (And.intro h3 h4), Mat.rowAt]
    · simp only [stagesSpec, smoothSpec, if_pos (And.intro h1 h2)]
  · intro j h1 h2
    refine ⟨_, _, _, col_ok _ j ⟨h1, h2⟩, col_ok _ j ⟨h1, h2⟩,
      columnGuidedFilter_eq
        ((stagesSpec input row_radius row_eps col_eps).smooth.colAt j)
        ((stagesSpec input row_radius row_eps col_eps).highpart.colAt j)
        (colRadius input.rows) col_eps ⟨rfl, rfl⟩ le_rfl hc1 hc2, ?_⟩
    intro i h3 h4
    have h5 : 0 ≤ j ∧ j < ((smoothSpec input row_radius row_eps).cols : Int) := ⟨h1, h2⟩
    have h6 : 0 ≤ i ∧ i < ((stagesSpec input row_radius row_eps col_eps).smooth.rows : Int) :=
      ⟨h3, h4⟩
    have h7 : 0 ≤ i ∧ i <
        ((((stagesSpec input row_radius row_eps col_eps).smooth.colAt j).rows : Nat) : Int) :=
      ⟨h3, h4⟩
    constructor
    · simp only [columnGuidedSpec, if_pos h6, if_pos h7]
      rfl
    · simp only [stagesSpec, stripSpec, if_pos h5]
  · intro other i ho1 ho2 h1 h2 hsame
    refine ⟨_, denoiseStages_eq other row_radius row_eps col_eps (by omega) hr
      (by rw [ho2]; exact hn), ?_⟩
    intro j h3 h4
    show (smoothSpec other row_radius row_eps).val i j = (smoothSpec input row_radius row_eps).val i j
    rw [smoothSpec_val other _ _ i j ⟨h1, by omega⟩ ⟨h3, by omega⟩,
      smoothSpec_val input _ _ i j ⟨h1, h2⟩ ⟨h3, h4⟩, ho2]
    exact guidedSpec_congr _ _ _ _ _ _ _ _ (fun t ht1 ht2 => hsame t ht1 ht2)
      (fun t ht1 ht2 => hsame t ht1 ht2) ⟨h3, h4⟩

/-- Witness for C15: a `2 x 3` image with row radius 1. -/
theorem passes_process_lines_independently_witness :
    ∃ st whole wholeStrip,
      denoiseStages (Mat.ofRows 2 3 [[0, 1, 0], [1, 1, 0]]) 1 0.16 0.04 = .ok st ∧
      rowGuidedFilter (Mat.ofRows 2 3 [[0, 1, 0], [1, 1, 0]]) (Mat.ofRows 2 3 [[0, 1, 0], [1, 1, 0]])
        1 0.16 = .ok whole ∧
      columnGuidedFilter st.smooth st.highpart
        (colRadius (Mat.ofRows 2 3 [[0, 1, 0], [1, 1, 0]]).rows) 0.04 = .ok wholeStrip :=
  let ⟨st, whole, wholeStrip, h1, h2, h3, _⟩ :=
    passes_process_lines_independently (Mat.ofRows 2 3 [[0, 1, 0], [1, 1, 0]]) 1 0.16 0.04
      (by decide) (by decide) (by decide) (by norm_num) (by norm_num)
  ⟨st, whole, wholeStrip, h1, h2, h3⟩

/-! ## Failure of the pipeline -/

/-- Claim C16. For every height `rows ≥ 1` the derived column radius satisfies
`0 ≤ r_col` and `2 r_col + 1 ≤ rows`; `denoise1DGuidedFilter` throws exactly
when `row_radius < 0` or `2 row_radius + 1 > cols`, and then the row pass
throws: already `rowGuidedFilter` on row 0 does. -/
theorem denoise_throws_only_in_row_pass (input : Mat) (row_radius : Int) (row_eps col_eps : ℚ)
    (hrows : 1 ≤ input.rows) :
    (0 ≤ colRadius input.rows ∧ 2 * colRadius input.rows + 1 ≤ input.rows) ∧
    ((∃ e, denoise1DGuidedFilter input row_radius row_eps col_eps = .error e) ↔
      (row_radius < 0 ∨ (input.cols : Int) < 2 * row_radius + 1)) ∧
    ((row_radius < 0 ∨ (input.cols : Int) < 2 * row_radius + 1) →
      ∃ row_0 e, input.row 0 = .ok row_0 ∧
        rowGuidedFilter row_0 row_0 row_radius row_eps = .error e) := by
  have hrow0 : input.row 0 = .ok (input.rowAt 0) := row_ok input 0 ⟨le_rfl, by omega⟩
  have hthrow : (row_radius < 0 ∨ (input.cols : Int) < 2 * row_radius + 1) →
      ∃ e, rowGuidedFilter (input.rowAt 0) (input.rowAt 0) row_radius row_eps = .error e :=
    fun h => rowGuidedFilter_throws (input.rowAt 0) (input.rowAt 0) row_radius row_eps h
  refine ⟨colRadius_valid input.rows hrows, ⟨?_, ?_⟩, ?_⟩
  · rintro ⟨e, he⟩
    by_contra hv
    have hst := denoiseStages_eq input row_radius row_eps col_eps hrows (by omega) (by omega)
    rw [denoise_eq_of_stages _ _ _ _ _ hst] at he
    cases he
  · intro h
    obtain ⟨e0, he0⟩ := hthrow h
    obtain ⟨e, he⟩ := forRange_throws 0 (input.rows : Int)
      (fun i smooth => do
        let row_i ← input.row i
        let result ← rowGuidedFilter row_i row_i row_radius row_eps
        result.copyToRow smooth i)
      (Mat.zeros input.rows input.cols) 0 le_rfl (by omega)
      (fun s => ⟨e0, by simp only [hrow0, ok_bind, he0, error_bind]⟩)
    exact ⟨e, by
      unfold denoise1DGuidedFilter
      simp only [denoiseStages, he, error_bind, map_error]⟩
  · intro h
    obtain ⟨e0, he0⟩ := hthrow h
    exact ⟨_, e0, hrow0, he0⟩

/-- Witness for C16: a `2 x 3` image with row radius 2, a window of 5 on 3
columns. -/
theorem denoise_throws_only_in_row_pass_witness :
    ∃ e, denoise1DGuidedFilter (Mat.ofRows 2 3 [[0, 1, 0], [1, 1, 0]]) 2 0.16 0.04 = .error e :=
  (denoise_throws_only_in_row_pass (Mat.ofRows 2 3 [[0, 1, 0], [1, 1, 0]]) 2 0.16 0.04
    (by decide)).2.1.mpr (Or.inr (by decide))

/-! ## The value range of self-guided filtering -/

/-- A window mean lies between any bounds of the values on the line. -/
theorem winMean_mem_Icc (f : Int → ℚ) (n : Nat) (r k : Int) (lo hi : ℚ)
    (h : ∀ t : Int, 0 ≤ t → t < n → lo ≤ f t ∧ f t ≤ hi) (hr : 0 ≤ r) (hk : 0 ≤ k ∧ k < n) :
    lo ≤ winMean f n r k ∧ winMean f n r k ≤ hi := by
  have hc := window_card_pos n r k hr hk
  have h1 : ((window n r k).card : ℚ) * lo ≤ ∑ t in window n r k, f t := by
    have := Finset.card_nsmul_le_sum (window n r k) f lo
      (fun t ht => (h t (mem_window n r k t ht).1 (mem_window n r k t ht).2).1)
    rwa [nsmul_eq_mul] at this
  have h2 : ∑ t in window n r k, f t ≤ ((window n r k).card : ℚ) * hi := by
    have := Finset.sum_le_card_nsmul (window n r k) f hi
      (fun t ht => (h t (mem_window n r k t ht).1 (mem_window n r k t ht).2).2)
    rwa [nsmul_eq_mul] at this
  unfold winMean
  constructor
  · rw [le_div_iff₀ hc]; linarith
  · rw [div_le_iff₀ hc]; linarith

theorem winMean_mul_const_add (f g : Int → ℚ) (c : ℚ) (n : Nat) (r k : Int) :
    winMean f n r k * c + winMean g n r k = winMean (fun t => f t * c + g t) n r k := by
  unfold winMean
  rw [Finset.sum_add_distrib, ← Finset.sum_mul]
  ring

/-- The slope of self-guided filtering lies in `[0, 1)`. -/
theorem coefA_self_mem (I : Int → ℚ) (n : Nat) (r : Int) (eps : ℚ) (k : Int) (heps : 0 < eps) :
    0 ≤ coefA I I n r eps k ∧ coefA I I n r eps k < 1 := by
  have hv := winVar_nonneg I n r k
  have e : coefA I I n r eps k = winVar I n r k / (winVar I n r k + eps) := rfl
  rw [e]
  constructor
  · exact div_nonneg hv (by linarith)
  · rw [div_lt_one (by linarith)]; linarith

/-- Self-guided filtering keeps every output between the bounds of the line. -/
theorem guidedSpec_self_mem_Icc (I : Int → ℚ) (n : Nat) (r : Int) (eps : ℚ) (j : Int)
    (lo hi : ℚ) (h : ∀ t : Int, 0 ≤ t → t < n → lo ≤ I t ∧ I t ≤ hi) (hr : 0 ≤ r)
    (heps : 0 < eps) (hj : 0 ≤ j ∧ j < n) :
    lo ≤ guidedSpec I I n r eps j ∧ guidedSpec I I n r eps j ≤ hi := by
  unfold guidedSpec
  rw [winMean_mul_const_add]
  refine winMean_mem_Icc _ n r j lo hi ?_ hr hj
  intro k hk1 hk2
  obtain ⟨ha0, ha1⟩ := coefA_self_mem I n r eps k heps
  obtain ⟨hm0, hm1⟩ := winMean_mem_Icc I n r k lo hi h hr ⟨hk1, hk2⟩
  obtain ⟨hx0, hx1⟩ := h j hj.1 hj.2
  have e : coefB I I n r eps k = winMean I n r k - coefA I I n r eps k * winMean I n r k := rfl
  rw [e]
  generalize coefA I I n r eps k = a at *
  generalize winMean I n r k = m at *
  constructor
  · nlinarith [mul_nonneg ha0 (sub_nonneg.2 hx0),
      mul_nonneg (sub_nonneg.2 ha1.le) (sub_nonneg.2 hm0)]
  · nlinarith [mul_nonneg ha0 (sub_nonneg.2 hx1),
      mul_nonneg (sub_nonneg.2 ha1.le) (sub_nonneg.2 hm1)]

/-- The local variance `mean_II - mean_I * mean_I` that `rowGuidedFilter`
forms from its box filters is the variance over the clamped window. -/
theorem rowBoxSpec_variance (I : Mat) (r : Int) (i j : Int) (hj : 0 ≤ j ∧ j < I.cols) :
    (rowBoxSpec (Mat.zipWith (fun x y => x * y) I I) r).val i j
        / (rowBoxSpec (Mat.ones I.rows I.cols) r).val i j
      - (rowBoxSpec I r).val i j / (rowBoxSpec (Mat.ones I.rows I.cols) r).val i j
        * ((rowBoxSpec I r).val i j / (rowBoxSpec (Mat.ones I.rows I.cols) r).val i j)
      = winVar (fun t => I.val i t) I.cols r j := by
  show box1D (fun t => I.val i t * I.val i t) I.cols r j / box1D (fun _ => 1) I.cols r j
    - box1D (fun t => I.val i t) I.cols r j / box1D (fun _ => 1) I.cols r j
      * (box1D (fun t => I.val i t) I.cols r j / box1D (fun _ => 1) I.cols r j) = _
  rw [box1D_div _ I.cols r j hj, box1D_div _ I.cols r j hj]
  exact winMean_mul_sub (fun t => I.val i t) (fun t => I.val i t) I.cols r j

/-- Claim C17, as stated, fails in the binary64 arithmetic of the source. For
the row `[0.1, 0.1, 0.1]`, whose values lie in `[0.1, 0.1]`, radius 1 and
`eps = 0.16`, `rowGuidedFilter(I, I, r, eps)` returns `0.10000000000000002`
at indices 1 and 2, above `hi = 0.1`; with `eps = 2^-59 > 0` every value it
returns is a NaN. -/
theorem selfGuidedFilter_double_leaves_range :
    (ieee.rowGuidedFilter (ieee.Mat.mk 1 3 (fun _ _ => Double.round 0.1))
        (ieee.Mat.mk 1 3 (fun _ _ => Double.round 0.1)) 1 (Double.round 0.16)).toOption.map
        ieee.Mat.toRows
      = some [[Double.round 0.1, Double.round 0.10000000000000002,
          Double.round 0.10000000000000002]] ∧
    (Double.round 0.1).toRat < (Double.round 0.10000000000000002).toRat ∧
    (ieee.rowGuidedFilter (ieee.Mat.mk 1 3 (fun _ _ => Double.round 0.1))
        (ieee.Mat.mk 1 3 (fun _ _ => Double.round 0.1)) 1 (.num (1 / 2 ^ 59))).toOption.map
        ieee.Mat.toRows
      = some [[.nan, .nan, .nan]] := by
  decide!

/-- Claim C17 (amended). Over exact arithmetic, for an image `I` with at least
one row whose values all lie in `[lo, hi]`, a radius with `0 ≤ r`,
`2r + 1 ≤ cols` and `eps > 0`: every value of `rowGuidedFilter(I, I, r, eps)`
lies in `[lo, hi]`; the slope `a = v / (v + eps)` that the code forms from
`v = mean_II - mean_I * mean_I` (with `p = I` its `cov_Ip` and `var_I` are this
same expression of `rowBoxFilter(I.mul(I))`, `rowBoxFilter(I)` and `N`) lies in
`[0, 1)` at every pixel; and the image `smooth` of the row pass of
`denoise1DGuidedFilter` stays within `[lo, hi]`. -/
theorem selfGuidedFilter_preserves_range (I : Mat) (r : Int) (eps lo hi : ℚ)
    (hI : ∀ i j : Int, 0 ≤ i → i < I.rows → 0 ≤ j → j < I.cols →
      lo ≤ I.val i j ∧ I.val i j ≤ hi)
    (hrows : 1 ≤ I.rows) (hr : 0 ≤ r) (hn : 2 * r + 1 ≤ I.cols) (heps : 0 < eps) :
    (∃ q, rowGuidedFilter I I r eps = .ok q ∧ q.rows = I.rows ∧ q.cols = I.cols ∧
      ∀ i j : Int, 0 ≤ i → i < I.rows → 0 ≤ j → j < I.cols →
        lo ≤ q.val i j ∧ q.val i j ≤ hi) ∧
    (∃ II N bI bII, I.mul I = .ok II ∧ rowBoxFilter (Mat.ones I.rows I.cols) r = .ok N ∧
      rowBoxFilter I r = .ok bI ∧ rowBoxFilter II r = .ok bII ∧
      ∀ i j : Int, 0 ≤ i → i < I.rows → 0 ≤ j → j < I.cols →
        0 ≤ (bII.val i j / N.val i j - bI.val i j / N.val i j * (bI.val i j / N.val i j))
            / (bII.val i j / N.val i j - bI.val i j / N.val i j * (bI.val i j / N.val i j)
              + eps) ∧
        (bII.val i j / N.val i j - bI.val i j / N.val i j * (bI.val i j / N.val i j))
            / (bII.val i j / N.val i j - bI.val i j / N.val i j * (bI.val i j / N.val i j)
              + eps) < 1) ∧
    (∀ col_eps : ℚ, ∃ st, denoiseStages I r eps col_eps = .ok st ∧
      ∀ i j : Int, 0 ≤ i → i < I.rows → 0 ≤ j → j < I.cols →
        lo ≤ st.smooth.val i j ∧ st.smooth.val i j ≤ hi) := by
  have hline : ∀ i j : Int, 0 ≤ i → i < I.rows → 0 ≤ j → j < I.cols →
      lo ≤ guidedSpec (fun t => I.val i t) (fun t => I.val i t) I.cols r eps j ∧
        guidedSpec (fun t => I.val i t) (fun t => I.val i t) I.cols r eps j ≤ hi :=
    fun i j h1 h2 h3 h4 => guidedSpec_self_mem_Icc (fun t => I.val i t) I.cols r eps j lo hi
      (fun t ht1 ht2 => hI i t h1 h2 ht1 ht2) hr heps ⟨h3, h4⟩
  refine ⟨⟨_, rowGuidedFilter_eq I I r eps ⟨rfl, rfl⟩ hrows hr hn, rfl, rfl, ?_⟩,
    ⟨_, _, _, _, arithOp_zip _ I I rfl rfl,
      rowBoxFilter_eq (Mat.ones I.rows I.cols) r hrows hr hn, rowBoxFilter_eq I r hrows hr hn,
      rowBoxFilter_eq (Mat.zipWith (fun x y => x * y) I I) r hrows hr hn, ?_⟩, ?_⟩
  · intro i j h1 h2 h3 h4
    simp only [rowGuidedSpec, if_pos (And.intro h3 h4)]
    exact hline i j h1 h2 h3 h4
  · intro i j _ _ h3 h4
    rw [rowBoxSpec_variance I r i j ⟨h3, h4⟩]
    have hv := winVar_nonneg (fun t => I.val i t) I.cols r j
    constructor
    · exact div_nonneg hv (by linarith)
    · rw [div_lt_one (by linarith)]; linarith
  · intro col_eps
    refine ⟨_, denoiseStages_eq I r eps col_eps hrows hr hn, ?_⟩
    intro i j h1 h2 h3 h4
    show lo ≤ (smoothSpec I r eps).val i j ∧ (smoothSpec I r eps).val i j ≤ hi
    rw [smoothSpec_val I r eps i j ⟨h1, h2⟩ ⟨h3, h4⟩]
    exact hline i j h1 h2 h3 h4

/-- Witness for C17: the `1 x 3` image `[0, 1, 1/2]` with values in `[0, 1]`,
radius 1 and `eps = 0.16`. -/
theorem selfGuidedFilter_preserves_range_witness :
    ∃ q, rowGuidedFilter (Mat.mk 1 3 (fun _ j => if j = 0 then 0 else if j = 1 then 1 else 1 / 2))
        (Mat.mk 1 3 (fun _ j => if j = 0 then 0 else if j = 1 then 1 else 1 / 2)) 1 0.16 = .ok q ∧
      q.rows = 1 ∧ q.cols = 3 ∧
      ∀ i j : Int, 0 ≤ i → i < (1 : Nat) → 0 ≤ j → j < (3 : Nat) →
        0 ≤ q.val i j ∧ q.val i j ≤ 1 :=
  (selfGuidedFilter_preserves_range
    (Mat.mk 1 3 (fun _ j => if j = 0 then 0 else if j = 1 then 1 else 1 / 2)) 1 0.16 0 1
    (fun i j _ _ _ _ => by
      show (0 : ℚ) ≤ (if j = 0 then 0 else if j = 1 then 1 else 1 / 2) ∧
        (if j = 0 then (0 : ℚ) else if j = 1 then 1 else 1 / 2) ≤ 1
      split_ifs <;> norm_num)
    (by decide) (by decide) (by decide) (by norm_num)).1

/-! ## Images whose rows are all the same -/

/-- Claim C18, as stated, fails in the binary64 arithmetic of the source. On
the `9 x 3` image with every row `[0.1, 0.7, 0.3]`, row radius 1 and the
default `row_eps = 0.16`, `col_eps = 0.04`, the column radius is 1 and the
rounded column pass does not return `highpart`: at pixel `(5, 0)` `strip` is
`-0.19199999999999992` against `highpart = -0.19200000000000003`, and the
output is `0.2919999999999999` against `smooth = 0.29200000000000004`. -/
theorem denoise_double_strip_differs_on_identical_rows :
    colRadius 9 = 1 ∧
    (ieee.denoiseStages
        (ieee.Mat.mk 9 3 (fun _ j =>
          if j = 0 then Double.round 0.1 else if j = 1 then Double.round 0.7
          else Double.round 0.3))
        1 (Double.round 0.16) (Double.round 0.04)).toOption.map
        (fun st => (st.strip.val 5 0, st.highpart.val 5 0, st.im_output.val 5 0, st.smooth.val 5 0))
      = some (Double.round (-0.19199999999999992), Double.round (-0.19200000000000003),
          Double.round 0.2919999999999999, Double.round 0.29200000000000004) ∧
    Double.round (-0.19199999999999992) ≠ Double.round (-0.19200000000000003) ∧
    Double.round 0.2919999999999999 ≠ Double.round 0.29200000000000004 := by
  decide!

/-- Claim C18 (amended). Over exact arithmetic, for a non-empty image whose
rows are all identical, a row radius with `0 ≤ row_radius`,
`2 row_radius + 1 ≤ cols` and positive `row_eps`, `col_eps`, the column pass
returns `strip = highpart` exactly, so
`denoise1DGuidedFilter` returns the row-smoothed image: row `i` of the output
is `rowGuidedFilter(input.row(i), input.row(i), row_radius, row_eps)`. -/
theorem denoise_identical_rows (input : Mat) (row_radius : Int) (row_eps col_eps : ℚ)
    (hident : ∀ i j : Int, 0 ≤ i → i < input.rows → 0 ≤ j → j < input.cols →
      input.val i j = input.val 0 j)
    (hrows : 1 ≤ input.rows) (hr : 0 ≤ row_radius) (hn : 2 * row_radius + 1 ≤ input.cols)
    (hre : 0 < row_eps) (hce : 0 < col_eps) :
    ∃ st : DenoiseStages,
      denoiseStages input row_radius row_eps col_eps = .ok st ∧
      denoise1DGuidedFilter input row_radius row_eps col_eps = .ok st.im_output ∧
      (∀ i j : Int, 0 ≤ i → i < input.rows → 0 ≤ j → j < input.cols →
        st.strip.val i j = st.highpart.val i j ∧ st.im_output.val i j = st.smooth.val i j) ∧
      (∀ i : Int, 0 ≤ i → i < input.rows →
        ∃ row_i result, input.row i = .ok row_i ∧
          rowGuidedFilter row_i row_i row_radius row_eps = .ok result ∧
          ∀ j : Int, 0 ≤ j → j < input.cols → st.im_output.val i j = result.val 0 j) := by
  have _ := hre
  have _ := hce
  have hst := denoiseStages_eq input row_radius row_eps col_eps hrows hr hn
  obtain ⟨hc1, hc2⟩ := colRadius_valid input.rows hrows
  have hsm : ∀ i j : Int, 0 ≤ i → i < input.rows → 0 ≤ j → j < input.cols →
      (smoothSpec input row_radius row_eps).val i j
        = (smoothSpec input row_radius row_eps).val 0 j := by
    intro i j h1 h2 h3 h4
    rw [smoothSpec_val input _ _ i j ⟨h1, h2⟩ ⟨h3, h4⟩,
      smoothSpec_val input _ _ 0 j ⟨le_rfl, by omega⟩ ⟨h3, h4⟩]
    exact guidedSpec_congr _ _ _ _ _ _ _ _ (fun t ht1 ht2 => hident i t h1 h2 ht1 ht2)
      (fun t ht1 ht2 => hident i t h1 h2 ht1 ht2) ⟨h3, h4⟩
  have hhigh : ∀ i j : Int, 0 ≤ i → i < input.rows → 0 ≤ j → j < input.cols →
      (Mat.zipWith (fun x y => x - y) input (smoothSpec input row_radius row_eps)).val i j
        = input.val 0 j - (smoothSpec input row_radius row_eps).val 0 j := by
    intro i j h1 h2 h3 h4
    show input.val i j - (smoothSpec input row_radius row_eps).val i j = _
    rw [hsm i j h1 h2 h3 h4, hident i j h1 h2 h3 h4]
  have hstrip : ∀ i j : Int, 0 ≤ i → i < input.rows → 0 ≤ j → j < input.cols →
      (stagesSpec input row_radius row_eps col_eps).strip.val i j
        = (stagesSpec input row_radius row_eps col_eps).highpart.val i j := by
    intro i j h1 h2 h3 h4
    show (stripSpec (smoothSpec input row_radius row_eps)
        (Mat.zipWith (fun x y => x - y) input (smoothSpec input row_radius row_eps))
        (colRadius input.rows) col_eps).val i j
      = (Mat.zipWith (fun x y => x - y) input (smoothSpec input row_radius row_eps)).val i j
    rw [stripSpec_val (smoothSpec input row_radius row_eps)
      (Mat.zipWith (fun x y => x - y) input (smoothSpec input row_radius row_eps))
      (colRadius input.rows) col_eps i j ⟨h1, h2⟩ ⟨h3, h4⟩, hhigh i j h1 h2 h3 h4]
    exact guidedSpec_const_input _ _ _ _ _ _ _
      (fun t ht1 ht2 => hhigh t j ht1 ht2 h3 h4) hc1 ⟨h1, h2⟩
  have hout : ∀ i j : Int, 0 ≤ i → i < input.rows → 0 ≤ j → j < input.cols →
      (stagesSpec input row_radius row_eps col_eps).im_output.val i j
        = (smoothSpec input row_radius row_eps).val i j := by
    intro i j h1 h2 h3 h4
    show input.val i j - (stagesSpec input row_radius row_eps col_eps).strip.val i j = _
    rw [hstrip i j h1 h2 h3 h4]
    show input.val i j - (input.val i j - (smoothSpec input row_radius row_eps).val i j) = _
    ring
  refine ⟨_, hst, denoise_eq_of_stages _ _ _ _ _ hst, ?_, ?_⟩
  · intro i j h1 h2 h3 h4
    exact ⟨hstrip i j h1 h2 h3 h4, hout i j h1 h2 h3 h4⟩
  · intro i h1 h2
    refine ⟨_, _, row_ok input i ⟨h1, h2⟩,
      rowGuidedFilter_eq (input.rowAt i) (input.rowAt i) row_radius row_eps ⟨rfl, rfl⟩ le_rfl hr hn,
      ?_⟩
    intro j h3 h4
    rw [hout i j h1 h2 h3 h4]
    simp only [smoothSpec, if_pos (And.intro h1 h2)]

/-- Witness for C18: the `9 x 3` image with every row `[0, 1, 0]` (a column
stripe), row radius 1; the column radius is 1. -/
theorem denoise_identical_rows_witness :
    colRadius 9 = 1 ∧
    ∃ st : DenoiseStages,
      denoiseStages (Mat.mk 9 3 (fun _ j => if j = 1 then 1 else 0)) 1 0.16 0.04 = .ok st ∧
      denoise1DGuidedFilter (Mat.mk 9 3 (fun _ j => if j = 1 then 1 else 0)) 1 0.16 0.04
        = .ok st.im_output ∧
      (∀ i j : Int, 0 ≤ i → i < (9 : Nat) → 0 ≤ j → j < (3 : Nat) →
        st.strip.val i j = st.highpart.val i j ∧ st.im_output.val i j = st.smooth.val i j) :=
  ⟨by decide!,
    let ⟨st, h1, h2, h3, _⟩ := denoise_identical_rows
      (Mat.mk 9 3 (fun _ j => if j = 1 then 1 else 0)) 1 0.16 0.04
      (fun _ _ _ _ _ _ => rfl) (by decide) (by decide) (by decide) (by norm_num) (by norm_num)
    ⟨st, h1, h2, h3⟩⟩

/-! ## Linearity in the input -/

theorem winMean_linear (f g : Int → ℚ) (s u : ℚ) (n : Nat) (r k : Int) :
    winMean (fun t => s * f t + u * g t) n r k = s * winMean f n r k + u * winMean g n r k := by
  unfold winMean
  rw [Finset.sum_add_distrib, ← Finset.mul_sum, ← Finset.mul_sum]
  ring

theorem winCov_linear (I p1 p2 : Int → ℚ) (s u : ℚ) (n : Nat) (r k : Int) :
    winCov I (fun t => s * p1 t + u * p2 t) n r k
      = s * winCov I p1 n r k + u * winCov I p2 n r k := by
  have e : winMean (fun t => s * p1 t + u * p2 t) n r k
      = s * winMean p1 n r k + u * winMean p2 n r k := winMean_linear p1 p2 s u n r k
  unfold winCov
  rw [← winMean_linear (fun t => (I t - winMean I n r k) * (p1 t - winMean p1 n r k))
    (fun t => (I t - winMean I n r k) * (p2 t - winMean p2 n r k)) s u n r k]
  refine winMean_congr _ _ n r k (fun t _ _ => ?_)
  show (I t - winMean I n r k)
      * (s * p1 t + u * p2 t - winMean (fun t => s * p1 t + u * p2 t) n r k)
    = s * ((I t - winMean I n r k) * (p1 t - winMean p1 n r k))
      + u * ((I t - winMean I n r k) * (p2 t - winMean p2 n r k))
  rw [e]
  ring

theorem coefA_linear (I p1 p2 : Int → ℚ) (s u : ℚ) (n : Nat) (r : Int) (eps : ℚ) (k : Int) :
    coefA I (fun t => s * p1 t + u * p2 t) n r eps k
      = s * coefA I p1 n r eps k + u * coefA I p2 n r eps k := by
  unfold coefA
  rw [winCov_linear]
  ring

theorem coefB_linear (I p1 p2 : Int → ℚ) (s u : ℚ) (n : Nat) (r : Int) (eps : ℚ) (k : Int) :
    coefB I (fun t => s * p1 t + u * p2 t) n r eps k
      = s * coefB I p1 n r eps k + u * coefB I p2 n r eps k := by
  unfold coefB
  rw [coefA_linear, winMean_linear]
  ring

/-- For a fixed guide the guided-filter output is linear in the input. -/
theorem guidedSpec_linear (I p1 p2 : Int → ℚ) (s u : ℚ) (n : Nat) (r : Int) (eps : ℚ) (j : Int) :
    guidedSpec I (fun t => s * p1 t + u * p2 t) n r eps j
      = s * guidedSpec I p1 n r eps j + u * guidedSpec I p2 n r eps j := by
  unfold guidedSpec
  have hA : coefA I (fun t => s * p1 t + u * p2 t) n r eps
      = fun k => s * coefA I p1 n r eps k + u * coefA I p2 n r eps k :=
    funext fun k => coefA_linear I p1 p2 s u n r eps k
  have hB : coefB I (fun t => s * p1 t + u * p2 t) n r eps
      = fun k => s * coefB I p1 n r eps k + u * coefB I p2 n r eps k :=
    funext fun k => coefB_linear I p1 p2 s u n r eps k
  rw [hA, hB, winMean_linear, winMean_linear]
  ring

/-- Claim C19, as stated, fails in the binary64 arithmetic of the source. For
the guide `[1, 2, 4]`, the inputs `p1 = [0, 1, 0]`, `p2 = [1, 0, 0]`, the
scalars 2 and 3 (so `2 p1 + 3 p2 = [3, 2, 0]` exactly), radius 1 and `eps = 1`,
`rowGuidedFilter` returns `1.9231884057971018` at index 1 for the combined
input, while `2 q1[1] + 3 q2[1]` is `1.9231884057971014`, in binary64 and over
exact arithmetic on the returned values alike. -/
theorem guidedFilter_double_not_linear_in_input :
    (ieee.rowGuidedFilter (ieee.Mat.ofRows 1 3 [[.num 1, .num 2, .num 4]])
        (ieee.Mat.ofRows 1 3 [[.num 3, .num 2, .zero false]]) 1 (.num 1)).toOption.map
        ieee.Mat.toRows
      = some [[Double.round 2.539130434782609, Double.round 1.9231884057971018,
          Double.round 0.5760869565217388]] ∧
    (ieee.rowGuidedFilter (ieee.Mat.ofRows 1 3 [[.num 1, .num 2, .num 4]])
        (ieee.Mat.ofRows 1 3 [[.zero false, .num 1, .zero false]]) 1 (.num 1)).toOption.map
        ieee.Mat.toRows
      = some [[Double.round 0.3956521739130435, Double.round 0.5659420289855073,
          Double.round 0.2554347826086957]] ∧
    (ieee.rowGuidedFilter (ieee.Mat.ofRows 1 3 [[.num 1, .num 2, .num 4]])
        (ieee.Mat.ofRows 1 3 [[.num 1, .zero false, .zero false]]) 1 (.num 1)).toOption.map
        ieee.Mat.toRows
      = some [[Double.round 0.582608695652174, Double.round 0.263768115942029,
          Double.round 0.021739130434782594]] ∧
    Double.add (Double.mul (.num 2) (.zero false)) (Double.mul (.num 3) (.num 1)) = .num 3 ∧
    Double.add (Double.mul (.num 2) (.num 1)) (Double.mul (.num 3) (.zero false)) = .num 2 ∧
    Double.add (Double.mul (.num 2) (Double.round 0.5659420289855073))
        (Double.mul (.num 3) (Double.round 0.263768115942029))
      = Double.round 1.9231884057971014 ∧
    Double.round 1.9231884057971014 ≠ Double.round 1.9231884057971018 ∧
    2 * (Double.round 0.5659420289855073).toRat + 3 * (Double.round 0.263768115942029).toRat
      ≠ (Double.round 1.9231884057971018).toRat := by
  decide!

/-- Claim C19 (amended). Over exact arithmetic, for a fixed non-empty guide
`I`, a radius `r ≥ 0` and `eps > 0`, the guided filter is linear in its input:
for inputs `p1`, `p2` of
the guide's shape, scalars `s`, `t` and the image `p = s * p1 + t * p2`,
`rowGuidedFilter(I, p, r, eps) = s * rowGuidedFilter(I, p1, r, eps)
+ t * rowGuidedFilter(I, p2, r, eps)` at every pixel when `2r + 1 ≤ cols`, and
the same for `columnGuidedFilter` when `2r + 1 ≤ rows`. -/
theorem guidedFilter_linear_in_input (I p1 p2 p : Mat) (r : Int) (eps s t : ℚ)
    (h1 : p1.rows = I.rows ∧ p1.cols = I.cols) (h2 : p2.rows = I.rows ∧ p2.cols = I.cols)
    (hp : p.rows = I.rows ∧ p.cols = I.cols)
    (hval : ∀ i j : Int, 0 ≤ i → i < I.rows → 0 ≤ j → j < I.cols →
      p.val i j = s * p1.val i j + t * p2.val i j)
    (hrows : 1 ≤ I.rows) (hcols : 1 ≤ I.cols) (hr : 0 ≤ r) (heps : 0 < eps) :
    ((2 * r + 1 ≤ I.cols) →
      ∃ q q1 q2, rowGuidedFilter I p r eps = .ok q ∧ rowGuidedFilter I p1 r eps = .ok q1 ∧
        rowGuidedFilter I p2 r eps = .ok q2 ∧
        ∀ i j : Int, 0 ≤ i → i < I.rows → 0 ≤ j → j < I.cols →
          q.val i j = s * q1.val i j + t * q2.val i j) ∧
    ((2 * r + 1 ≤ I.rows) →
      ∃ q q1 q2, columnGuidedFilter I p r eps = .ok q ∧ columnGuidedFilter I p1 r eps = .ok q1 ∧
        columnGuidedFilter I p2 r eps = .ok q2 ∧
        ∀ i j : Int, 0 ≤ i → i < I.rows → 0 ≤ j → j < I.cols →
          q.val i j = s * q1.val i j + t * q2.val i j) := by
  have _ := heps
  constructor
  · intro hn
    refine ⟨_, _, _, rowGuidedFilter_eq I p r eps hp hrows hr hn,
      rowGuidedFilter_eq I p1 r eps h1 hrows hr hn, rowGuidedFilter_eq I p2 r eps h2 hrows hr hn,
      ?_⟩
    intro i j hi1 hi2 hj1 hj2
    simp only [rowGuidedSpec, if_pos (And.intro hj1 hj2)]
    rw [← guidedSpec_linear]
    exact guidedSpec_congr _ _ _ _ _ _ _ _ (fun _ _ _ => rfl)
      (fun c hc1 hc2 => hval i c hi1 hi2 hc1 hc2) ⟨hj1, hj2⟩
  · intro hn
    refine ⟨_, _, _, columnGuidedFilter_eq I p r eps hp hcols hr hn,
      columnGuidedFilter_eq I p1 r eps h1 hcols hr hn,
      columnGuidedFilter_eq I p2 r eps h2 hcols hr hn, ?_⟩
    intro i j hi1 hi2 hj1 hj2
    simp only [columnGuidedSpec, if_pos (And.intro hi1 hi2)]
    rw [← guidedSpec_linear]
    exact guidedSpec_congr _ _ _ _ _ _ _ _ (fun _ _ _ => rfl)
      (fun c hc1 hc2 => hval c j hc1 hc2 hj1 hj2) ⟨hi1, hi2⟩

/-- Witness for C19: guide `[1, 2, 4]`, inputs `[0, 1, 0]` and `[1, 0, 0]`,
scalars 2 and 3, radius 1, `eps = 1`. -/
theorem guidedFilter_linear_in_input_witness :
    ∃ q q1 q2,
      rowGuidedFilter (Mat.ofRows 1 3 [[1, 2, 4]])
        (Mat.mk 1 3 (fun i j => 2 * (Mat.ofRows 1 3 [[0, 1, 0]]).val i j
          + 3 * (Mat.ofRows 1 3 [[1, 0, 0]]).val i j)) 1 1 = .ok q ∧
      rowGuidedFilter (Mat.ofRows 1 3 [[1, 2, 4]]) (Mat.ofRows 1 3 [[0, 1, 0]]) 1 1 = .ok q1 ∧
      rowGuidedFilter (Mat.ofRows 1 3 [[1, 2, 4]]) (Mat.ofRows 1 3 [[1, 0, 0]]) 1 1 = .ok q2 ∧
      ∀ i j : Int, 0 ≤ i → i < (Mat.ofRows 1 3 [[1, 2, 4]]).rows → 0 ≤ j →
        j < (Mat.ofRows 1 3 [[1, 2, 4]]).cols → q.val i j = 2 * q1.val i j + 3 * q2.val i j :=
  (guidedFilter_linear_in_input (Mat.ofRows 1 3 [[1, 2, 4]]) (Mat.ofRows 1 3 [[0, 1, 0]])
    (Mat.ofRows 1 3 [[1, 0, 0]])
    (Mat.mk 1 3 (fun i j => 2 * (Mat.ofRows 1 3 [[0, 1, 0]]).val i j
      + 3 * (Mat.ofRows 1 3 [[1, 0, 0]]).val i j)) 1 1 2 3
    ⟨rfl, rfl⟩ ⟨rfl, rfl⟩ ⟨rfl, rfl⟩ (fun _ _ _ _ _ _ => rfl)
    (by decide) (by decide) (by decide) (by norm_num)).1 (by decide)

end gf
